import Mathlib

set_option maxHeartbeats 1000000
set_option maxRecDepth 10000

/-!
Formal model of the dialogue-orchestration and structured-extraction core of the
`ai-interview-agent` repository: the `InterviewEngine` state machine
(`interview_engine.py`), the summary parsing/validation pipeline
(`interview_generator.py`), the JSON repair cascade (`emergency_fix.py`),
the `ResourceMonitor` eviction policy, and the `difflib.SequenceMatcher`
similarity ratio used for duplicate detection.

Python values that can occur in the JSON-ish records are embedded as the
inductive type `Json`; Python floats are embedded as exact rationals
(all thresholds compared in this code base are exactly representable and far
from rounding boundaries); Python exceptions are embedded as `Except`.
-/

namespace AIIA

/-- Embedding of the Python values that flow through the JSON repair and
summary validation code: `None`, `bool`, numbers (`int`/`float` unified as
exact rationals), `str`, `list`, `dict` (as an insertion-ordered association
list with unique keys), and the non-finite float constants (`NaN`,
`Infinity`, `-Infinity`) that Python's `json.loads` accepts. -/
inductive Json where
  | null
  | bool (b : Bool)
  | num (q : Rat)
  | str (s : String)
  | arr (elems : List Json)
  | obj (fields : List (String × Json))
  | special (tag : String)

namespace Json

/-- Python `d[k]` / `d.get(k)` on an insertion-ordered dict. -/
def lookup? (fields : List (String × Json)) (k : String) : Option Json :=
  match fields with
  | [] => none
  | (k', v) :: rest => if k' = k then some v else lookup? rest k

/-- Python `d[k] = v`: updates the value in place if the key exists
(keeping its insertion position), otherwise appends the new key. -/
def setKey (fields : List (String × Json)) (k : String) (v : Json) :
    List (String × Json) :=
  match fields with
  | [] => [(k, v)]
  | (k', v') :: rest =>
      if k' = k then (k', v) :: rest else (k', v') :: setKey rest k v

/-- Python `k in d`. -/
def hasKey (fields : List (String × Json)) (k : String) : Bool :=
  (lookup? fields k).isSome

/-- Python truthiness of an embedded value (`bool(v)`). -/
def truthy : Json → Bool
  | .null => false
  | .bool b => b
  | .num q => q != 0
  | .str s => s ≠ ""
  | .arr elems => !elems.isEmpty
  | .obj fields => !fields.isEmpty
  | .special _ => true

/-- Python `isinstance(v, list)`. -/
def isList : Json → Bool
  | .arr _ => true
  | _ => false

/-- Python `isinstance(v, str)`. -/
def isStr : Json → Bool
  | .str _ => true
  | _ => false

/-- Python `isinstance(v, dict)`. -/
def isDict : Json → Bool
  | .obj _ => true
  | _ => false

/-- Python `isinstance(v, (int, float))`.  `bool` is a subclass of `int` in
Python, so booleans satisfy this isinstance check as well. -/
def isNumber : Json → Bool
  | .num _ => true
  | .bool _ => true
  | .special _ => true
  | _ => false

end Json

/-! ### Python string primitives

The Python code manipulates `str` values via `strip`, `lower`, `split`,
substring tests, and `endswith`.  Strings are processed as `List Char`. -/

/-- The characters Python's `str.strip()` removes (ASCII whitespace; the
strings this system manipulates are ASCII-oriented prompts and answers). -/
def pyIsSpace (c : Char) : Bool :=
  c = ' ' || c = '\t' || c = '\n' || c = '\x0d' || c = '\x0b' || c = '\x0c'

/-- ASCII lower-casing of one character (Python `str.lower` restricted to
the ASCII range used by this code base). -/
def pyLowerChar (c : Char) : Char :=
  if 'A' ≤ c ∧ c ≤ 'Z' then Char.ofNat (c.toNat + 32) else c

/-- Python `s.lower()`. -/
def pyLower (s : List Char) : List Char := s.map pyLowerChar

/-- Python `s.strip()`. -/
def pyStrip (s : List Char) : List Char :=
  ((s.dropWhile pyIsSpace).reverse.dropWhile pyIsSpace).reverse

/-- Helper for `pySplit`: accumulates maximal non-whitespace runs. -/
def pySplitAux : List Char → List Char → List (List Char)
  | [], acc => if acc.isEmpty then [] else [acc.reverse]
  | c :: rest, acc =>
      if pyIsSpace c then
        if acc.isEmpty then pySplitAux rest [] else acc.reverse :: pySplitAux rest []
      else pySplitAux rest (c :: acc)

/-- Python `s.split()` (split on whitespace runs, no empty words). -/
def pySplit (s : List Char) : List (List Char) := pySplitAux s []

/-- Python `needle in haystack` (substring containment). -/
def containsSub (haystack needle : List Char) : Bool :=
  match haystack with
  | [] => needle.isEmpty
  | _ :: rest => needle.isPrefixOf haystack || containsSub rest needle

/-- Python `s.endswith(t)` for a one-character suffix. -/
def pyEndsWith (s : List Char) (c : Char) : Bool :=
  match s.getLast? with
  | some c' => c' = c
  | none => false

/-- Digit test (ASCII). -/
def isDigitChar (c : Char) : Bool := '0' ≤ c ∧ c ≤ '9'

/-- Value of an ASCII digit. -/
def digitVal (c : Char) : Nat := c.toNat - '0'.toNat

/-- Folds a digit run into a natural number. -/
def digitsToNat (ds : List Char) : Nat :=
  ds.foldl (fun acc c => acc * 10 + digitVal c) 0

/-- Python `int(s)`: optional surrounding whitespace, optional sign, then a
non-empty digit run; anything else raises `ValueError` (embedded as `none`). -/
def pyInt (s : List Char) : Option Int :=
  let t := pyStrip s
  let (sign, rest) :=
    match t with
    | '-' :: r => ((-1 : Int), r)
    | '+' :: r => ((1 : Int), r)
    | r => ((1 : Int), r)
  if rest.isEmpty then none
  else if rest.all isDigitChar then some (sign * (digitsToNat rest : Int))
  else none

/-! ### Model of Python `json.loads`

A strict recursive-descent JSON reader following CPython's `json` module:
whitespace is space/tab/newline/carriage-return, numbers follow the JSON
grammar (no leading zeros, fraction and exponent only consumed when followed
by digits), strings reject unescaped control characters and unknown escapes,
and the non-standard constants `NaN`/`Infinity`/`-Infinity` are accepted.
Failure (a `JSONDecodeError`) is embedded as `none`. -/

/-- Double-quote character. -/
def dqChar : Char := Char.ofNat 34

/-- Backslash character. -/
def bsChar : Char := Char.ofNat 92

/-- Opening brace character. -/
def lbChar : Char := Char.ofNat 123

/-- Closing brace character. -/
def rbChar : Char := Char.ofNat 125

/-- Opening bracket character. -/
def lkChar : Char := Char.ofNat 91

/-- Closing bracket character. -/
def rkChar : Char := Char.ofNat 93

namespace PyJson

/-- JSON inter-token whitespace (CPython `json`: space, tab, newline, CR). -/
def jsonWs (c : Char) : Bool :=
  c = ' ' || c = '\t' || c = '\n' || c = '\x0d'

/-- Skips JSON whitespace. -/
def skipWs (cs : List Char) : List Char := cs.dropWhile jsonWs

/-- Hex digit value. -/
def hexVal (c : Char) : Option Nat :=
  if '0' ≤ c ∧ c ≤ '9' then some (c.toNat - '0'.toNat)
  else if 'a' ≤ c ∧ c ≤ 'f' then some (c.toNat - 'a'.toNat + 10)
  else if 'A' ≤ c ∧ c ≤ 'F' then some (c.toNat - 'A'.toNat + 10)
  else none

/-- Parses exactly four hex digits. -/
def hex4 : List Char → Option (Nat × List Char)
  | a :: b :: c :: d :: rest => do
      let va ← hexVal a
      let vb ← hexVal b
      let vc ← hexVal c
      let vd ← hexVal d
      pure (((va * 16 + vb) * 16 + vc) * 16 + vd, rest)
  | _ => none

/-- Parses the body of a JSON string after the opening quote; returns the
decoded content and the remaining input after the closing quote.  Unescaped
control characters and unknown escapes are rejected (CPython strict mode).
Unicode escapes combine surrogate pairs; a lone surrogate (which CPython keeps
as a lone surrogate code unit, unrepresentable in a Lean `Char`) is embedded
as U+FFFD. -/
def parseStrBody : Nat → List Char → List Char → Option (String × List Char)
  | 0, _, _ => none
  | _, [], _ => none
  | fuel + 1, c :: rest, acc =>
      if c = dqChar then some (String.mk acc.reverse, rest)
      else if c = bsChar then
        match rest with
        | [] => none
        | e :: rest2 =>
            if e = dqChar then parseStrBody fuel rest2 (dqChar :: acc)
            else if e = bsChar then parseStrBody fuel rest2 (bsChar :: acc)
            else if e = '/' then parseStrBody fuel rest2 ('/' :: acc)
            else if e = 'b' then parseStrBody fuel rest2 ('\x08' :: acc)
            else if e = 'f' then parseStrBody fuel rest2 ('\x0c' :: acc)
            else if e = 'n' then parseStrBody fuel rest2 ('\n' :: acc)
            else if e = 'r' then parseStrBody fuel rest2 ('\x0d' :: acc)
            else if e = 't' then parseStrBody fuel rest2 ('\t' :: acc)
            else if e = 'u' then
              match hex4 rest2 with
              | none => none
              | some (v, rest3) =>
                  if 0xD800 ≤ v ∧ v < 0xDC00 then
                    match rest3 with
                    | b2 :: u2 :: rest4 =>
                        if b2 = bsChar ∧ u2 = 'u' then
                          match hex4 rest4 with
                          | some (v2, rest5) =>
                              if 0xDC00 ≤ v2 ∧ v2 < 0xE000 then
                                let scalar :=
                                  0x10000 + (v - 0xD800) * 0x400 + (v2 - 0xDC00)
                                parseStrBody fuel rest5 (Char.ofNat scalar :: acc)
                              else
                                parseStrBody fuel rest3 (Char.ofNat 0xFFFD :: acc)
                          | none => parseStrBody fuel rest3 (Char.ofNat 0xFFFD :: acc)
                        else parseStrBody fuel rest3 (Char.ofNat 0xFFFD :: acc)
                    | _ => parseStrBody fuel rest3 (Char.ofNat 0xFFFD :: acc)
                  else if 0xDC00 ≤ v ∧ v < 0xE000 then
                    parseStrBody fuel rest3 (Char.ofNat 0xFFFD :: acc)
                  else parseStrBody fuel rest3 (Char.ofNat v :: acc)
            else none
      else if c.toNat < 0x20 then none
      else parseStrBody fuel rest (c :: acc)

/-- Parses a JSON number (CPython `NUMBER_RE`): optional minus, integer part
without leading zeros, then a fraction / exponent each consumed only when
followed by at least one digit.  Returns the exact rational value. -/
def parseNumber (cs : List Char) : Option (Rat × List Char) :=
  let (neg, cs1) := match cs with
    | '-' :: r => (true, r)
    | r => (false, r)
  match cs1.head? with
  | none => none
  | some c =>
      if ¬ isDigitChar c then none
      else
        let ds := cs1.takeWhile isDigitChar
        let rest := cs1.dropWhile isDigitChar
        if 1 < ds.length ∧ ds.head? = some '0' then none
        else
          let ip : Nat := digitsToNat ds
          let (fracDs, rest2) :=
            match rest with
            | '.' :: r =>
                if (r.head?.map isDigitChar).getD false then
                  (r.takeWhile isDigitChar, r.dropWhile isDigitChar)
                else ([], rest)
            | _ => ([], rest)
          let (expOk, expNeg, expDs, rest3) :=
            match rest2 with
            | e :: r =>
                if e = 'e' ∨ e = 'E' then
                  match r with
                  | s :: r2 =>
                      if s = '+' ∧ (r2.head?.map isDigitChar).getD false then
                        (true, false, r2.takeWhile isDigitChar,
                         r2.dropWhile isDigitChar)
                      else if s = '-' ∧ (r2.head?.map isDigitChar).getD false then
                        (true, true, r2.takeWhile isDigitChar,
                         r2.dropWhile isDigitChar)
                      else if isDigitChar s then
                        (true, false, r.takeWhile isDigitChar,
                         r.dropWhile isDigitChar)
                      else (false, false, [], rest2)
                  | [] => (false, false, [], rest2)
                else (false, false, [], rest2)
            | [] => (false, false, [], rest2)
          let flen := fracDs.length
          let mantissa : Rat :=
            (ip : Rat) + (digitsToNat fracDs : Rat) / ((10 : Rat) ^ flen)
          let scaled : Rat :=
            if expOk then
              if expNeg then mantissa / ((10 : Rat) ^ digitsToNat expDs)
              else mantissa * ((10 : Rat) ^ digitsToNat expDs)
            else mantissa
          some (if neg then -scaled else scaled, rest3)

mutual

/-- Parses one JSON value starting at the given input (no leading
whitespace); `fuel` bounds nesting depth. -/
def parseValue : Nat → List Char → Option (Json × List Char)
  | 0, _ => none
  | fuel + 1, cs =>
      match cs with
      | [] => none
      | c :: rest =>
          if c = dqChar then
            (parseStrBody (rest.length + 1) rest []).map fun p => (Json.str p.1, p.2)
          else if c = lbChar then
            let cs2 := skipWs rest
            if cs2.head? = some rbChar then some (Json.obj [], cs2.tail)
            else parseMembers fuel cs2 []
          else if c = lkChar then
            let cs2 := skipWs rest
            if cs2.head? = some rkChar then some (Json.arr [], cs2.tail)
            else parseItems fuel cs2 []
          else if ['t', 'r', 'u', 'e'].isPrefixOf cs then
            some (Json.bool true, cs.drop 4)
          else if ['f', 'a', 'l', 's', 'e'].isPrefixOf cs then
            some (Json.bool false, cs.drop 5)
          else if ['n', 'u', 'l', 'l'].isPrefixOf cs then
            some (Json.null, cs.drop 4)
          else if ['N', 'a', 'N'].isPrefixOf cs then
            some (Json.special "NaN", cs.drop 3)
          else if ['I', 'n', 'f', 'i', 'n', 'i', 't', 'y'].isPrefixOf cs then
            some (Json.special "Infinity", cs.drop 8)
          else if ['-', 'I', 'n', 'f', 'i', 'n', 'i', 't', 'y'].isPrefixOf cs then
            some (Json.special "-Infinity", cs.drop 9)
          else
            (parseNumber cs).map fun p => (Json.num p.1, p.2)

/-- Parses the members of a JSON object after at least one member is known to
follow; `acc` carries the members parsed so far (duplicate keys: last wins,
first position kept, as for a Python dict). -/
def parseMembers (fuel : Nat) (cs : List Char) (acc : List (String × Json)) :
    Option (Json × List Char) :=
  match fuel with
  | 0 => none
  | fuel + 1 =>
      match cs with
      | c :: rest =>
          if c = dqChar then
            match parseStrBody (rest.length + 1) rest [] with
            | none => none
            | some (key, cs2) =>
                match skipWs cs2 with
                | ':' :: cs3 =>
                    match parseValue fuel (skipWs cs3) with
                    | none => none
                    | some (v, cs4) =>
                        let acc2 := Json.setKey acc key v
                        match skipWs cs4 with
                        | ',' :: cs5 => parseMembers fuel (skipWs cs5) acc2
                        | d :: cs5 =>
                            if d = rbChar then some (Json.obj acc2, cs5)
                            else none
                        | [] => none
                | _ => none
          else none
      | [] => none

/-- Parses the items of a JSON array after at least one item is known to
follow. -/
def parseItems (fuel : Nat) (cs : List Char) (acc : List Json) :
    Option (Json × List Char) :=
  match fuel with
  | 0 => none
  | fuel + 1 =>
      match parseValue fuel cs with
      | none => none
      | some (v, cs2) =>
          match skipWs cs2 with
          | ',' :: cs3 => parseItems fuel (skipWs cs3) (acc ++ [v])
          | d :: cs3 =>
              if d = rkChar then some (Json.arr (acc ++ [v]), cs3)
              else none
          | [] => none

end

/-- Model of Python `json.loads`: parse one value surrounded by optional
whitespace; any leftover input is a `JSONDecodeError` (`none`). -/
def loads (s : List Char) : Option Json :=
  match parseValue (s.length + 1) (skipWs s) with
  | none => none
  | some (v, rest) => if (skipWs rest).isEmpty then some v else none

end PyJson

/-! ### A small backtracking regular-expression engine

The repair cascade in `emergency_fix.py` is built from `re.sub`, `re.search`
and `re.findall` calls.  Each Python pattern is embedded as an `RE` syntax
tree and executed by a backtracking matcher with CPython's semantics for
these constructs: leftmost scanning, prioritised alternation, greedy and lazy
single-character-class stars (a star iteration must consume input), numbered
capture groups, lookahead, and the no-`MULTILINE` meaning of `^`/`$`. -/

/-- Regular-expression syntax for the patterns used by the repair cascade.
`cls` holds the character predicate of a (possibly negated) character class;
`litCI` is a case-insensitive literal (the effect of `re.IGNORECASE`). -/
inductive RE where
  | eps
  | lit (c : Char)
  | litCI (c : Char)
  | cls (p : Char → Bool)
  | seq (a b : RE)
  | alt (a b : RE)
  | star (greedy : Bool) (a : RE)
  | group (idx : Nat) (a : RE)
  | look (a : RE)
  | bos
  | eos

namespace RE

/-- Sequencing of a pattern list. -/
def seqL : List RE → RE
  | [] => .eps
  | [r] => r
  | r :: rest => .seq r (seqL rest)

/-- Case-sensitive literal word. -/
def litStr (s : List Char) : RE := seqL (s.map RE.lit)

/-- Case-insensitive literal word. -/
def litStrCI (s : List Char) : RE := seqL (s.map RE.litCI)

/-- Greedy `r?`. -/
def opt (r : RE) : RE := .alt r .eps

/-- Structural size, used to bound the matcher's fuel. -/
def siz : RE → Nat
  | .eps | .lit _ | .litCI _ | .cls _ | .bos | .eos => 1
  | .seq a b | .alt a b => siz a + siz b + 1
  | .star _ a | .group _ a | .look a => siz a + 1

end RE

/-- Captured groups: group index to captured characters. -/
def Caps := List (Nat × List Char)

/-- Records a capture (later captures of the same group override). -/
def setCap (caps : Caps) (n : Nat) (v : List Char) : Caps :=
  match caps with
  | [] => [(n, v)]
  | (m, w) :: rest => if m = n then (m, v) :: rest else (m, w) :: setCap rest n v

/-- Reads a capture; an unmatched group reads as the empty string (the `""`
entries of `re.findall` tuples). -/
def getCap (caps : Caps) (n : Nat) : List Char :=
  match caps with
  | [] => []
  | (m, w) :: rest => if m = n then w else getCap rest n

/-- The backtracking matcher: returns every way the pattern can match a
prefix of `cs`, as `(rest, captures)` pairs in backtracking priority order
(first entry = the match the `re` engine reports).  `orig` is the length of
the whole subject (for `^`); `fuel` only needs to dominate the recursion
depth, which is bounded by pattern size times subject length. -/
def reRun (orig : Nat) : Nat → RE → List Char → Caps → List (List Char × Caps)
  | 0, _, _, _ => []
  | _ + 1, .eps, cs, caps => [(cs, caps)]
  | _ + 1, .lit c, cs, caps =>
      match cs with
      | x :: rest => if x = c then [(rest, caps)] else []
      | [] => []
  | _ + 1, .litCI c, cs, caps =>
      match cs with
      | x :: rest => if pyLowerChar x = pyLowerChar c then [(rest, caps)] else []
      | [] => []
  | _ + 1, .cls p, cs, caps =>
      match cs with
      | x :: rest => if p x then [(rest, caps)] else []
      | [] => []
  | fuel + 1, .seq a b, cs, caps =>
      (reRun orig fuel a cs caps).flatMap fun rc => reRun orig fuel b rc.1 rc.2
  | fuel + 1, .alt a b, cs, caps =>
      reRun orig fuel a cs caps ++ reRun orig fuel b cs caps
  | fuel + 1, .star greedy a, cs, caps =>
      let deeper :=
        ((reRun orig fuel a cs caps).filter fun rc => rc.1.length < cs.length).flatMap
          fun rc => reRun orig fuel (.star greedy a) rc.1 rc.2
      if greedy then deeper ++ [(cs, caps)] else (cs, caps) :: deeper
  | fuel + 1, .group n a, cs, caps =>
      (reRun orig fuel a cs caps).map fun rc =>
        (rc.1, setCap rc.2 n (cs.take (cs.length - rc.1.length)))
  | fuel + 1, .look a, cs, caps =>
      if (reRun orig fuel a cs caps).isEmpty then [] else [(cs, caps)]
  | _ + 1, .bos, cs, caps => if cs.length = orig then [(cs, caps)] else []
  | _ + 1, .eos, cs, caps =>
      if cs.isEmpty || cs = ['\n'] then [(cs, caps)] else []

/-- Fuel sufficient for the patterns in this development. -/
def reFuel (re : RE) (len : Nat) : Nat := (re.siz + 2) * (len + 2)

/-- One match attempt anchored at the current position. -/
def reTry (re : RE) (orig : Nat) (cs : List Char) : Option (List Char × Caps) :=
  (reRun orig (reFuel re cs.length) re cs []).head?

/-- A match found while scanning: characters before the match, the matched
characters, the captures, and the rest of the subject. -/
structure ReMatch where
  pre : List Char
  matched : List Char
  caps : Caps
  rest : List Char

/-- Python `re.search`: leftmost match. -/
def reSearch (re : RE) (cs : List Char) : Option ReMatch :=
  go cs []
where
  go : List Char → List Char → Option ReMatch
    | s, seen =>
      match reTry re cs.length s with
      | some (rest, caps) =>
          some ⟨seen.reverse, s.take (s.length - rest.length), caps, rest⟩
      | none =>
          match s with
          | [] => none
          | c :: s' => go s' (c :: seen)

/-- Replacement template element: literal text or a group reference. -/
inductive Repl where
  | txt (s : List Char)
  | grp (n : Nat)

/-- Instantiates a replacement template. -/
def applyRepl (caps : Caps) (tmpl : List Repl) : List Char :=
  tmpl.flatMap fun r =>
    match r with
    | .txt s => s
    | .grp n => getCap caps n

/-- Python `re.sub`: leftmost non-overlapping matches replaced, scanning
resumed after each match (the patterns used here never match empty input; an
empty match falls back to single-character advance to stay well-founded). -/
def reSub (re : RE) (tmpl : List Repl) (cs : List Char) : List Char :=
  go (cs.length + 1) cs
where
  go : Nat → List Char → List Char
    | 0, s => s
    | fuel + 1, s =>
      match reTry re cs.length s with
      | some (rest, caps) =>
          if rest.length < s.length then
            applyRepl caps tmpl ++ go fuel rest
          else
            match s with
            | [] => applyRepl caps tmpl
            | c :: s' => applyRepl caps tmpl ++ c :: go fuel s'
      | none =>
          match s with
          | [] => []
          | c :: s' => c :: go fuel s'

/-- Python `re.findall`: the capture tuples of all non-overlapping matches. -/
def reFindAll (re : RE) (cs : List Char) : List Caps :=
  go (cs.length + 1) cs
where
  go : Nat → List Char → List Caps
    | 0, _ => []
    | fuel + 1, s =>
      match reTry re cs.length s with
      | some (rest, caps) =>
          if rest.length < s.length then caps :: go fuel rest
          else
            match s with
            | [] => [caps]
            | _ :: s' => caps :: go fuel s'
      | none =>
          match s with
          | [] => []
          | _ :: s' => go fuel s'

/-- Single-quote character. -/
def sqChar : Char := Char.ofNat 39

/-- Backtick character. -/
def btChar : Char := Char.ofNat 96

/-! ### Model of the `hjson` library's `hjson.loads`

`fix_json` (emergency_fix.py) tries `import hjson; hjson.loads(json_str)` as
its penultimate stage, with any exception (including an `ImportError` when
the package is absent, which therefore behaves like a parse failure) caught
and treated as failure.  The model follows the Hjson grammar as implemented
by `hjson-py`: any character `≤ space` is whitespace; `#`, `//` and `/* */`
comments; optional root braces; quoted keys or bare key names; members
separated by commas or newlines; JSON strings, `'''` multiline strings
(modelled without the indentation trimming, which no theorem exercises), and
quoteless strings that run to the end of the line, with `true`/`false`/
`null`/number chunks recognised at separator characters. -/

namespace Hjson

/-- Hjson whitespace: any character up to and including space. -/
def isWhiteCh (c : Char) : Bool := c.toNat ≤ 32

/-- Skips whitespace and comments, tracking whether a newline was crossed
(newlines separate members when commas are omitted). -/
def skipWhiteA : Nat → List Char → Bool → (List Char × Bool)
  | 0, cs, nl => (cs, nl)
  | fuel + 1, cs, nl =>
      match cs with
      | [] => ([], nl)
      | c :: rest =>
          if c = '\n' then skipWhiteA fuel rest true
          else if isWhiteCh c then skipWhiteA fuel rest nl
          else if c = '#' then
            skipWhiteA fuel (cs.dropWhile fun d => d ≠ '\n') nl
          else if c = '/' ∧ rest.head? = some '/' then
            skipWhiteA fuel (cs.dropWhile fun d => d ≠ '\n') nl
          else if c = '/' ∧ rest.head? = some '*' then
            skipWhiteA fuel (dropBlockComment (rest.length + 1) rest.tail) nl
          else (cs, nl)
where
  /-- Skips past the closing of a block comment. -/
  dropBlockComment : Nat → List Char → List Char
    | 0, s => s
    | _ + 1, [] => []
    | fuel + 1, c :: rest =>
        if c = '*' ∧ rest.head? = some '/' then rest.tail
        else dropBlockComment fuel rest

/-- Skips whitespace/comments. -/
def skipWhite (cs : List Char) : List Char × Bool :=
  skipWhiteA (cs.length + 1) cs false

/-- Characters that may not appear in a bare (unquoted) key name. -/
def keynameStop (c : Char) : Bool :=
  isWhiteCh c || c = ',' || c = ':' || c = lkChar || c = rkChar ||
    c = lbChar || c = rbChar || c = dqChar || c = sqChar

/-- A quoteless-string chunk interpreted at a separator: `true`/`false`/
`null` or a full JSON number, otherwise no primitive reading. -/
def chunkPrimitive (chunk : List Char) : Option Json :=
  let t := pyStrip chunk
  if t = ['t', 'r', 'u', 'e'] then some (Json.bool true)
  else if t = ['f', 'a', 'l', 's', 'e'] then some (Json.bool false)
  else if t = ['n', 'u', 'l', 'l'] then some Json.null
  else
    match PyJson.parseNumber t with
    | some (q, []) => some (Json.num q)
    | _ => none

/-- Reads a quoteless string / primitive: accumulates characters; at a
separator (`,`, `}`, `]`, comment start) the chunk is returned when it reads
as a primitive; at end-of-line (or end of input) the chunk is returned as a
primitive or as a right-trimmed string. -/
def tfnns : Nat → List Char → List Char → Option (Json × List Char)
  | 0, _, _ => none
  | fuel + 1, cs, chunk =>
      let isEol := cs.isEmpty || cs.head? = some '\n' || cs.head? = some '\x0d'
      let isSep := isEol || cs.head? = some ',' || cs.head? = some rbChar ||
        cs.head? = some rkChar || cs.head? = some '#' ||
        (cs.head? = some '/' ∧
          (cs.tail.head? = some '/' ∨ cs.tail.head? = some '*'))
      if isSep then
        match chunkPrimitive chunk with
        | some v => some (v, cs)
        | none =>
            if isEol then
              some (Json.str (String.mk (pyStrip chunk)), cs)
            else
              match cs with
              | [] => none
              | c :: rest => tfnns fuel rest (chunk ++ [c])
      else
        match cs with
        | [] => none
        | c :: rest => tfnns fuel rest (chunk ++ [c])

/-- Reads a `'''` multiline string (closing fence required). -/
def multiline : Nat → List Char → List Char → Option (Json × List Char)
  | 0, _, _ => none
  | _ + 1, [], _ => none
  | fuel + 1, c :: rest, acc =>
      if c = sqChar ∧ rest.head? = some sqChar ∧ rest.tail.head? = some sqChar then
        some (Json.str (String.mk acc.reverse), rest.tail.tail)
      else multiline fuel rest (c :: acc)

mutual

/-- Parses one Hjson value (input begins at a non-white character). -/
def hValue : Nat → List Char → Option (Json × List Char)
  | 0, _ => none
  | fuel + 1, cs =>
      match cs with
      | [] => none
      | c :: rest =>
          if c = lbChar then hObject fuel rest
          else if c = lkChar then hArray fuel rest []
          else if c = dqChar then
            (PyJson.parseStrBody (rest.length + 1) rest []).map fun p =>
              (Json.str p.1, p.2)
          else if c = sqChar ∧ rest.head? = some sqChar ∧
              rest.tail.head? = some sqChar then
            multiline (rest.tail.tail.length + 1) rest.tail.tail []
          else tfnns (cs.length + 1) cs []

/-- Parses the members of an Hjson object after the opening brace. -/
def hObject (fuel : Nat) (cs : List Char) : Option (Json × List Char) :=
  match fuel with
  | 0 => none
  | fuel + 1 =>
      let (cs1, _) := skipWhite cs
      if cs1.head? = some rbChar then some (Json.obj [], cs1.tail)
      else hMembers fuel cs1 []

/-- Parses object members (key, `:`, value, separated by `,` or newline). -/
def hMembers (fuel : Nat) (cs : List Char) (acc : List (String × Json)) :
    Option (Json × List Char) :=
  match fuel with
  | 0 => none
  | fuel + 1 =>
      match cs with
      | [] => none
      | c :: rest =>
          let keyRes : Option (String × List Char) :=
            if c = dqChar then
              PyJson.parseStrBody (rest.length + 1) rest []
            else
              let ks := cs.takeWhile fun d => ¬ keynameStop d
              if ks.isEmpty then none
              else some (String.mk ks, cs.drop ks.length)
          match keyRes with
          | none => none
          | some (key, cs2) =>
              let (cs3, _) := skipWhite cs2
              match cs3 with
              | ':' :: cs4 =>
                  let (cs5, _) := skipWhite cs4
                  match hValue fuel cs5 with
                  | none => none
                  | some (v, cs6) =>
                      let acc2 := Json.setKey acc key v
                      let (cs7, sawNL) := skipWhite cs6
                      match cs7 with
                      | ',' :: cs8 =>
                          let (cs9, _) := skipWhite cs8
                          if cs9.head? = some rbChar then
                            some (Json.obj acc2, cs9.tail)
                          else hMembers fuel cs9 acc2
                      | d :: cs8 =>
                          if d = rbChar then some (Json.obj acc2, cs8)
                          else if sawNL then hMembers fuel cs7 acc2
                          else none
                      | [] => none
              | _ => none

/-- Parses array items (separated by `,` or newline). -/
def hArray (fuel : Nat) (cs : List Char) (acc : List Json) :
    Option (Json × List Char) :=
  match fuel with
  | 0 => none
  | fuel + 1 =>
      let (cs1, _) := skipWhite cs
      if cs1.head? = some rkChar then some (Json.arr acc, cs1.tail)
      else
        match hValue fuel cs1 with
        | none => none
        | some (v, cs2) =>
            let acc2 := acc ++ [v]
            let (cs3, sawNL) := skipWhite cs2
            match cs3 with
            | ',' :: cs4 => hArray fuel cs4 acc2
            | d :: _ =>
                if d = rkChar then some (Json.arr acc2, cs3.tail)
                else if sawNL then hArray fuel cs3 acc2
                else none
            | [] => none

end

/-- Parses a braceless root object: members until end of input. -/
def hRootMembers (fuel : Nat) (cs : List Char) (acc : List (String × Json)) :
    Option Json :=
  match fuel with
  | 0 => none
  | fuel + 1 =>
      match cs with
      | [] => none
      | c :: rest =>
          let keyRes : Option (String × List Char) :=
            if c = dqChar then
              PyJson.parseStrBody (rest.length + 1) rest []
            else
              let ks := cs.takeWhile fun d => ¬ keynameStop d
              if ks.isEmpty then none
              else some (String.mk ks, cs.drop ks.length)
          match keyRes with
          | none => none
          | some (key, cs2) =>
              let (cs3, _) := skipWhite cs2
              match cs3 with
              | ':' :: cs4 =>
                  let (cs5, _) := skipWhite cs4
                  match hValue fuel cs5 with
                  | none => none
                  | some (v, cs6) =>
                      let acc2 := Json.setKey acc key v
                      let (cs7, sawNL) := skipWhite cs6
                      match cs7 with
                      | [] => some (Json.obj acc2)
                      | ',' :: cs8 =>
                          let (cs9, _) := skipWhite cs8
                          if cs9.isEmpty then some (Json.obj acc2)
                          else hRootMembers fuel cs9 acc2
                      | _ =>
                          if sawNL then hRootMembers fuel cs7 acc2
                          else none
              | _ => none

/-- Model of `hjson.loads`: root braces optional; trailing input is an
error.  Returns `none` on any `HjsonDecodeError` (and the caller in
`fix_json` treats an absent `hjson` package identically). -/
def loads (cs : List Char) : Option Json :=
  let (cs1, _) := skipWhite cs
  match cs1.head? with
  | none => none
  | some c =>
      let asValue : Option Json :=
        match hValue (cs.length + 2) cs1 with
        | none => none
        | some (v, rest) =>
            if (skipWhite rest).1.isEmpty then some v else none
      if c = lbChar ∨ c = lkChar then asValue
      else
        match hRootMembers (cs.length + 2) cs1 [] with
        | some v => some v
        | none => asValue

end Hjson

/-! ### Embedding of `emergency_fix.py` -/

namespace EmergencyFix

/-- Regex `\s` (the ASCII whitespace characters relevant to this code). -/
def wsP (c : Char) : Bool :=
  c = ' ' || c = '\t' || c = '\n' || c = '\x0d' || c = '\x0b' || c = '\x0c'

/-- Class `[a-zA-Z_]`. -/
def nameStart (c : Char) : Bool :=
  ('a' ≤ c ∧ c ≤ 'z') || ('A' ≤ c ∧ c ≤ 'Z') || c = '_'

/-- Class `[a-zA-Z0-9_]`. -/
def nameChar (c : Char) : Bool := nameStart c || isDigitChar c

/-- Class `[\s\S]` / `.` under `re.DOTALL`. -/
def anyP (_ : Char) : Bool := true

/-- Class `[^"]`. -/
def notQuote (c : Char) : Bool := c ≠ dqChar

/-- Class `[^\n]`. -/
def notNl (c : Char) : Bool := c ≠ '\n'

/-- Class `["\s]`. -/
def quoteOrWs (c : Char) : Bool := c = dqChar || wsP c

/-- The lazy `\{[\s\S]*?\}` fragment, wrapped in capture group `n`. -/
def braceGroup (n : Nat) : RE :=
  .group n (RE.seqL [.lit lbChar, .star false (.cls anyP), .lit rbChar])

/-- The pattern
`` ```(?:json)?\s*(\{[\s\S]*?\})\s*```|(\{[\s\S]*?\}) ``
used by `fix_json` to locate a JSON-like object. -/
def extractRe : RE :=
  .alt
    (RE.seqL [RE.litStr [btChar, btChar, btChar],
              RE.opt (RE.litStr ['j', 's', 'o', 'n']),
              .star true (.cls wsP),
              braceGroup 1,
              .star true (.cls wsP),
              RE.litStr [btChar, btChar, btChar]])
    (braceGroup 2)

/-- The selection loop over `re.findall` tuples: the first group (in tuple
order) that is non-empty and contains both `{` and `}`. -/
def chooseGroup : List Caps → List Char
  | [] => []
  | caps :: rest =>
      let g1 := getCap caps 1
      let g2 := getCap caps 2
      if ¬ g1.isEmpty ∧ containsSub g1 [lbChar] ∧ containsSub g1 [rbChar] then g1
      else if ¬ g2.isEmpty ∧ containsSub g2 [lbChar] ∧ containsSub g2 [rbChar] then
        g2
      else chooseGroup rest

/-- Python `s.find(c)`. -/
def findIdx (cs : List Char) (c : Char) : Option Nat :=
  cs.findIdx? (· = c)

/-- Python `s.rfind(c)`. -/
def rfindIdx (cs : List Char) (c : Char) : Option Nat :=
  match (cs.reverse.findIdx? (· = c)) with
  | some i => some (cs.length - 1 - i)
  | none => none

/-- Python `s.split('\n')` (keeps empty lines). -/
def splitNl (cs : List Char) : List (List Char) :=
  go (cs.length + 1) cs
where
  go : Nat → List Char → List (List Char)
    | 0, s => [s]
    | fuel + 1, s =>
        let line := s.takeWhile (· ≠ '\n')
        let rest := s.drop line.length
        match rest with
        | [] => [line]
        | _ :: tail => line :: go fuel tail

/-- Python `'\n'.join(lines)`. -/
def joinNl (lines : List (List Char)) : List Char :=
  match lines with
  | [] => []
  | [l] => l
  | l :: rest => l ++ '\n' :: joinNl rest

/-- Python `s.rstrip()`. -/
def pyRstrip (s : List Char) : List Char :=
  (s.reverse.dropWhile pyIsSpace).reverse

/-- Fix 1 of `fix_json`: if the text has at least 32 lines and line 32 does
not end (after stripping) with `,`, `{` or `[`, append a comma to it. -/
def fix1 (cs : List Char) : List Char :=
  let lines := splitNl cs
  if 32 ≤ lines.length then
    let line32 := lines.getD 31 []
    let st := pyStrip line32
    if ¬ (pyEndsWith st ',' ∨ pyEndsWith st lbChar ∨ pyEndsWith st lkChar) then
      joinNl (lines.set 31 (pyRstrip line32 ++ [',']))
    else joinNl lines
  else joinNl lines

/-- Fix 2: `([{,])\s*([a-zA-Z_][a-zA-Z0-9_]*)\s*:` → `\1"\2":`. -/
def fix2Re : RE :=
  RE.seqL [.group 1 (.cls fun c => c = lbChar || c = ','),
           .star true (.cls wsP),
           .group 2 (.seq (.cls nameStart) (.star true (.cls nameChar))),
           .star true (.cls wsP),
           .lit ':']

/-- Replacement `\1"\2":`. -/
def fix2Repl : List Repl :=
  [.grp 1, .txt [dqChar], .grp 2, .txt [dqChar, ':']]

/-- Fix 3: `,(\s*[}\]])` → `\1`. -/
def fix3Re : RE :=
  .seq (.lit ',')
    (.group 1 (.seq (.star true (.cls wsP))
      (.cls fun c => c = rbChar || c = rkChar)))

/-- Replacement `\1`. -/
def fix3Repl : List Repl := [.grp 1]

/-- The `"(?:\\"|[^"])*"` string-literal fragment in capture group `n`. -/
def strLitGroup (n : Nat) : RE :=
  .group n (RE.seqL [.lit dqChar,
    .star true (.alt (RE.litStr [bsChar, dqChar]) (.cls notQuote)),
    .lit dqChar])

/-- Fix 4: `("(?:\\"|[^"])*")\s*("(?:\\"|[^"])*")` → `\1, \2`. -/
def fix4Re : RE :=
  RE.seqL [strLitGroup 1, .star true (.cls wsP), strLitGroup 2]

/-- Replacement `\1, \2`. -/
def fix4Repl : List Repl := [.grp 1, .txt [',', ' '], .grp 2]

/-- Fix 5: `("(?:\\"|[^"])*)\n([^"]*")` → `\1\\n\2`. -/
def fix5Re : RE :=
  RE.seqL [.group 1 (.seq (.lit dqChar)
             (.star true (.alt (RE.litStr [bsChar, dqChar]) (.cls notQuote)))),
           .lit '\n',
           .group 2 (.seq (.star true (.cls notQuote)) (.lit dqChar))]

/-- Replacement `\1\\n\2`. -/
def fix5Repl : List Repl := [.grp 1, .txt [bsChar, 'n'], .grp 2]

/-- Class `[A-Za-z]`; this is what `[A-Z]` matches under `re.IGNORECASE`. -/
def asciiLetter (c : Char) : Bool :=
  ('a' ≤ c ∧ c ≤ 'z') || ('A' ≤ c ∧ c ≤ 'Z')

/-- Class `[^\n:]`. -/
def notNlColon (c : Char) : Bool := c ≠ '\n' ∧ c ≠ ':'

/-- Pattern `"{field}"["\s]*:["\s]*([^"]*)"` with `re.IGNORECASE`. -/
def scalarFieldRe (field : List Char) : RE :=
  RE.seqL [.lit dqChar, RE.litStrCI field, .lit dqChar,
           .star true (.cls quoteOrWs), .lit ':',
           .star true (.cls quoteOrWs),
           .group 1 (.star true (.cls notQuote)), .lit dqChar]

/-- Pattern `"{field}"["\s]*:["\s]*\[(.*?)\]` with `IGNORECASE|DOTALL`. -/
def arrayFieldRe (field : List Char) : RE :=
  RE.seqL [.lit dqChar, RE.litStrCI field, .lit dqChar,
           .star true (.cls quoteOrWs), .lit ':',
           .star true (.cls quoteOrWs),
           .lit lkChar, .group 1 (.star false (.cls anyP)), .lit rkChar]

/-- Pattern `"([^"]+)"`. -/
def quotedItemRe : RE :=
  RE.seqL [.lit dqChar,
           .group 1 (.seq (.cls notQuote) (.star true (.cls notQuote))),
           .lit dqChar]

/-- Pattern `{field}.*?:(.*?)(?=\n[A-Z]|$)` with `IGNORECASE|DOTALL`. -/
def sectionRe (field : List Char) : RE :=
  RE.seqL [RE.litStrCI field, .star false (.cls anyP), .lit ':',
           .group 1 (.star false (.cls anyP)),
           .look (.alt (.seq (.lit '\n') (.cls asciiLetter)) .eos)]

/-- The class `[â€¢\-*]` (the source quotes a UTF-8-mojibake bullet). -/
def bulletCls (c : Char) : Bool :=
  c = 'â' || c = '€' || c = '¢' || c = '-' || c = '*'

/-- Pattern `(?:^|\n)[â€¢\-*]?\s*\d*\.?\s*([^\n]+)`. -/
def bulletRe : RE :=
  RE.seqL [.alt .bos (.lit '\n'),
           RE.opt (.cls bulletCls),
           .star true (.cls wsP),
           .star true (.cls isDigitChar),
           RE.opt (.lit '.'),
           .star true (.cls wsP),
           .group 1 (.seq (.cls notNl) (.star true (.cls notNl)))]

/-- Pattern `(?:strength|key strength|strong)s?[^\n:]*?[:|-]\s*([^\n]+)`
with `re.IGNORECASE`. -/
def strengthsFallbackRe : RE :=
  RE.seqL [.alt (RE.litStrCI "strength".data)
                (.alt (RE.litStrCI "key strength".data)
                      (RE.litStrCI "strong".data)),
           RE.opt (.litCI 's'),
           .star false (.cls notNlColon),
           .cls (fun c => c = ':' || c = '|' || c = '-'),
           .star true (.cls wsP),
           .group 1 (.seq (.cls notNl) (.star true (.cls notNl)))]

/-- Pattern `(?:improvement|area of improvement|weakness)[^\n:]*?[:|-]\s*([^\n]+)`
with `re.IGNORECASE`. -/
def improvementsFallbackRe : RE :=
  RE.seqL [.alt (RE.litStrCI "improvement".data)
                (.alt (RE.litStrCI "area of improvement".data)
                      (RE.litStrCI "weakness".data)),
           .star false (.cls notNlColon),
           .cls (fun c => c = ':' || c = '|' || c = '-'),
           .star true (.cls wsP),
           .group 1 (.seq (.cls notNl) (.star true (.cls notNl)))]

/-- Pattern `"{key}"\s*:\s*\[(.*?)\]` with `re.DOTALL` (case-sensitive),
used for `response_scores` and `skill_ratings`. -/
def arraySectionRe (key : List Char) : RE :=
  RE.seqL [.lit dqChar, RE.litStr key, .lit dqChar,
           .star true (.cls wsP), .lit ':', .star true (.cls wsP),
           .lit lkChar, .group 1 (.star false (.cls anyP)), .lit rkChar]

/-- Pattern `{(.*?)}` with `re.DOTALL`. -/
def objBodyRe : RE :=
  RE.seqL [.lit lbChar, .group 1 (.star false (.cls anyP)), .lit rbChar]

/-- Pattern `"{key}"\s*:\s*(\d+)`. -/
def intFieldRe (key : List Char) : RE :=
  RE.seqL [.lit dqChar, RE.litStr key, .lit dqChar,
           .star true (.cls wsP), .lit ':', .star true (.cls wsP),
           .group 1 (.seq (.cls isDigitChar) (.star true (.cls isDigitChar)))]

/-- Pattern `"{key}"\s*:\s*"([^"]*)"`. -/
def quotedValueRe (key : List Char) : RE :=
  RE.seqL [.lit dqChar, RE.litStr key, .lit dqChar,
           .star true (.cls wsP), .lit ':', .star true (.cls wsP),
           .lit dqChar, .group 1 (.star true (.cls notQuote)), .lit dqChar]

/-- The hard-coded default `response_scores` of `extract_data_from_text`. -/
def defaultResponseScores : Json :=
  .arr [.obj [("question_index", .num 0), ("score", .num 3),
              ("feedback",
               .str "Response demonstrated basic understanding of the question.")],
        .obj [("question_index", .num 1), ("score", .num 3),
              ("feedback",
               .str "Candidate provided a relevant answer to the question.")]]

/-- The hard-coded default `skill_ratings` of `extract_data_from_text`. -/
def defaultSkillRatings : Json :=
  .arr [.obj [("name", .str "Technical Knowledge"), ("score", .num 65)],
        .obj [("name", .str "Communication"), ("score", .num 70)],
        .obj [("name", .str "Problem Solving"), ("score", .num 60)],
        .obj [("name", .str "Domain Experience"), ("score", .num 55)],
        .obj [("name", .str "Team Collaboration"), ("score", .num 75)]]

/-- The scalar fields extracted by pattern 1 of `extract_data_from_text`. -/
def scalarFields : List String :=
  ["candidate_name", "position", "technical_evaluation",
   "cultural_fit", "recommendation", "next_steps", "overall_assessment"]

/-- The initial `result` skeleton of `extract_data_from_text`. -/
def extractSkeleton : List (String × Json) :=
  [("candidate_name", .str ""), ("position", .str ""),
   ("strengths", .arr []), ("areas_for_improvement", .arr []),
   ("technical_evaluation", .str ""), ("cultural_fit", .str ""),
   ("recommendation", .str ""), ("next_steps", .str ""),
   ("overall_assessment", .str ""),
   ("response_scores", defaultResponseScores),
   ("skill_ratings", defaultSkillRatings)]

/-- Step 2 of `extract_data_from_text` for one list field: the quoted items
of an explicit array, else the stripped bullet items of a section match,
else the empty list. -/
def listFieldItems (text : List Char) (field : String) : List (List Char) :=
  match reSearch (arrayFieldRe field.data) text with
  | some m =>
      (reFindAll quotedItemRe (getCap m.caps 1)).map fun c => getCap c 1
  | none =>
      match reSearch (sectionRe field.data) text with
      | some m =>
          let content := pyStrip (getCap m.caps 1)
          ((reFindAll bulletRe content).map fun c => pyStrip (getCap c 1)).filter
            fun i => ¬ i.isEmpty
      | none => []

/-- Embedding of `emergency_fix.extract_data_from_text`: regex extraction of
each summary field from raw text, over a fully-defaulted skeleton. -/
def extract_data_from_text (text : List Char) : Json :=
  let result := extractSkeleton
  let result := scalarFields.foldl (fun acc f =>
      match reSearch (scalarFieldRe f.data) text with
      | some m =>
          Json.setKey acc f (Json.str (String.mk (pyStrip (getCap m.caps 1))))
      | none => acc) result
  let result := Json.setKey result "strengths"
      (Json.arr ((listFieldItems text "strengths").map fun i =>
        Json.str (String.mk i)))
  let result := Json.setKey result "areas_for_improvement"
      (Json.arr ((listFieldItems text "areas_for_improvement").map fun i =>
        Json.str (String.mk i)))
  let result :=
    if ((Json.lookup? result "strengths").map Json.truthy).getD false then result
    else
      let ms := ((reFindAll strengthsFallbackRe text).map fun c =>
        pyStrip (getCap c 1)).filter fun i => ¬ i.isEmpty
      Json.setKey result "strengths" (Json.arr (ms.map fun i =>
        Json.str (String.mk i)))
  let result :=
    if ((Json.lookup? result "areas_for_improvement").map Json.truthy).getD false
    then result
    else
      let ms := ((reFindAll improvementsFallbackRe text).map fun c =>
        pyStrip (getCap c 1)).filter fun i => ¬ i.isEmpty
      Json.setKey result "areas_for_improvement" (Json.arr (ms.map fun i =>
        Json.str (String.mk i)))
  let result :=
    match reSearch (arraySectionRe "response_scores".data) text with
    | some m =>
        let objs := (reFindAll objBodyRe (getCap m.caps 1)).map fun c =>
          getCap c 1
        if objs.isEmpty then result
        else
          let scores := objs.enum.map fun p =>
            let qidx : Rat :=
              match reSearch (intFieldRe "question_index".data) p.2 with
              | some mm => (digitsToNat (getCap mm.caps 1) : Rat)
              | none => (p.1 : Rat)
            let sc : Rat :=
              match reSearch (intFieldRe "score".data) p.2 with
              | some mm => (digitsToNat (getCap mm.caps 1) : Rat)
              | none => 3
            let fb : String :=
              match reSearch (quotedValueRe "feedback".data) p.2 with
              | some mm => String.mk (getCap mm.caps 1)
              | none => ""
            Json.obj [("question_index", .num qidx), ("score", .num sc),
                      ("feedback", .str fb)]
          if scores.isEmpty then result
          else Json.setKey result "response_scores" (Json.arr scores)
    | none => result
  let result :=
    match reSearch (arraySectionRe "skill_ratings".data) text with
    | some m =>
        let objs := (reFindAll objBodyRe (getCap m.caps 1)).map fun c =>
          getCap c 1
        if objs.isEmpty then result
        else
          let ratings := objs.filterMap fun ro =>
            match reSearch (quotedValueRe "name".data) ro,
                  reSearch (intFieldRe "score".data) ro with
            | some nm, some sm =>
                some (Json.obj
                  [("name", .str (String.mk (getCap nm.caps 1))),
                   ("score", .num (digitsToNat (getCap sm.caps 1) : Rat))])
            | _, _ => none
          if ratings.isEmpty then result
          else Json.setKey result "skill_ratings" (Json.arr ratings)
    | none => result
  Json.obj result

/-- Embedding of `emergency_fix.fix_json`: locate a JSON-like object, try a
direct parse, apply the five targeted fixes, retry, try `hjson`, and fall
back to `extract_data_from_text` on the original text. -/
def fix_json (text : List Char) : Json :=
  let jsonStr0 := chooseGroup (reFindAll extractRe text)
  let json_str :=
    if jsonStr0.isEmpty then
      match findIdx text lbChar, rfindIdx text rbChar with
      | some s, some e => if s < e then (text.drop s).take (e - s + 1) else text
      | _, _ => text
    else jsonStr0
  match PyJson.loads json_str with
  | some v => v
  | none =>
      let js := fix1 json_str
      let js := reSub fix2Re fix2Repl js
      let js := reSub fix3Re fix3Repl js
      let js := reSub fix4Re fix4Repl js
      let js := reSub fix5Re fix5Repl js
      match PyJson.loads js with
      | some v => v
      | none =>
          match Hjson.loads js with
          | some v => v
          | none => extract_data_from_text text

end EmergencyFix

/-! ### Embedding of the summary pipeline of `interview_generator.py` -/

/-- Python `int(v)` on an embedded value: parses strings, truncates numbers
toward zero, converts booleans; everything else is a `TypeError`/`ValueError`
(`none`). -/
def pyIntOf : Json → Option Int
  | .str s => pyInt s.data
  | .num q => some (q.num / (q.den : Int))
  | .bool b => some (if b then 1 else 0)
  | _ => none

/-- Python `s.split(',')` (splits at every comma, keeping empty pieces). -/
def splitComma (cs : List Char) : List (List Char) :=
  go (cs.length + 1) cs
where
  go : Nat → List Char → List (List Char)
    | 0, s => [s]
    | fuel + 1, s =>
        let piece := s.takeWhile (· ≠ ',')
        let rest := s.drop piece.length
        match rest with
        | [] => [piece]
        | _ :: tail => piece :: go fuel tail

namespace InterviewGeneratorM

/-- The fields of `candidate_data` read by the summary pipeline
(`candidate_data.get("name", ...)`). -/
structure CandidateData where
  name : Option String := none

/-- The fields of `job_data` read by the summary pipeline
(`job_data.get("title", ...)`). -/
structure JobData where
  title : Option String := none

/-- The `defaults` dict built at the top of `_validate_summary`, in its
Python insertion order. -/
def validateDefaults (cand : CandidateData) (job : JobData) :
    List (String × Json) :=
  [("candidate_name", .str (cand.name.getD "Candidate")),
   ("position", .str (job.title.getD "Position")),
   ("strengths", .arr
      [.str "Participated in the interview process",
       .str "Demonstrated interest in the position",
       .str "Communicated responses to interview questions"]),
   ("areas_for_improvement", .arr
      [.str "Could provide more detailed examples in responses",
       .str "Additional technical assessment recommended"]),
   ("technical_evaluation", .str
      ("The candidate discussed relevant experience for the " ++
       job.title.getD "position" ++
       " role. Further technical assessment would provide a more complete evaluation.")),
   ("cultural_fit", .str
      "Based on interview responses, the candidate showed interest in the company. Additional discussion would help determine alignment with company values."),
   ("recommendation", .str
      "Consider for an additional technical assessment to better evaluate skills and fit."),
   ("next_steps", .str
      "Schedule a technical skills assessment. Follow up on specific areas mentioned during the interview."),
   ("overall_assessment", .str
      (cand.name.getD "The candidate" ++
       " completed the interview process for the " ++
       job.title.getD "position" ++
       " role. Their responses provided initial insights, and a follow-up technical assessment would allow for a more comprehensive evaluation."))]

/-- One iteration of the `for field, default in defaults.items()` loop of
`_validate_summary`: default a missing/falsy field; coerce a non-list value
of a list field (a string is comma-split into stripped non-empty items,
anything else becomes the default). -/
def fieldPass (s : List (String × Json)) (fd : String × Json) :
    List (String × Json) :=
  match Json.lookup? s fd.1 with
  | none => Json.setKey s fd.1 fd.2
  | some v =>
      if ¬ v.truthy then Json.setKey s fd.1 fd.2
      else if fd.2.isList ∧ ¬ v.isList then
        match v with
        | .str str =>
            let items := ((splitComma str.data).map pyStrip).filter
              fun i => ¬ i.isEmpty
            Json.setKey s fd.1
              (if items.isEmpty then fd.2
               else .arr (items.map fun i => Json.str (String.mk i)))
        | _ => Json.setKey s fd.1 fd.2
      else s

/-- The `for field in ["strengths", "areas_for_improvement"]` pass: an empty
list is replaced by the default items.  (A missing key would be a Python
`KeyError`, but the defaults pass has always inserted the key by this
point.) -/
def listsPass (s : List (String × Json)) (defaults : List (String × Json)) :
    List (String × Json) :=
  ["strengths", "areas_for_improvement"].foldl
    (fun acc f =>
      match Json.lookup? acc f with
      | some (.arr l) =>
          if l.isEmpty then
            Json.setKey acc f ((Json.lookup? defaults f).getD (.arr []))
          else acc
      | some v =>
          if ¬ v.truthy then
            Json.setKey acc f ((Json.lookup? defaults f).getD (.arr []))
          else acc
      | none => acc)
    s

/-- The default single-entry `response_scores` of `_validate_summary`. -/
def defaultScoreEntry : Json :=
  .obj [("question_index", .num 0), ("score", .num 3),
        ("feedback",
         .str "Response demonstrated basic understanding of the question.")]

/-- Fixing of one `response_scores` item (the `enumerate` loop body). -/
def fixScoreItem (idx : Nat) (item : Json) : Json :=
  match item with
  | .obj f =>
      let f := if Json.hasKey f "question_index" then f
        else Json.setKey f "question_index" (.num idx)
      let f :=
        match Json.lookup? f "score" with
        | some v => if v.isNumber then f else Json.setKey f "score" (.num 3)
        | none => Json.setKey f "score" (.num 3)
      let f :=
        match Json.lookup? f "feedback" with
        | some v =>
            if v.truthy then f
            else Json.setKey f "feedback"
              (.str "Response demonstrated basic understanding of the question.")
        | none =>
            Json.setKey f "feedback"
              (.str "Response demonstrated basic understanding of the question.")
      .obj f
  | _ =>
      .obj [("question_index", .num idx), ("score", .num 3),
            ("feedback",
             .str "Response demonstrated basic understanding of the question.")]

/-- The `response_scores` block of `_validate_summary`. -/
def scoresPass (s : List (String × Json)) : List (String × Json) :=
  match Json.lookup? s "response_scores" with
  | some (.arr l) =>
      if l.isEmpty then
        Json.setKey s "response_scores" (.arr [defaultScoreEntry])
      else
        Json.setKey s "response_scores"
          (.arr (l.enum.map fun p => fixScoreItem p.1 p.2))
  | _ => Json.setKey s "response_scores" (.arr [defaultScoreEntry])

/-- The default `skill_ratings` of `_validate_summary`. -/
def defaultRatings : Json :=
  .arr [.obj [("name", .str "Technical Knowledge"), ("score", .num 65)],
        .obj [("name", .str "Communication"), ("score", .num 70)],
        .obj [("name", .str "Problem Solving"), ("score", .num 60)],
        .obj [("name", .str "Domain Experience"), ("score", .num 55)],
        .obj [("name", .str "Team Collaboration"), ("score", .num 75)]]

/-- Fixing of one `skill_ratings` item (the `enumerate` loop body). -/
def fixRatingItem (i : Nat) (item : Json) : Json :=
  match item with
  | .obj f =>
      if Json.hasKey f "name" ∧ Json.hasKey f "score" then
        match Json.lookup? f "score" with
        | some v =>
            if v.isNumber then .obj f
            else
              match pyIntOf v with
              | some n => .obj (Json.setKey f "score" (.num n))
              | none => .obj (Json.setKey f "score" (.num 60))
        | none => .obj f
      else .obj [("name", .str ("Skill " ++ toString (i + 1))),
                 ("score", .num 60)]
  | _ =>
      .obj [("name", .str ("Skill " ++ toString (i + 1))), ("score", .num 60)]

/-- The `skill_ratings` block of `_validate_summary`. -/
def ratingsPass (s : List (String × Json)) : List (String × Json) :=
  match Json.lookup? s "skill_ratings" with
  | some (.arr l) =>
      if l.isEmpty then Json.setKey s "skill_ratings" defaultRatings
      else
        Json.setKey s "skill_ratings"
          (.arr (l.enum.map fun p => fixRatingItem p.1 p.2))
  | _ => Json.setKey s "skill_ratings" defaultRatings

/-- Embedding of `InterviewGenerator._validate_summary`.  A non-dict
argument raises (`field not in summary` / item assignment on a non-dict is a
`TypeError`), embedded as `Except.error`. -/
def validate_summary (summary : Json) (cand : CandidateData) (job : JobData) :
    Except Unit Json :=
  match summary with
  | .obj fields =>
      let defaults := validateDefaults cand job
      let s := defaults.foldl fieldPass fields
      let s := listsPass s defaults
      let s := scoresPass s
      let s := ratingsPass s
      .ok (.obj s)
  | _ => .error ()

/-- Embedding of `InterviewGenerator._create_fallback_summary`. -/
def create_fallback_summary (cand : CandidateData) (job : JobData) : Json :=
  .obj
    [("candidate_name", .str (cand.name.getD "Candidate")),
     ("position", .str (job.title.getD "Position")),
     ("strengths", .arr
        [.str "Completed the interview process",
         .str "Engaged with the interviewer's questions",
         .str "Expressed interest in the position"]),
     ("areas_for_improvement", .arr
        [.str "More detailed responses would provide better insights",
         .str "Additional technical assessment recommended"]),
     ("technical_evaluation", .str
        "A complete technical assessment is recommended to evaluate the candidate's skills more thoroughly."),
     ("cultural_fit", .str
        "The candidate engaged with questions about the company. Additional discussion would help determine cultural alignment."),
     ("recommendation", .str
        "Consider for a follow-up technical interview to better assess skills and fit."),
     ("next_steps", .str
        "Schedule a technical assessment. Prepare focused questions on key skills required for the position."),
     ("overall_assessment", .str
        (cand.name.getD "The candidate" ++
         " participated in the interview process. The system encountered technical limitations in generating a complete assessment, but the candidate's participation indicates interest in the position.")),
     ("response_scores", EmergencyFix.defaultResponseScores),
     ("skill_ratings", defaultRatings)]

/-- Embedding of `InterviewGenerator._parse_summary_response`: validate the
output of `fix_json`; if that raises, validate the output of
`extract_data_from_text`; if that also raises, return the fallback
summary. -/
def parse_summary_response (response : List Char) (cand : CandidateData)
    (job : JobData) : Json :=
  match validate_summary (EmergencyFix.fix_json response) cand job with
  | .ok s => s
  | .error _ =>
      match validate_summary (EmergencyFix.extract_data_from_text response)
          cand job with
      | .ok s => s
      | .error _ => create_fallback_summary cand job

/-- The required summary keys of the Summary contract. -/
def requiredSummaryKeys : List String :=
  ["candidate_name", "position", "strengths", "areas_for_improvement",
   "technical_evaluation", "cultural_fit", "recommendation", "next_steps",
   "overall_assessment", "response_scores", "skill_ratings"]

/-- The list-valued summary keys. -/
def summaryListKeys : List String :=
  ["strengths", "areas_for_improvement", "response_scores", "skill_ratings"]

/-- A summary record is well formed when it is a dict containing every
required key, with each list-valued key holding a non-empty list. -/
def summaryWellFormed (j : Json) : Bool :=
  match j with
  | .obj fields =>
      requiredSummaryKeys.all (Json.hasKey fields) &&
      summaryListKeys.all fun k =>
        match Json.lookup? fields k with
        | some (.arr l) => !l.isEmpty
        | _ => false
  | _ => false

end InterviewGeneratorM

/-! ### Model of `difflib.SequenceMatcher(None, a, b).ratio()`

`_calculate_similarity` compares candidate answers with the stdlib sequence
matcher.  The model follows CPython's `difflib`: `b2j` indexes the positions
of each character of `b`, with the default autojunk heuristic removing
"popular" characters when `b` has at least 200 elements; `find_longest_match`
runs the longest-matching-run dynamic program over `b2j` (iterating all `j`
and skipping non-matching or junk positions is extensionally the same as
iterating `b2j[a[i]]`), then extends the winner over equal non-junk and junk
elements; `ratio` is twice the total matched size over the total length. -/

namespace Difflib

/-- Occurrences of `c` in `l`. -/
def countChar (l : List Char) (c : Char) : Nat := l.countP (· = c)

/-- The autojunk heuristic: for `len(b) ≥ 200`, characters occurring more
than `len(b) // 100 + 1` times are junk. -/
def isJunk (b : List Char) (c : Char) : Bool :=
  if 200 ≤ b.length then decide (b.length / 100 + 1 < countChar b c) else false

/-- The `j2len` dynamic program value: the length of the matching run ending
at `(i, j)` whose `b`-side positions are in `[blo, bhi)` and non-junk (junk
characters have no `b2j` entries, so no run passes through them). -/
def rl (a b : List Char) (junk : Char → Bool) (alo ahi blo bhi : Nat) :
    Nat → Nat → Nat
  | i, j =>
    let ok : Bool :=
      decide (alo ≤ i) && decide (i < ahi) && decide (blo ≤ j) &&
      decide (j < bhi) &&
      (match a.get? i, b.get? j with
       | some ca, some cb => ca = cb && ! junk cb
       | _, _ => false)
    if ok then
      match i, j with
      | i' + 1, j' + 1 => rl a b junk alo ahi blo bhi i' j' + 1
      | _, _ => 1
    else 0
termination_by i _ => i

/-- A candidate longest block: start positions and size. -/
structure Best where
  bi : Nat
  bj : Nat
  siz : Nat
deriving DecidableEq

/-- The inner `for j in b2j.get(a[i], [])` loop: scans `j` upward keeping the
record block (a strictly larger run updates the record). -/
def scanRow (a b : List Char) (junk : Char → Bool) (alo ahi blo bhi i : Nat) :
    Nat → Best → Best
  | j, best =>
    if h : bhi ≤ j then best
    else
      let k := rl a b junk alo ahi blo bhi i j
      let best' := if best.siz < k then ⟨i + 1 - k, j + 1 - k, k⟩ else best
      scanRow a b junk alo ahi blo bhi i (j + 1) best'
termination_by j _ => bhi - j
decreasing_by simp_wf; omega

/-- The outer `for i in range(alo, ahi)` loop. -/
def scanRows (a b : List Char) (junk : Char → Bool) (alo ahi blo bhi : Nat) :
    Nat → Best → Best
  | i, best =>
    if h : ahi ≤ i then best
    else
      scanRows a b junk alo ahi blo bhi (i + 1)
        (scanRow a b junk alo ahi blo bhi i blo best)
termination_by i _ => ahi - i
decreasing_by simp_wf; omega

/-- One of the four extension `while` loops of `find_longest_match`:
extends the block left over equal elements whose `b` side has junkness
`junkFlag`. -/
def extendLeft (a b : List Char) (junk : Char → Bool) (alo blo : Nat)
    (junkFlag : Bool) : Nat → Best → Best
  | 0, best => best
  | fuel + 1, best =>
      if alo < best.bi ∧ blo < best.bj ∧
          (b.get? (best.bj - 1)).isSome ∧
          junk ((b.get? (best.bj - 1)).getD ' ') = junkFlag ∧
          a.get? (best.bi - 1) = b.get? (best.bj - 1) then
        extendLeft a b junk alo blo junkFlag fuel
          ⟨best.bi - 1, best.bj - 1, best.siz + 1⟩
      else best

/-- Extends the block right over equal elements whose `b` side has junkness
`junkFlag`. -/
def extendRight (a b : List Char) (junk : Char → Bool) (ahi bhi : Nat)
    (junkFlag : Bool) : Nat → Best → Best
  | 0, best => best
  | fuel + 1, best =>
      if best.bi + best.siz < ahi ∧ best.bj + best.siz < bhi ∧
          (b.get? (best.bj + best.siz)).isSome ∧
          junk ((b.get? (best.bj + best.siz)).getD ' ') = junkFlag ∧
          a.get? (best.bi + best.siz) = b.get? (best.bj + best.siz) then
        extendRight a b junk ahi bhi junkFlag fuel
          ⟨best.bi, best.bj, best.siz + 1⟩
      else best

/-- `find_longest_match(alo, ahi, blo, bhi)`: the dynamic program followed by
the non-junk and junk extension passes. -/
def flm (a b : List Char) (junk : Char → Bool) (alo ahi blo bhi : Nat) :
    Best :=
  let best := scanRows a b junk alo ahi blo bhi alo ⟨alo, blo, 0⟩
  let best := extendLeft a b junk alo blo false best.bi best
  let best := extendRight a b junk ahi bhi false ahi best
  let best := extendLeft a b junk alo blo true best.bi best
  let best := extendRight a b junk ahi bhi true ahi best
  best

/-- Total size of all matching blocks (the `get_matching_blocks` recursion;
the queue order and the final merge step do not change the total). -/
def matchesTotal (a b : List Char) (junk : Char → Bool) :
    Nat → Nat → Nat → Nat → Nat → Nat
  | 0, _, _, _, _ => 0
  | fuel + 1, alo, ahi, blo, bhi =>
      let m := flm a b junk alo ahi blo bhi
      if m.siz = 0 then 0
      else
        matchesTotal a b junk fuel alo m.bi blo m.bj + m.siz +
          matchesTotal a b junk fuel (m.bi + m.siz) ahi (m.bj + m.siz) bhi

/-- `SequenceMatcher(None, a, b).ratio()` as an exact rational (`2.0 *
matches / length`, or `1.0` for two empty sequences). -/
def ratio (a b : List Char) : Rat :=
  let junk := isJunk b
  let total := matchesTotal a b junk (a.length + b.length + 1) 0 a.length 0
    b.length
  if a.length + b.length = 0 then 1
  else (2 * total : Rat) / ((a.length + b.length : Nat) : Rat)

end Difflib

/-! ### Embedding of the `InterviewEngine` state machine

Session state (`interview_engine.py`) is the `EngineState` structure; the
text generator and the `random` module are an `Oracle` of per-call-site
response functions (a failing generation call is `Except.error`); a Python
exception escaping to a caller that does not catch it is `Except.error`
carrying the state as already mutated at the raise point.  Wall-clock
timestamps, logging, the prompt strings fed to the generator, and the
`ConversationMemory` insight counters (which influence nothing but prompt
text) are outside the model. -/

namespace InterviewEngineM

/-- A question dict as placed in the interview sequence (`follow_up` is the
flag attached to emitted follow-up question dicts). -/
structure Question where
  category : String := ""
  question : String := ""
  purpose : String := ""
  transition : String := ""
  good_answer_criteria : String := ""
  follow_up : Bool := false
deriving DecidableEq

/-- A category question as delivered by the script generator. -/
structure RawQuestion where
  question : String := ""
  purpose : String := ""
  good_answer_criteria : String := ""
deriving DecidableEq

/-- The script contract consumed by `_organize_questions` (the generator's
validation pass guarantees every key, so the shape is total here). -/
structure Script where
  introduction : String := ""
  job_specific : List RawQuestion := []
  technical : List RawQuestion := []
  company_fit : List RawQuestion := []
  behavioral : List RawQuestion := []
  closing : String := ""
deriving DecidableEq

/-- One recorded response (`self.responses` entries; timestamps omitted). -/
structure ResponseRec where
  question_index : Nat
  question : Option Question
  response : String
deriving DecidableEq

/-- One recorded follow-up (`self.follow_ups` entries). -/
structure FollowUpRec where
  question_index : Nat
  original_question : Question
  follow_up_question : String
  response : String
deriving DecidableEq

/-- One recorded candidate question. -/
structure CandidateQRec where
  question : String
  current_question_index : Nat
deriving DecidableEq

/-- One conversation-memory exchange (the question dict reduced to the text
and category the engine reads back). -/
structure Exchange where
  qText : String := ""
  qCategory : String := ""
  response : String := ""
  is_candidate_question : Bool := false
deriving DecidableEq

/-- `ConversationMemory.add_exchange`: append, then pop the oldest entry
when the history exceeds `max_history`. -/
def addExchange (hist : List Exchange) (maxH : Nat) (e : Exchange) :
    List Exchange :=
  let h := hist ++ [e]
  if maxH < h.length then h.tail else h

/-- The complete mutable session state of one `InterviewEngine`. -/
structure EngineState where
  script : Option Script := none
  questions : List Question := []
  current_question_index : Nat := 0
  responses : List ResponseRec := []
  follow_ups : List FollowUpRec := []
  interview_active : Bool := false
  interview_complete : Bool := false
  summary : Option Json := none
  demo_mode : Bool := false
  /-- `self.previous_responses`, keyed by `str(question_index)` (indices are
  in bijection with their string forms). -/
  previous_responses : List (Nat × List String) := []
  candidate_questions : List CandidateQRec := []
  memory : List Exchange := []
  /-- `prompt_cache` entries with key prefix `question_detection:`, keyed by
  the hashed text. -/
  question_cache : List (String × Bool) := []
  /-- `prompt_cache` entries with key prefix `response_quality:`, keyed by
  the hashed (response, question) pair. -/
  quality_cache : List ((String × Question) × Int) := []
  /-- Pending outcomes of `random.random() < 0.5` draws (exhaustion reads as
  `false`; every finite behaviour is some list). -/
  rng : List Bool := []

/-- Association-list lookup (Python dict read). -/
def assoc {κ α : Type} [DecidableEq κ] : List (κ × α) → κ → Option α
  | [], _ => none
  | (k, v) :: rest, key => if k = key then some v else assoc rest key

/-- Association-list update (Python dict write: in-place position kept). -/
def assocSet {κ α : Type} [DecidableEq κ] : List (κ × α) → κ → α →
    List (κ × α)
  | [], key, v => [(key, v)]
  | (k, w) :: rest, key, v =>
      if k = key then (k, v) :: rest else (k, w) :: assocSet rest key v

/-- The generator / randomness boundary, one field per call site.  Helpers
whose internal failure handling already yields a plain string with no state
effect (`_generate_acknowledgment`, `_get_conversational_buffer`,
`generate_interview_script` with its deterministic fallback script, and
`generate_interview_summary` with its validated/fallback record) are total
oracle functions. -/
structure Oracle where
  /-- `generator.generate_interview_script(job, company, candidate, demo)`. -/
  scriptGen : Bool → Script
  /-- The yes/no LLM call of `_detect_candidate_question` on the normalised
  text. -/
  questionDetectLLM : String → Except Unit String
  /-- The 1–10 quality-score LLM call of `_should_ask_follow_up`. -/
  qualityLLM : String → Question → Except Unit String
  /-- `generator.generate_follow_up_question` (returns `none` for the
  explicit no-follow-up outcome; `Except.error` for a raising generator). -/
  followUpGen : String → Question → Except Unit (Option String)
  /-- The LLM answer to a candidate question. -/
  candidateAnswer : String → Except Unit String
  /-- `_generate_acknowledgment` (total: internal fallbacks). -/
  ackGen : String → Question → String
  /-- `_get_conversational_buffer` (total: internal fallbacks). -/
  conversationalBuffer : String → Question → Question → String
  /-- `generator.generate_interview_summary` (total: internal fallbacks). -/
  summaryGen : Bool → Json

/-- The response dict returned by a turn (fields present on some paths). -/
structure TurnResponse where
  status : String := ""
  question : Option Question := none
  acknowledgment : Option String := none
  transition : Option String := none
  introduction : Option String := none
  message : Option String := none
  closing_remarks : Option String := none
  summary : Option Json := none
  question_number : Option Nat := none
  total_questions : Option Nat := none
  is_follow_up : Option Bool := none

/-- Which control path a `process_response` call took (a model annotation;
`advance`-flavoured branches are the cursor-incrementing ones). -/
inductive Branch where
  | fallbackAdvance
  | alreadyComplete
  | duplicateAdvance
  | duplicateComplete
  | candidateQuestion
  | completion
  | followUpIssued
  | advance
deriving DecidableEq

/-- The fixed introduction question of `_organize_questions`. -/
def introQuestion : Question :=
  {category := "introduction",
   question := "Could you please tell me a bit about yourself and your interest in this position?",
   purpose := "To break the ice and hear the candidate's self-introduction",
   transition := "Thanks for joining us today. I'd like to start by getting to know you a bit better."}

/-- The fixed closing question of `_organize_questions`. -/
def closingQuestion : Question :=
  {category := "closing",
   question := "Do you have any questions for me about the position or the company?",
   purpose := "To allow the candidate to ask questions and show their interest",
   transition := "We've covered quite a bit today. Before we wrap up, I wanted to give you an opportunity to ask any questions you might have."}

/-- The rotating transition phrases (`transitions["job_specific"]` etc.). -/
def jobTransitions : List String :=
  ["Building on what we've discussed, I'd like to ask about your experience with...",
   "I'm interested to hear more about your background in...",
   "Let's talk more specifically about your work with..."]

/-- The rotating technical transitions. -/
def techTransitions : List String :=
  ["Now I'd like to explore your technical knowledge in...",
   "Regarding the technical aspects of this role...",
   "Let's dive into some of the technical skills required for this position..."]

/-- The rotating company-fit transitions. -/
def fitTransitions : List String :=
  ["Considering our company values...",
   "From a team perspective...",
   "In terms of our work environment..."]

/-- The rotating behavioral transitions. -/
def behaveTransitions : List String :=
  ["Reflecting on your past experiences...",
   "I'm curious about how you've handled certain situations before...",
   "Let's discuss an example of when you've had to..."]

/-- Tags a raw question with category and transition. -/
def mkQ (cat : String) (trans : String) (r : RawQuestion) : Question :=
  {category := cat, question := r.question, purpose := r.purpose,
   good_answer_criteria := r.good_answer_criteria, transition := trans}

/-- The round-robin `while job_specific or technical or company_fit or
behavioral` loop of `_organize_questions` (pop order: job_specific,
behavioral, technical, company_fit; the `remaining_*` counters select the
transition phrase then decrement). -/
def distribute : List RawQuestion → List RawQuestion → List RawQuestion →
    List RawQuestion → Nat → Nat → Nat → Nat → Nat → List Question
  | _, _, _, _, _, _, _, _, 0 => []
  | js, bh, te, cf, rj, rb, rt, rc, fuel + 1 =>
      if js.isEmpty ∧ bh.isEmpty ∧ te.isEmpty ∧ cf.isEmpty then []
      else
        let (q1, js', rj') :=
          match js with
          | q :: rest =>
              ([mkQ "job_specific" (jobTransitions.getD (rj % 3) "") q],
               rest, rj - 1)
          | [] => ([], js, rj)
        let (q2, bh', rb') :=
          match bh with
          | q :: rest =>
              ([mkQ "behavioral" (behaveTransitions.getD (rb % 3) "") q],
               rest, rb - 1)
          | [] => ([], bh, rb)
        let (q3, te', rt') :=
          match te with
          | q :: rest =>
              ([mkQ "technical" (techTransitions.getD (rt % 3) "") q],
               rest, rt - 1)
          | [] => ([], te, rt)
        let (q4, cf', rc') :=
          match cf with
          | q :: rest =>
              ([mkQ "company_fit" (fitTransitions.getD (rc % 3) "") q],
               rest, rc - 1)
          | [] => ([], cf, rc)
        q1 ++ q2 ++ q3 ++ q4 ++ distribute js' bh' te' cf' rj' rb' rt' rc' fuel

/-- Embedding of `_organize_questions`: introduction, one primer question
per category (job, technical, fit, behavioral), the round-robin remainder,
then the closing question. -/
def organize_questions (script : Script) : List Question :=
  let job := script.job_specific
  let tech := script.technical
  let fit := script.company_fit
  let behave := script.behavioral
  let seq := [introQuestion]
  let (seq, job) :=
    match job with
    | q :: rest =>
        (seq ++ [mkQ "job_specific"
          "Thanks for sharing that. I'd like to learn more about your relevant experience." q],
         rest)
    | [] => (seq, job)
  let (seq, tech) :=
    match tech with
    | q :: rest =>
        (seq ++ [mkQ "technical"
          "Now I'd like to understand your technical capabilities a bit better." q],
         rest)
    | [] => (seq, tech)
  let (seq, fit) :=
    match fit with
    | q :: rest =>
        (seq ++ [mkQ "company_fit"
          "Switching gears a bit, I'd like to explore how you might fit with our company culture." q],
         rest)
    | [] => (seq, fit)
  let (seq, behave) :=
    match behave with
    | q :: rest =>
        (seq ++ [mkQ "behavioral"
          "Let's talk about some of your past experiences and how you handled them." q],
         rest)
    | [] => (seq, behave)
  let seq := seq ++ distribute job behave tech fit job.length behave.length
    tech.length fit.length
    (job.length + behave.length + tech.length + fit.length + 1)
  seq ++ [closingQuestion]

/-- Embedding of `InterviewEngine.generate_interview_script`. -/
def generate_interview_script (o : Oracle) (s : EngineState) (demo : Bool) :
    EngineState :=
  let s := {s with demo_mode := demo}
  let script := o.scriptGen demo
  {s with script := some script, questions := organize_questions script}

/-- Embedding of `InterviewEngine.start_interview`: a missing script is
generated on the spot; the `Except.error` path is the uncaught
`AttributeError` when no current question exists (`current_question.get`
on `None`). -/
def start_interview (o : Oracle) (s : EngineState) :
    Except EngineState (TurnResponse × EngineState) :=
  let s := if s.script.isNone then generate_interview_script o s false else s
  let s := {s with interview_active := true, current_question_index := 0,
                   responses := [], follow_ups := []}
  match s.questions.get? 0, s.script with
  | some cq, some scr =>
      .ok ({status := "active", introduction := some scr.introduction,
            question := some cq, transition := some cq.transition,
            question_number := some 1,
            total_questions := some s.questions.length}, s)
  | _, _ => .error s

/-- The fixed question-phrase list of `_detect_candidate_question`. -/
def questionPhrases : List String :=
  ["i have a question", "can you tell me", "could you explain",
   "tell me about", "what is", "how do you", "who is", "when will",
   "why do", "where is", "is there", "are there", "will you",
   "could you", "would it be", "do you know", "i wonder if",
   "i'd like to know"]

/-- Embedding of `_detect_candidate_question` (trailing `?`, then phrase
match, then — for texts over 15 words — the cached yes/no LLM call; an LLM
error logs and falls through to `False` without caching). -/
def detect_candidate_question (o : Oracle) (s : EngineState)
    (response_text : String) : Bool × EngineState :=
  let text := pyLower (pyStrip response_text.data)
  if pyEndsWith text '?' then (true, s)
  else if questionPhrases.any (fun p => containsSub text p.data) then (true, s)
  else if 15 < (pySplit text).length then
    let key := String.mk text
    match assoc s.question_cache key with
    | some b => (b, s)
    | none =>
        match o.questionDetectLLM key with
        | .ok resp =>
            let isQ := pyLower (pyStrip resp.data) == "yes".data
            (isQ, {s with question_cache := s.question_cache ++ [(key, isQ)]})
        | .error _ => (false, s)
  else (false, s)

/-- Embedding of `_calculate_similarity` (`SequenceMatcher` ratio on the
lower-cased, stripped texts).  The Python threshold literal `0.8` is the
float nearest 4/5; no ratio value (a rational of denominator `≤` twice the
text length) lies strictly between them, so the exact 4/5 comparison used by
the theorems coincides with the float comparison. -/
def calculate_similarity (text1 text2 : String) : Rat :=
  Difflib.ratio (pyStrip (pyLower text1.data)) (pyStrip (pyLower text2.data))

/-- Embedding of `_check_duplicate_response`: ensure the per-question
history exists, exempt candidate questions, report a duplicate when some
prior answer has similarity above the threshold, otherwise record the
answer. -/
def check_duplicate_response (o : Oracle) (s : EngineState)
    (new_response : String) (question_index : Nat) : Bool × EngineState :=
  let s :=
    if (assoc s.previous_responses question_index).isSome then s
    else {s with previous_responses := s.previous_responses ++ [(question_index, [])]}
  let (isQ, s) := detect_candidate_question o s new_response
  if isQ then (false, s)
  else
    let prevs := (assoc s.previous_responses question_index).getD []
    if prevs.any (fun prev =>
        (4 : Rat) / 5 < calculate_similarity new_response prev) then
      (true, s)
    else
      let prevs2 := assocSet s.previous_responses question_index
        (prevs ++ [new_response])
      (false, {s with previous_responses := prevs2})

/-- Python `s.strip(chars)` for a character set. -/
def pyStripSet (p : Char → Bool) (s : List Char) : List Char :=
  ((s.dropWhile p).reverse.dropWhile p).reverse

/-- Embedding of `_handle_candidate_question`: record the question, add a
memory exchange, answer via the generator (fixed fallback text on error),
and keep the current question — the cursor does not move. -/
def handle_candidate_question (o : Oracle) (s : EngineState)
    (question_text : String) (current_question : Question) :
    TurnResponse × EngineState :=
  let cq : CandidateQRec := ⟨question_text, s.current_question_index⟩
  let s := {s with candidate_questions := s.candidate_questions ++ [cq]}
  let ex : Exchange := {qText := question_text, is_candidate_question := true}
  let s := {s with memory := addExchange s.memory 10 ex}
  let ack :=
    match o.candidateAnswer question_text with
    | .ok resp =>
        String.mk (pyStripSet
          (fun c => c = dqChar || c = sqChar || c = btChar)
          (pyStrip resp.data))
    | .error _ =>
        "That's a good question. Our company values transparency and innovation. Let's continue with the interview questions."
  ({status := "active", acknowledgment := some ack,
    question := some current_question,
    question_number := some (s.current_question_index + 1),
    total_questions := some s.questions.length}, s)

/-- Embedding of `get_next_question`: increment the cursor; past the end,
mark the interview complete. -/
def get_next_question (s : EngineState) : Option Question × EngineState :=
  let s := {s with current_question_index := s.current_question_index + 1}
  match s.questions.get? s.current_question_index with
  | some q => (some q, s)
  | none => (none, {s with interview_complete := true})

/-- Embedding of `generate_summary` (no recorded responses and no early
termination yields the error record; otherwise the generator's validated
summary — `generate_interview_summary` catches its own failures, so the
`except` branch of `generate_summary` is dead). -/
def generateSummary (o : Oracle) (s : EngineState) (early : Bool) :
    EngineState × Json :=
  if s.responses.isEmpty ∧ ¬ early then
    let sum := Json.obj [("error", .str "No responses recorded")]
    ({s with summary := some sum}, sum)
  else
    let sum := o.summaryGen early
    ({s with summary := some sum}, sum)

/-- Embedding of `_handle_interview_completion`; the error path is the
uncaught `AttributeError` of `self.script.get("closing", ...)` when no
script exists. -/
def handle_interview_completion (o : Oracle) (s : EngineState) :
    Except EngineState (Branch × TurnResponse × EngineState) :=
  let s := {s with interview_complete := true}
  let (s, _) := generateSummary o s false
  match s.script with
  | some scr =>
      .ok (.completion,
           {status := "complete", closing_remarks := some scr.closing,
            summary := s.summary}, s)
  | none => .error s

/-- Embedding of `_handle_next_question`: advance the cursor; emit the next
question with a conversational buffer, or complete the interview. -/
def handle_next_question (o : Oracle) (s : EngineState)
    (response_text : String) (current_question : Question) :
    Except EngineState (Branch × TurnResponse × EngineState) :=
  let (nq, s) := get_next_question s
  match nq with
  | some q =>
      let buffer := o.conversationalBuffer response_text current_question q
      .ok (.advance,
           {status := "active", acknowledgment := some buffer,
            question := some q,
            question_number := some (s.current_question_index + 1),
            total_questions := some s.questions.length}, s)
  | none => handle_interview_completion o s

/-- Embedding of `_handle_follow_up_generation`: a generated follow-up is
recorded (cursor unchanged); a `None`/failing generation moves on to the
next question. -/
def handle_follow_up_generation (o : Oracle) (s : EngineState)
    (response_text : String) (current_question : Question) :
    Except EngineState (Branch × TurnResponse × EngineState) :=
  match o.followUpGen response_text current_question with
  | .error _ => handle_next_question o s response_text current_question
  | .ok none => handle_next_question o s response_text current_question
  | .ok (some fu) =>
      let fr : FollowUpRec :=
        ⟨s.current_question_index, current_question, fu, response_text⟩
      let s := {s with follow_ups := s.follow_ups ++ [fr]}
      let ack := o.ackGen response_text current_question
      .ok (.followUpIssued,
           {status := "active", acknowledgment := some ack,
            question := some ({question := fu,
                               category := current_question.category,
                               follow_up := true} : Question),
            question_number := some (s.current_question_index + 1),
            total_questions := some s.questions.length}, s)

/-- Embedding of `_handle_duplicate_response`; the error path is the
uncaught subscript `self.script["closing"]` on a missing script in the
end-of-interview branch. -/
def handle_duplicate_response (o : Oracle) (s : EngineState)
    (response_text : String) (current_question : Question) :
    Except EngineState (Branch × TurnResponse × EngineState) :=
  let (isQ, s) := detect_candidate_question o s response_text
  if isQ then
    let (r, s) := handle_candidate_question o s response_text current_question
    .ok (.candidateQuestion, r, s)
  else
    let (isQ2, s) :=
      if current_question.category = "closing" then
        detect_candidate_question o s response_text
      else (false, s)
    if isQ2 then
      let (r, s) := handle_candidate_question o s response_text current_question
      .ok (.candidateQuestion, r, s)
    else
      let (nq, s) := get_next_question s
      match nq with
      | some q =>
          .ok (.duplicateAdvance,
               {status := "active", is_follow_up := some false,
                acknowledgment := some "Thank you for your response.",
                question := some q, transition := some q.transition,
                question_number := some (s.current_question_index + 1),
                total_questions := some s.questions.length}, s)
      | none =>
          let s := {s with interview_active := false,
                           interview_complete := true}
          let (s, sum) := generateSummary o s false
          match s.script with
          | some scr =>
              .ok (.duplicateComplete,
                   {status := "complete",
                    acknowledgment := some "Thank you for your response.",
                    closing_remarks := some scr.closing,
                    summary := some sum}, s)
          | none => .error s

/-- The `move_on_phrases` of `_should_ask_follow_up`. -/
def moveOnPhrases : List String :=
  ["can we move", "next question", "moving on", "let's continue",
   "next section", "proceed", "getting rushed", "short on time",
   "move forward", "continue with", "go ahead"]

/-- The technical-marker vocabulary of the fallback heuristics. -/
def technicalMarkers : List String :=
  ["implemented", "designed", "developed", "algorithm",
   "complexity", "architecture", "solution", "framework",
   "database", "system", "code", "programming"]

/-- STAR situation markers. -/
def situationMarkers : List String :=
  ["when", "situation", "context", "challenge", "problem", "faced"]

/-- STAR action markers. -/
def actionMarkers : List String :=
  ["did", "action", "took", "steps", "approach", "handled", "implemented"]

/-- STAR result markers. -/
def resultMarkers : List String :=
  ["result", "outcome", "impact", "learned", "achieved", "ended", "succeeded"]

/-- Draws the next `random.random() < 0.5` outcome. -/
def drawCoin (s : EngineState) : Bool × EngineState :=
  match s.rng with
  | b :: rest => (b, {s with rng := rest})
  | [] => (false, s)

/-- The decision made from a (clamped) quality score: `≤ 3` or a first
follow-up at `≤ 6` asks; everything else falls through to `False`. -/
def qualityDecision (score : Int) (follow_up_count : Nat) : Bool :=
  if score ≤ 3 then true
  else if score ≤ 6 ∧ follow_up_count = 0 then true
  else false

/-- The `except` branch of `_should_ask_follow_up`: word-count threshold,
category-specific marker checks, long-response override, and the 50/50
random tie-break on a first follow-up. -/
def followUpFallback (s : EngineState) (response_text : String)
    (question : Question) (follow_up_count : Nat) : Bool × EngineState :=
  let lower := pyLower response_text.data
  let words := (pySplit response_text.data).length
  if words < 25 then (true, s)
  else if question.category = "technical" ∧ follow_up_count = 0 ∧ words < 75
  then (true, s)
  else if question.category = "technical" ∧ follow_up_count = 0 ∧
      (technicalMarkers.countP fun m =>
        containsSub lower (pyLower m.data)) < 2 then (true, s)
  else if question.category = "behavioral" ∧ follow_up_count = 0 ∧
      ¬ ((situationMarkers.any fun m => containsSub lower m.data) ∧
         (actionMarkers.any fun m => containsSub lower m.data) ∧
         (resultMarkers.any fun m => containsSub lower m.data)) then (true, s)
  else if 100 < words then (false, s)
  else if follow_up_count = 0 then drawCoin s
  else (false, s)

/-- Embedding of `_should_ask_follow_up`. -/
def should_ask_follow_up (o : Oracle) (s : EngineState)
    (response_text : String) (question : Question) (follow_up_count : Nat) :
    Bool × EngineState :=
  let lower := pyLower response_text.data
  if moveOnPhrases.any (fun p => containsSub lower p.data) then (false, s)
  else if s.demo_mode then
    if 0 < follow_up_count then (false, s)
    else if (pySplit response_text.data).length < 15 then (true, s)
    else (false, s)
  else if 2 ≤ follow_up_count then (false, s)
  else
    match assoc s.quality_cache (response_text, question) with
    | some score => (qualityDecision score follow_up_count, s)
    | none =>
        match o.qualityLLM response_text question with
        | .ok raw =>
            let score : Int :=
              match pyInt (pyStrip raw.data) with
              | some n => max 1 (min 10 n)
              | none => 5
            let s := {s with quality_cache :=
              s.quality_cache ++ [((response_text, question), score)]}
            (qualityDecision score follow_up_count, s)
        | .error _ => followUpFallback s response_text question follow_up_count

/-- Embedding of `_process_response_core`.  Note the double evaluation of
`_should_ask_follow_up` on the final question: `if A and not B: ... elif B:`
evaluates `B` twice when `A` holds (the score is cached between the calls,
but a random tie-break is drawn afresh). -/
def process_response_core (o : Oracle) (s : EngineState)
    (response_text : String) (current_question : Question) :
    Except EngineState (Branch × TurnResponse × EngineState) :=
  let (isDup, s) :=
    check_duplicate_response o s response_text s.current_question_index
  if isDup then handle_duplicate_response o s response_text current_question
  else
    let (isQ, s) := detect_candidate_question o s response_text
    if isQ then
      let (r, s) := handle_candidate_question o s response_text current_question
      .ok (.candidateQuestion, r, s)
    else
      let fuc := s.follow_ups.countP
        fun f => f.question_index = s.current_question_index
      if (s.current_question_index : Int) ≥ (s.questions.length : Int) - 1 then
        let (b1, s) := should_ask_follow_up o s response_text current_question fuc
        if ¬ b1 then handle_interview_completion o s
        else
          let (b2, s) :=
            should_ask_follow_up o s response_text current_question fuc
          if b2 then handle_follow_up_generation o s response_text current_question
          else handle_next_question o s response_text current_question
      else
        let (b2, s) := should_ask_follow_up o s response_text current_question fuc
        if b2 then handle_follow_up_generation o s response_text current_question
        else handle_next_question o s response_text current_question

/-- Embedding of `_fallback_response_handler`: advance the cursor; past the
end, complete the interview with a canned summary dict (not stored in
`self.summary`). -/
def fallback_response_handler (s : EngineState) :
    TurnResponse × EngineState :=
  let s := {s with current_question_index := s.current_question_index + 1}
  match s.questions.get? s.current_question_index with
  | some q =>
      ({status := "active",
        acknowledgment := some "Thank you. Let's move to the next question.",
        question := some q,
        question_number := some (s.current_question_index + 1),
        total_questions := some s.questions.length}, s)
  | none =>
      let s := {s with interview_complete := true}
      ({status := "complete",
        closing_remarks :=
          some "Thank you for your time today. This concludes our interview.",
        summary := some (Json.obj
          [("overall_impression",
            .str "The interview has been completed.")])}, s)

/-- Embedding of `process_response`, annotated with the branch taken.  The
response is recorded first; an invalid cursor goes to the fallback handler;
the already-complete check runs after the memory update; any exception from
the core degrades to the fallback handler on the state as mutated so far. -/
def process_response_b (o : Oracle) (s0 : EngineState)
    (response_text : String) : Branch × TurnResponse × EngineState :=
  let rr : ResponseRec := ⟨s0.current_question_index,
    s0.questions.get? s0.current_question_index, response_text⟩
  let s := {s0 with responses := s0.responses ++ [rr]}
  match s.questions.get? s.current_question_index with
  | none =>
      let (r, s) := fallback_response_handler s
      (.fallbackAdvance, r, s)
  | some cq =>
      let ex : Exchange := {qText := cq.question, qCategory := cq.category,
                            response := response_text}
      let s := {s with memory := addExchange s.memory 10 ex}
      if s.interview_complete then
        (.alreadyComplete,
         {status := "complete",
          message := some "The interview is already complete.",
          summary := s.summary}, s)
      else
        match process_response_core o s response_text cq with
        | .ok out => out
        | .error serr =>
            let (r, s') := fallback_response_handler serr
            (.fallbackAdvance, r, s')

/-- `process_response` without the branch annotation. -/
def process_response (o : Oracle) (s : EngineState) (response_text : String) :
    TurnResponse × EngineState :=
  let (_, r, s') := process_response_b o s response_text
  (r, s')

/-- A sequence of `submitResponse` calls on one session. -/
def runResponses (o : Oracle) (s : EngineState) : List String → EngineState
  | [] => s
  | t :: rest => runResponses o (process_response o s t).2 rest

end InterviewEngineM

/-! ### Embedding of the `ResourceMonitor` eviction policy -/

namespace ResourceMonitorM

/-- Monitor bookkeeping for one registered engine (timestamps as exact
numbers; only their order matters). -/
structure EngineEntry where
  last_access : Int
  access_count : Int
deriving DecidableEq

/-- The Python sort key `(last_access, -access_count)` compared
lexicographically: last access ascending, access count descending. -/
def entryLE (a b : String × EngineEntry) : Bool :=
  a.2.last_access < b.2.last_access ||
    (a.2.last_access = b.2.last_access ∧
     -a.2.access_count ≤ -b.2.access_count)

/-- Embedding of `_cleanup_least_used_engines`: stable-sort the registry by
`(last_access, -access_count)`, delete the first `max(1, n // 4)` engines,
keep the rest in registry (insertion) order.  (Python's `sorted` and
`List.mergeSort` are both stable, so they agree on ties.) -/
def cleanup_least_used_engines (reg : List (String × EngineEntry)) :
    List (String × EngineEntry) :=
  if reg.isEmpty then reg
  else
    let sorted := reg.mergeSort entryLE
    let engines_to_remove := max 1 (reg.length / 4)
    let removed := (sorted.take engines_to_remove).map Prod.fst
    reg.filter fun e => ¬ removed.contains e.1

/-- The engines evicted by one cleanup, in eviction order. -/
def evicted (reg : List (String × EngineEntry)) :
    List (String × EngineEntry) :=
  (reg.mergeSort entryLE).take (max 1 (reg.length / 4))

/-- Modelled from the spec: the eviction ranking the specification
describes, "`(lastAccessTime ascending, accessCount ascending)` as
tie-break", for comparison with the code's order. -/
def specEntryLE (a b : String × EngineEntry) : Bool :=
  a.2.last_access < b.2.last_access ||
    (a.2.last_access = b.2.last_access ∧ a.2.access_count ≤ b.2.access_count)

/-- The eviction set the specification's ranking would produce. -/
def specEvicted (reg : List (String × EngineEntry)) :
    List (String × EngineEntry) :=
  (reg.mergeSort specEntryLE).take (max 1 (reg.length / 4))

/-- A four-session registry with an access-count tie on the oldest access
time: sessions `A` and `B` were both last touched at time 10, `A` with the
smaller access count. -/
def regC9 : List (String × EngineEntry) :=
  [("A", ⟨10, 1⟩), ("B", ⟨10, 5⟩), ("C", ⟨20, 0⟩), ("D", ⟨20, 3⟩)]

end ResourceMonitorM

/-! ### Concrete instances used by counterexamples and witnesses -/

namespace InterviewEngineM

/-- Follow-up count recorded for one question index. -/
def countFU (s : EngineState) (i : Nat) : Nat :=
  s.follow_ups.countP fun f => f.question_index = i

/-- The per-question duplicate-detection history. -/
def histAt (s : EngineState) (i : Nat) : List String :=
  (assoc s.previous_responses i).getD []

/-- The pairwise compatibility invariant of a duplicate-detection history:
every later entry has similarity at most the threshold to every earlier
entry (similarity is computed as `similarity(new, prev)`). -/
def histCompat (l : List String) : Prop :=
  l.Pairwise fun a b => calculate_similarity b a ≤ (4 : Rat) / 5

/-- The branches on which the cursor may advance (`advance`-flavoured
transitions: normal advance, duplicate skip, the advance-past-the-end
completions, and the error fallback). -/
def advanceBranch : Branch → Bool
  | .advance | .duplicateAdvance | .duplicateComplete | .completion
  | .fallbackAdvance => true
  | _ => false

/-- The state carried by a core-handler outcome (the mutated state at the
raise point for an escaping exception). -/
def coreState : Except EngineState (Branch × TurnResponse × EngineState) →
    EngineState
  | .ok (_, _, s2) => s2
  | .error s2 => s2

/-- The branch annotation of a core-handler outcome (`none` for an escaping
exception). -/
def coreBranch : Except EngineState (Branch × TurnResponse × EngineState) →
    Option Branch
  | .ok (b, _, _) => some b
  | .error _ => none

/-- A concrete single-question-per-category script. -/
def scriptC : Script :=
  {introduction := "Welcome to the interview.",
   job_specific := [{question := "Tell me about your last project."}],
   technical := [{question := "How does a hash map work?"}],
   company_fit := [],
   behavioral := [],
   closing := "Thanks for coming in."}

/-- A concrete deterministic oracle. -/
def oracleC : Oracle :=
  { scriptGen := fun _ => scriptC,
    questionDetectLLM := fun _ => Except.error (),
    qualityLLM := fun _ _ => Except.ok "8",
    followUpGen := fun _ _ => Except.ok (some "Could you give a concrete example?"),
    candidateAnswer := fun _ => Except.ok "Happy to answer that.",
    ackGen := fun _ _ => "Thanks for the detail.",
    conversationalBuffer := fun _ _ _ => "Good, moving on.",
    summaryGen := fun _ => Json.obj [("candidate_name", Json.str "C")] }

/-- A freshly constructed engine: no script, no questions. -/
def stateFresh : EngineState := {}

/-- A session completed on its final question: the cursor still indexes the
closing question, `complete` is set. -/
def stateCompleted : EngineState :=
  {script := some scriptC,
   questions := organize_questions scriptC,
   current_question_index := (organize_questions scriptC).length - 1,
   interview_active := true,
   interview_complete := true,
   summary := some (Json.obj [("candidate_name", Json.str "C")]),
   responses := [⟨0, some introQuestion, "earlier answer"⟩]}

/-- A mid-interview session on question 1. -/
def stateMid : EngineState :=
  {script := some scriptC,
   questions := organize_questions scriptC,
   current_question_index := 1,
   interview_active := true}

/-- A concrete non-question answer (9 words, no question phrase). -/
def ansA : String :=
  "I built a large billing service using queues and retries"

/-- A second, dissimilar non-question answer. -/
def ansB : String :=
  "My main focus was frontend dashboards with charts and caching"

/-- A recorded follow-up on question 1. -/
def fuRecC : FollowUpRec :=
  ⟨1, closingQuestion, "Could you expand on that?", "prior answer"⟩

/-- A non-demo session that already carries two follow-ups on the current
question. -/
def stateFU2 : EngineState :=
  {stateMid with follow_ups := [fuRecC, fuRecC]}

end InterviewEngineM

/-- The generator output of the C8 scenario:
`{name: "Ana", skills: [Python, Go]}` (unquoted property names and unquoted
array string values). -/
def c8Input : List Char :=
  "\x7bname: \"Ana\", skills: [Python, Go]\x7d".data

/-- The record the C8 claim says the repair cascade produces. -/
def c8Claimed : Json :=
  Json.obj [("name", Json.str "Ana"),
            ("skills", Json.arr [Json.str "Python", Json.str "Go"])]

end AIIA

/-! ## Theorems -/

namespace AIIA

namespace Json

/-- Reading back a just-written key. -/
theorem lookup_setKey_self (s : List (String × Json)) (k : String) (v : Json) :
    lookup? (setKey s k v) k = some v := by
  induction s with
  | nil => simp [setKey, lookup?]
  | cons hd tl ih =>
      obtain ⟨k', v'⟩ := hd
      by_cases h : k' = k <;> simp [setKey, lookup?, h, ih]

/-- Writing one key does not change another. -/
theorem lookup_setKey_ne (s : List (String × Json)) (k : String) (v : Json)
    (g : String) (h : g ≠ k) : lookup? (setKey s k v) g = lookup? s g := by
  have hkg : ¬ (k = g) := fun hh => h hh.symm
  induction s with
  | nil => simp [setKey, lookup?, hkg]
  | cons hd tl ih =>
      obtain ⟨k', v'⟩ := hd
      by_cases hk : k' = k
      · subst hk
        simp [setKey, lookup?, hkg]
      · simp [setKey, lookup?, hk, ih]

end Json

namespace InterviewGeneratorM

/-- `fieldPass` only writes its own field. -/
theorem fieldPass_lookup_ne (s : List (String × Json)) (fd : String × Json)
    (g : String) (h : g ≠ fd.1) :
    Json.lookup? (fieldPass s fd) g = Json.lookup? s g := by
  unfold fieldPass
  split <;>
    first
      | rfl
      | exact Json.lookup_setKey_ne _ _ _ _ h
      | (split_ifs <;>
          first
            | rfl
            | exact Json.lookup_setKey_ne _ _ _ _ h
            | (split <;>
                first
                  | rfl
                  | exact Json.lookup_setKey_ne _ _ _ _ h
                  | (split_ifs <;>
                      first
                        | rfl
                        | exact Json.lookup_setKey_ne _ _ _ _ h)))

/-- After `fieldPass`, the field is present; if its default is a (non-empty)
list, its value is a non-empty list. -/
theorem fieldPass_post (s : List (String × Json)) (fd : String × Json)
    (hld : ∀ l, fd.2 = Json.arr l → l ≠ []) :
    ∃ v, Json.lookup? (fieldPass s fd) fd.1 = some v ∧
      (fd.2.isList = true → ∃ l, v = Json.arr l ∧ l ≠ []) := by
  have hdflt : (fd.2.isList = true → ∃ l, fd.2 = Json.arr l ∧ l ≠ []) := by
    intro hl
    cases hfd : fd.2 <;> simp [Json.isList, hfd] at hl ⊢
    exact hld _ hfd
  have hset : ∀ w, Json.lookup? (Json.setKey s fd.1 w) fd.1 = some w :=
    fun w => Json.lookup_setKey_self s fd.1 w
  unfold fieldPass
  cases hlk : Json.lookup? s fd.1 with
  | none =>
      dsimp only
      exact ⟨fd.2, hset _, hdflt⟩
  | some v =>
      dsimp only
      by_cases h1 : v.truthy = true
      · rw [if_neg (by simp [h1])]
        by_cases h2 : fd.2.isList = true ∧ ¬ v.isList = true
        · rw [if_pos h2]
          cases v with
          | str str =>
              dsimp only
              split_ifs with hitems
              · exact ⟨fd.2, hset _, hdflt⟩
              · refine ⟨_, hset _, fun _ => ⟨_, rfl, fun hc => ?_⟩⟩
                rw [List.map_eq_nil_iff] at hc
                exact hitems (by rw [hc]; rfl)
          | arr l => exact absurd h2.2 (by simp [Json.isList])
          | null => exact ⟨fd.2, hset _, hdflt⟩
          | bool b => exact ⟨fd.2, hset _, hdflt⟩
          | num q => exact ⟨fd.2, hset _, hdflt⟩
          | obj kvs => exact ⟨fd.2, hset _, hdflt⟩
          | special t => exact ⟨fd.2, hset _, hdflt⟩
        · rw [if_neg h2]
          refine ⟨v, hlk, fun hl => ?_⟩
          have hvl : v.isList = true := by
            by_contra hc
            exact h2 ⟨hl, by simpa using hc⟩
          cases v with
          | arr l =>
              refine ⟨l, rfl, fun hc => ?_⟩
              subst hc
              simp [Json.truthy] at h1
          | null => simp [Json.isList] at hvl
          | bool b => simp [Json.isList] at hvl
          | num q => simp [Json.isList] at hvl
          | str s2 => simp [Json.isList] at hvl
          | obj kvs => simp [Json.isList] at hvl
          | special t => simp [Json.isList] at hvl
      · rw [if_pos (by simp [h1])]
        exact ⟨fd.2, hset _, hdflt⟩

/-- A fold of `fieldPass` over fields not containing `g` leaves `g`
unchanged. -/
theorem foldl_fieldPass_ne (defs : List (String × Json))
    (s : List (String × Json)) (g : String) (h : ∀ fd ∈ defs, g ≠ fd.1) :
    Json.lookup? (defs.foldl fieldPass s) g = Json.lookup? s g := by
  induction defs generalizing s with
  | nil => rfl
  | cons hd tl ih =>
      simp only [List.foldl_cons]
      rw [ih _ fun fd hfd => h fd (List.mem_cons_of_mem _ hfd)]
      exact fieldPass_lookup_ne _ _ _ (h hd (List.mem_cons_self _ _))

/-- After folding `fieldPass` over a nodup defaults list, every default
field is present (with a non-empty list value when its default is a
list). -/
theorem foldl_fieldPass_post (defs : List (String × Json))
    (s : List (String × Json)) (fd : String × Json) (hmem : fd ∈ defs)
    (hnd : (defs.map Prod.fst).Nodup)
    (hld : ∀ l, fd.2 = Json.arr l → l ≠ []) :
    ∃ v, Json.lookup? (defs.foldl fieldPass s) fd.1 = some v ∧
      (fd.2.isList = true → ∃ l, v = Json.arr l ∧ l ≠ []) := by
  induction defs generalizing s with
  | nil => cases hmem
  | cons hd tl ih =>
      rw [List.map_cons, List.nodup_cons] at hnd
      obtain ⟨hnotin, hnd'⟩ := hnd
      simp only [List.foldl_cons]
      rcases List.mem_cons.mp hmem with heq | htl
      · subst heq
        obtain ⟨v, hv, hgood⟩ := fieldPass_post s fd hld
        refine ⟨v, ?_, hgood⟩
        rw [foldl_fieldPass_ne _ _ _ ?_, hv]
        intro fd' hfd' heq'
        exact hnotin (heq' ▸ List.mem_map_of_mem Prod.fst hfd')
      · exact ih _ htl hnd'

/-- `listsPass` is the identity when both list fields already hold non-empty
lists. -/
theorem listsPass_id (s defaults : List (String × Json))
    (h1 : ∃ l1, Json.lookup? s "strengths" = some (Json.arr l1) ∧ l1 ≠ [])
    (h2 : ∃ l2, Json.lookup? s "areas_for_improvement" = some (Json.arr l2) ∧
      l2 ≠ []) :
    listsPass s defaults = s := by
  obtain ⟨l1, hl1, hne1⟩ := h1
  obtain ⟨l2, hl2, hne2⟩ := h2
  have he1 : l1.isEmpty = false := by cases l1 with
    | nil => exact absurd rfl hne1
    | cons a t => rfl
  have he2 : l2.isEmpty = false := by cases l2 with
    | nil => exact absurd rfl hne2
    | cons a t => rfl
  unfold listsPass
  simp only [List.foldl_cons, List.foldl_nil]
  rw [hl1]
  dsimp only
  rw [if_neg (by simp [he1]), hl2]
  dsimp only
  rw [if_neg (by simp [he2])]

/-- `scoresPass` only writes `response_scores`. -/
theorem scoresPass_ne (s : List (String × Json)) (g : String)
    (h : g ≠ "response_scores") :
    Json.lookup? (scoresPass s) g = Json.lookup? s g := by
  unfold scoresPass
  split <;>
    first
      | exact Json.lookup_setKey_ne _ _ _ _ h
      | (split_ifs <;> exact Json.lookup_setKey_ne _ _ _ _ h)

/-- After `scoresPass`, `response_scores` is a non-empty list. -/
theorem scoresPass_post (s : List (String × Json)) :
    ∃ l, Json.lookup? (scoresPass s) "response_scores" =
      some (Json.arr l) ∧ l ≠ [] := by
  unfold scoresPass
  split
  · rename_i l
    split_ifs with he
    · exact ⟨_, Json.lookup_setKey_self _ _ _, by simp⟩
    · refine ⟨_, Json.lookup_setKey_self _ _ _, fun hc => ?_⟩
      rw [List.map_eq_nil_iff, List.enum_eq_nil] at hc
      simp [hc] at he
  · exact ⟨_, Json.lookup_setKey_self _ _ _, by simp⟩

/-- `ratingsPass` only writes `skill_ratings`. -/
theorem ratingsPass_ne (s : List (String × Json)) (g : String)
    (h : g ≠ "skill_ratings") :
    Json.lookup? (ratingsPass s) g = Json.lookup? s g := by
  unfold ratingsPass
  split <;>
    first
      | exact Json.lookup_setKey_ne _ _ _ _ h
      | (split_ifs <;> exact Json.lookup_setKey_ne _ _ _ _ h)

/-- After `ratingsPass`, `skill_ratings` is a non-empty list. -/
theorem ratingsPass_post (s : List (String × Json)) :
    ∃ l, Json.lookup? (ratingsPass s) "skill_ratings" =
      some (Json.arr l) ∧ l ≠ [] := by
  unfold ratingsPass
  split
  · rename_i l
    split_ifs with he
    · exact ⟨_, Json.lookup_setKey_self _ _ _, by simp [defaultRatings]⟩
    · refine ⟨_, Json.lookup_setKey_self _ _ _, fun hc => ?_⟩
      rw [List.map_eq_nil_iff, List.enum_eq_nil] at hc
      simp [hc] at he
  · exact ⟨_, Json.lookup_setKey_self _ _ _, by simp [defaultRatings]⟩

/-- `_validate_summary` on any dict succeeds and yields a well-formed
summary record. -/
theorem validate_summary_obj (fields : List (String × Json))
    (cand : CandidateData) (job : JobData) :
    ∃ out, validate_summary (Json.obj fields) cand job = Except.ok out ∧
      summaryWellFormed out = true := by
  refine ⟨_, rfl, ?_⟩
  set defaults := validateDefaults cand job with hdef
  set s1 := defaults.foldl fieldPass fields with hs1
  have hnd : (defaults.map Prod.fst).Nodup := by
    rw [hdef]
    simp [validateDefaults]
  have hlds : ∀ fd ∈ defaults, ∀ l, fd.2 = Json.arr l → l ≠ [] := by
    intro fd hfd
    rw [hdef] at hfd
    simp only [validateDefaults, List.mem_cons, List.not_mem_nil, or_false]
      at hfd
    rcases hfd with h|h|h|h|h|h|h|h|h <;> subst h <;> intro l hl <;>
      (try simp at hl) <;> (subst hl; simp)
  have hkey : ∀ fd ∈ defaults, ∃ v, Json.lookup? s1 fd.1 = some v ∧
      (fd.2.isList = true → ∃ l, v = Json.arr l ∧ l ≠ []) :=
    fun fd hfd => foldl_fieldPass_post defaults fields fd hfd hnd (hlds fd hfd)
  have hstr : ∃ l, Json.lookup? s1 "strengths" = some (Json.arr l) ∧ l ≠ [] := by
    obtain ⟨v, hv, hgood⟩ := hkey _ (show
      ("strengths", Json.arr
        [.str "Participated in the interview process",
         .str "Demonstrated interest in the position",
         .str "Communicated responses to interview questions"]) ∈ defaults by
        rw [hdef]; simp [validateDefaults])
    obtain ⟨l, hveq, hne⟩ := hgood (by simp [Json.isList])
    exact ⟨l, by rw [← hveq]; exact hv, hne⟩
  have hareas : ∃ l, Json.lookup? s1 "areas_for_improvement" =
      some (Json.arr l) ∧ l ≠ [] := by
    obtain ⟨v, hv, hgood⟩ := hkey _ (show
      ("areas_for_improvement", Json.arr
        [.str "Could provide more detailed examples in responses",
         .str "Additional technical assessment recommended"]) ∈ defaults by
        rw [hdef]; simp [validateDefaults])
    obtain ⟨l, hveq, hne⟩ := hgood (by simp [Json.isList])
    exact ⟨l, by rw [← hveq]; exact hv, hne⟩
  have hs2 : listsPass s1 defaults = s1 := listsPass_id _ _ hstr hareas
  have hscalar : ∀ k ∈ defaults.map Prod.fst,
      (Json.lookup? s1 k).isSome = true := by
    intro k hk
    obtain ⟨fd, hfd, hfst⟩ := List.mem_map.mp hk
    obtain ⟨v, hv, _⟩ := hkey fd hfd
    rw [← hfst]
    simp [hv]
  obtain ⟨lsc, hsc, hscne⟩ := scoresPass_post s1
  obtain ⟨lrt, hrt, hrtne⟩ := ratingsPass_post (scoresPass s1)
  have hget : ∀ (k : String), k ≠ "response_scores" → k ≠ "skill_ratings" →
      Json.lookup? (ratingsPass (scoresPass s1)) k = Json.lookup? s1 k := by
    intro k hk1 hk2
    rw [ratingsPass_ne _ _ hk2, scoresPass_ne _ _ hk1]
  rw [hs2]
  simp only [summaryWellFormed, requiredSummaryKeys, summaryListKeys,
    List.all_cons, List.all_nil, Bool.and_true, Bool.and_eq_true,
    Json.hasKey]
  refine ⟨⟨?_, ?_, ?_, ?_, ?_, ?_, ?_, ?_, ?_, ?_, ?_⟩, ?_, ?_, ?_, ?_⟩
  · rw [hget _ (by decide) (by decide)]
    exact hscalar "candidate_name" (by rw [hdef]; simp [validateDefaults])
  · rw [hget _ (by decide) (by decide)]
    exact hscalar "position" (by rw [hdef]; simp [validateDefaults])
  · rw [hget _ (by decide) (by decide)]
    obtain ⟨l, hl, _⟩ := hstr
    simp [hl]
  · rw [hget _ (by decide) (by decide)]
    obtain ⟨l, hl, _⟩ := hareas
    simp [hl]
  · rw [hget _ (by decide) (by decide)]
    exact hscalar "technical_evaluation" (by rw [hdef]; simp [validateDefaults])
  · rw [hget _ (by decide) (by decide)]
    exact hscalar "cultural_fit" (by rw [hdef]; simp [validateDefaults])
  · rw [hget _ (by decide) (by decide)]
    exact hscalar "recommendation" (by rw [hdef]; simp [validateDefaults])
  · rw [hget _ (by decide) (by decide)]
    exact hscalar "next_steps" (by rw [hdef]; simp [validateDefaults])
  · rw [hget _ (by decide) (by decide)]
    exact hscalar "overall_assessment" (by rw [hdef]; simp [validateDefaults])
  · rw [ratingsPass_ne _ _ (by decide)]
    simp [hsc]
  · simp [hrt]
  · rw [hget _ (by decide) (by decide)]
    obtain ⟨l, hl, hne⟩ := hstr
    rw [hl]
    cases l with
    | nil => exact absurd rfl hne
    | cons a t => rfl
  · rw [hget _ (by decide) (by decide)]
    obtain ⟨l, hl, hne⟩ := hareas
    rw [hl]
    cases l with
    | nil => exact absurd rfl hne
    | cons a t => rfl
  · rw [ratingsPass_ne _ _ (by decide), hsc]
    cases lsc with
    | nil => exact absurd rfl hscne
    | cons a t => rfl
  · rw [hrt]
    cases lrt with
    | nil => exact absurd rfl hrtne
    | cons a t => rfl

/-- C1: for every input string — including the empty string, non-JSON prose
and truncated JSON — the summary extraction cascade (`fix_json` parse/repair
stages, regex field extraction, deterministic fallback, then the
unconditional `_validate_summary` pass) returns a record containing every
required Summary key, with the list-valued fields being non-empty lists
(exceptions at every stage are caught inside the cascade). -/
theorem c1_extractor_totality (response : List Char) (cand : CandidateData)
    (job : JobData) :
    summaryWellFormed (parse_summary_response response cand job) = true := by
  have hex : ∃ f, EmergencyFix.extract_data_from_text response = Json.obj f :=
    ⟨_, rfl⟩
  obtain ⟨f2, hf2⟩ := hex
  obtain ⟨out2, hok2, hwf2⟩ := validate_summary_obj f2 cand job
  unfold parse_summary_response
  cases hfj : EmergencyFix.fix_json response with
  | obj fields =>
      obtain ⟨out, hok, hwf⟩ := validate_summary_obj fields cand job
      rw [hok]
      exact hwf
  | null =>
      rw [show validate_summary Json.null cand job = Except.error () from rfl,
        hf2, hok2]
      exact hwf2
  | bool b =>
      rw [show validate_summary (Json.bool b) cand job = Except.error ()
        from rfl, hf2, hok2]
      exact hwf2
  | num q =>
      rw [show validate_summary (Json.num q) cand job = Except.error ()
        from rfl, hf2, hok2]
      exact hwf2
  | str s =>
      rw [show validate_summary (Json.str s) cand job = Except.error ()
        from rfl, hf2, hok2]
      exact hwf2
  | arr elems =>
      rw [show validate_summary (Json.arr elems) cand job = Except.error ()
        from rfl, hf2, hok2]
      exact hwf2
  | special tag =>
      rw [show validate_summary (Json.special tag) cand job = Except.error ()
        from rfl, hf2, hok2]
      exact hwf2

end InterviewGeneratorM

/-- C8 counterexample: on the generator output
`{name: "Ana", skills: [Python, Go]}`, `fix_json` does not return
`{"name": "Ana", "skills": ["Python", "Go"]}` — the repaired text still
fails every parse (bare array values are never quoted) and the cascade falls
back to pattern extraction, whose record does not even contain a `name`
key. -/
theorem c8_counterexample : EmergencyFix.fix_json c8Input ≠ c8Claimed :=
  fun h =>
    Bool.noConfusion
      (show false = true from
        congrArg
          (fun j =>
            match j with
            | Json.obj f => (Json.lookup? f "name").isSome
            | _ => false)
          h)

/-- C8 amended: on that input, `fix_json` quotes the bare property names but
not the bare array string values, so the direct parse, the repaired parse
and the hjson parse all fail, and the cascade returns
`extract_data_from_text` of the original text — the fully-defaulted
summary-schema record (`candidate_name ""`, empty strengths/areas, default
`response_scores` and `skill_ratings`). -/
theorem c8_amended :
    EmergencyFix.fix_json c8Input = EmergencyFix.extract_data_from_text c8Input
    ∧ EmergencyFix.fix_json c8Input = Json.obj EmergencyFix.extractSkeleton :=
  ⟨rfl, rfl⟩

namespace InterviewEngineM

/-- The organized sequence always starts with the fixed introduction
question. -/
theorem organize_questions_head (scr : Script) :
    ∃ rest, organize_questions scr = introQuestion :: rest := by
  unfold organize_questions
  rcases scr.job_specific with _ | ⟨a, ja⟩ <;>
    rcases scr.technical with _ | ⟨b, tb⟩ <;>
      rcases scr.company_fit with _ | ⟨c, fc⟩ <;>
        rcases scr.behavioral with _ | ⟨d, bd⟩ <;>
          exact ⟨_, rfl⟩

/-- C2 counterexample: on a completed session, a further `process_response`
does not leave the recorded responses unchanged — the response is appended
before the already-complete check. -/
theorem c2_counterexample :
    (process_response oracleC stateCompleted "my answer").2.responses ≠
      stateCompleted.responses := by decide

/-- C2 amended: once a session has `complete = true` with the cursor still
on a valid question (the final-question completion path leaves it there),
any further `process_response` returns the idempotent already-complete
response and leaves the cursor and follow-ups unchanged, but it still
appends the submitted response to the recorded responses first. -/
theorem c2_amended (o : Oracle) (s : EngineState) (t : String)
    (hc : s.interview_complete = true)
    (hq : s.current_question_index < s.questions.length) :
    (process_response_b o s t).1 = Branch.alreadyComplete ∧
    (process_response_b o s t).2.1.status = "complete" ∧
    (process_response_b o s t).2.1.message =
      some "The interview is already complete." ∧
    (process_response_b o s t).2.2.current_question_index =
      s.current_question_index ∧
    (process_response_b o s t).2.2.follow_ups = s.follow_ups ∧
    (process_response_b o s t).2.2.responses = s.responses ++
      [⟨s.current_question_index, s.questions.get? s.current_question_index,
        t⟩] := by
  obtain ⟨q, hget⟩ : ∃ q, s.questions.get? s.current_question_index = some q :=
    ⟨_, List.get?_eq_get hq⟩
  unfold process_response_b
  dsimp only
  rw [hget, hc]
  simp [hget]

/-- C2 witness: the amended statement at a concrete completed session. -/
theorem c2_witness :
    stateCompleted.interview_complete = true ∧
    (process_response_b oracleC stateCompleted "my answer").2.2.current_question_index =
      stateCompleted.current_question_index :=
  ⟨by decide,
   (c2_amended oracleC stateCompleted "my answer" (by decide)
     (by decide)).2.2.2.1⟩

/-- C3 counterexample: calling `start_interview` on a session with no
generated script does not fail — it produces an interview start result with
status `active` (after generating a script on the spot). -/
theorem c3_counterexample :
    (start_interview oracleC stateFresh).toOption.map
      (fun p => p.1.status) = some "active" := rfl

/-- C3 amended: `start_interview` on a session with no script generates one
via the script generator, organizes the question sequence, and returns the
interview start result (status `active`, the script introduction, the fixed
introduction question); it never surfaces a not-initialized error in this
case. -/
theorem c3_amended (o : Oracle) (s : EngineState) (hs : s.script = none) :
    ∃ r s', start_interview o s = Except.ok (r, s') ∧
      r.status = "active" ∧
      r.introduction = some (o.scriptGen false).introduction ∧
      r.question = some introQuestion ∧
      s'.script = some (o.scriptGen false) ∧
      s'.questions = organize_questions (o.scriptGen false) := by
  obtain ⟨rest, hrest⟩ := organize_questions_head (o.scriptGen false)
  unfold start_interview generate_interview_script
  rw [hs]
  dsimp only [Option.isNone]
  rw [if_pos rfl]
  dsimp only
  rw [hrest]
  dsimp only [List.get?]
  exact ⟨_, _, rfl, rfl, rfl, rfl, rfl, by simp [hrest]⟩

/-- C3 witness: the amended statement at a fresh session. -/
theorem c3_witness :
    stateFresh.script = none ∧
    ∃ r s', start_interview oracleC stateFresh = Except.ok (r, s') ∧
      r.status = "active" ∧
      r.introduction = some (oracleC.scriptGen false).introduction ∧
      r.question = some introQuestion ∧
      s'.script = some (oracleC.scriptGen false) ∧
      s'.questions = organize_questions (oracleC.scriptGen false) :=
  ⟨rfl, c3_amended oracleC stateFresh rfl⟩

/-- C4 counterexample: an internal error during a turn (here: the cursor
does not address any question, logged as "Invalid question index") does not
leave the cursor unchanged — the fallback handler advances it. -/
theorem c4_counterexample :
    (process_response oracleC stateFresh "hello").2.current_question_index ≠
      stateFresh.current_question_index := by decide

/-- C4 amended: within a single `process_response` call, the successful
paths advance the cursor only at the advance step, but on an internal error
the turn degrades to `_fallback_response_handler`, which deliberately
advances the cursor by one (completing the interview if it runs past the
end); retrying the same input after an error therefore does not retry the
same question. -/
theorem c4_amended (o : Oracle) (s : EngineState) (t : String)
    (hq : s.questions.get? s.current_question_index = none) :
    (process_response_b o s t).1 = Branch.fallbackAdvance ∧
    (process_response_b o s t).2.2.current_question_index =
      s.current_question_index + 1 ∧
    ∀ s2 : EngineState, (fallback_response_handler s2).2.current_question_index
      = s2.current_question_index + 1 := by
  refine ⟨?_, ?_, ?_⟩
  · unfold process_response_b
    dsimp only
    rw [hq]
  · unfold process_response_b fallback_response_handler
    dsimp only
    rw [hq]
    dsimp only
    cases h2 : s.questions.get? (s.current_question_index + 1) <;> simp [h2]
  · intro s2
    unfold fallback_response_handler
    cases h2 : s2.questions[s2.current_question_index + 1]? <;> simp [h2]

/-- C4 witness: the amended statement at a fresh session. -/
theorem c4_witness :
    stateFresh.questions.get? stateFresh.current_question_index = none ∧
    (process_response_b oracleC stateFresh "hello").2.2.current_question_index
      = stateFresh.current_question_index + 1 :=
  ⟨rfl, (c4_amended oracleC stateFresh "hello" rfl).2.1⟩

end InterviewEngineM

namespace InterviewEngineM

theorem assoc_append_some {κ α : Type} [DecidableEq κ] (l : List (κ × α))
    (kv : κ × α) (j : κ) (x : α) (h : assoc l j = some x) :
    assoc (l ++ [kv]) j = some x := by
  induction l with
  | nil => simp [assoc] at h
  | cons hd tl ih =>
      obtain ⟨k0, v0⟩ := hd
      rw [List.cons_append]
      unfold assoc at h ⊢
      split at h
      · next hk => rw [if_pos hk]; exact h
      · next hk => rw [if_neg hk]; exact ih h

theorem assoc_append_none {κ α : Type} [DecidableEq κ] (l : List (κ × α))
    (k j : κ) (v : α) (h : assoc l j = none) :
    assoc (l ++ [(k, v)]) j = if k = j then some v else none := by
  induction l with
  | nil => rfl
  | cons hd tl ih =>
      obtain ⟨k0, v0⟩ := hd
      rw [List.cons_append]
      unfold assoc at h ⊢
      split at h
      · exact absurd h (by simp)
      · next hk => rw [if_neg hk]; exact ih h

theorem assoc_assocSet_self {κ α : Type} [DecidableEq κ]
    (l : List (κ × α)) (k : κ) (v : α) :
    assoc (assocSet l k v) k = some v := by
  induction l with
  | nil => simp [assocSet, assoc]
  | cons hd tl ih =>
      obtain ⟨k0, v0⟩ := hd
      unfold assocSet
      by_cases hk : k0 = k
      · rw [if_pos hk]; unfold assoc; rw [if_pos hk]
      · rw [if_neg hk]; unfold assoc; rw [if_neg hk]; exact ih

theorem assoc_assocSet_ne {κ α : Type} [DecidableEq κ]
    (l : List (κ × α)) (k j : κ) (v : α) (h : j ≠ k) :
    assoc (assocSet l k v) j = assoc l j := by
  induction l with
  | nil =>
      simp only [assocSet, assoc]
      rw [if_neg (fun hkj => h hkj.symm)]
  | cons hd tl ih =>
      obtain ⟨k0, v0⟩ := hd
      unfold assocSet
      by_cases hk : k0 = k
      · rw [if_pos hk]
        unfold assoc
        rw [if_neg (by rw [hk]; exact fun hkj => h hkj.symm),
            if_neg (by rw [hk]; exact fun hkj => h hkj.symm)]
      · rw [if_neg hk]
        unfold assoc
        by_cases h0 : k0 = j
        · rw [if_pos h0, if_pos h0]
        · rw [if_neg h0, if_neg h0]; exact ih

/-- Candidate-question detection touches only the detection cache. -/
theorem detect_state (o : Oracle) (s : EngineState) (t : String) :
    ∃ qc, (detect_candidate_question o s t).2 =
      {s with question_cache := qc} := by
  unfold detect_candidate_question
  dsimp only
  split
  · exact ⟨s.question_cache, rfl⟩
  split
  · exact ⟨s.question_cache, rfl⟩
  split
  · split
    · exact ⟨s.question_cache, rfl⟩
    · split
      · exact ⟨_, rfl⟩
      · exact ⟨s.question_cache, rfl⟩
  · exact ⟨s.question_cache, rfl⟩

/-- The follow-up decision touches only the quality cache and the
randomness stream. -/
theorem should_ask_state (o : Oracle) (s : EngineState) (t : String)
    (q : Question) (n : Nat) :
    ∃ qc g, (should_ask_follow_up o s t q n).2 =
      {s with quality_cache := qc, rng := g} := by
  unfold should_ask_follow_up
  dsimp only
  split
  · exact ⟨s.quality_cache, s.rng, rfl⟩
  split
  · split
    · exact ⟨s.quality_cache, s.rng, rfl⟩
    split
    · exact ⟨s.quality_cache, s.rng, rfl⟩
    · exact ⟨s.quality_cache, s.rng, rfl⟩
  split
  · exact ⟨s.quality_cache, s.rng, rfl⟩
  split
  · exact ⟨s.quality_cache, s.rng, rfl⟩
  split
  · exact ⟨_, s.rng, rfl⟩
  · unfold followUpFallback
    dsimp only
    split
    · exact ⟨s.quality_cache, s.rng, rfl⟩
    split
    · exact ⟨s.quality_cache, s.rng, rfl⟩
    split
    · exact ⟨s.quality_cache, s.rng, rfl⟩
    split
    · exact ⟨s.quality_cache, s.rng, rfl⟩
    split
    · exact ⟨s.quality_cache, s.rng, rfl⟩
    split
    · unfold drawCoin
      split
      · exact ⟨s.quality_cache, _, rfl⟩
      · exact ⟨s.quality_cache, s.rng, rfl⟩
    · exact ⟨s.quality_cache, s.rng, rfl⟩

/-- With two follow-ups already recorded, a non-demo session refuses a
further follow-up before consulting any quality signal. -/
theorem should_ask_capped (o : Oracle) (s : EngineState) (t : String)
    (q : Question) (n : Nat) (hd : s.demo_mode = false) (hn : 2 ≤ n) :
    should_ask_follow_up o s t q n = (false, s) := by
  unfold should_ask_follow_up
  dsimp only
  split
  · rfl
  rw [hd]
  simp [hn]

/-- A positive follow-up decision implies fewer than two follow-ups were
recorded (in demo mode, none at all). -/
theorem should_ask_le_one (o : Oracle) (s : EngineState) (t : String)
    (q : Question) (n : Nat)
    (h : (should_ask_follow_up o s t q n).1 = true) : n ≤ 1 := by
  by_contra hn
  push_neg at hn
  cases hdm : s.demo_mode with
  | false =>
      rw [should_ask_capped o s t q n hdm (by omega)] at h
      exact Bool.noConfusion h
  | true =>
      unfold should_ask_follow_up at h
      dsimp only at h
      split at h
      · exact Bool.noConfusion h
      rw [if_pos (by omega : 0 < n)] at h
      exact Bool.noConfusion h

end InterviewEngineM

namespace Difflib

/-- The one-step unfolding of the run-length dynamic program. -/
theorem rl_unfold (a b : List Char) (junk : Char → Bool)
    (alo ahi blo bhi i j : Nat) :
    rl a b junk alo ahi blo bhi i j =
      if (decide (alo ≤ i) && decide (i < ahi) && decide (blo ≤ j) &&
          decide (j < bhi) &&
          (match a.get? i, b.get? j with
           | some ca, some cb => decide (ca = cb) && ! junk cb
           | _, _ => false)) = true then
        (match i, j with
         | i' + 1, j' + 1 => rl a b junk alo ahi blo bhi i' j' + 1
         | _, _ => 1)
      else 0 := by
  cases i <;> cases j <;> rw [rl] <;> first | rfl | (intros; omega)

/-- A matching run ending at `(i, j)` is no longer than the `a`-side room
above `alo`. -/
theorem rl_le_left (a b : List Char) (junk : Char → Bool)
    (alo ahi blo bhi : Nat) :
    ∀ i j, rl a b junk alo ahi blo bhi i j ≤ i + 1 - alo := by
  intro i
  induction i with
  | zero =>
      intro j
      rw [rl_unfold]
      split
      · next hok =>
          simp only [Bool.and_eq_true, decide_eq_true_eq] at hok
          have halo : alo ≤ 0 := hok.1.1.1.1
          cases j <;> dsimp only <;> omega
      · omega
  | succ i' ih =>
      intro j
      rw [rl_unfold]
      split
      · next hok =>
          simp only [Bool.and_eq_true, decide_eq_true_eq] at hok
          have halo : alo ≤ i' + 1 := hok.1.1.1.1
          cases j with
          | zero => dsimp only; omega
          | succ j' => dsimp only; have := ih j'; omega
      · omega

/-- A positive run value pins all four bounds and yields the equal,
non-junk character at its end. -/
theorem rl_bounds (a b : List Char) (junk : Char → Bool)
    (alo ahi blo bhi i j : Nat)
    (h : 1 ≤ rl a b junk alo ahi blo bhi i j) :
    alo ≤ i ∧ i < ahi ∧ blo ≤ j ∧ j < bhi ∧
    ∃ c, a.get? i = some c ∧ b.get? j = some c ∧ junk c = false := by
  rw [rl_unfold] at h
  split at h
  · next hok =>
      simp only [Bool.and_eq_true, decide_eq_true_eq] at hok
      refine ⟨hok.1.1.1.1, hok.1.1.1.2, hok.1.1.2, hok.1.2, ?_⟩
      have hm := hok.2
      cases hga : a.get? i with
      | none => rw [hga] at hm; exact absurd hm (by simp)
      | some ca =>
          cases hgb : b.get? j with
          | none => rw [hga, hgb] at hm; exact absurd hm (by simp)
          | some cb =>
              rw [hga, hgb] at hm
              simp only [Bool.and_eq_true, decide_eq_true_eq,
                Bool.not_eq_true'] at hm
              exact ⟨cb, congrArg some hm.1, rfl, hm.2⟩
  · omega

/-- On identical sequences over a square window, a run ending below the
diagonal is dominated by the diagonal run of its column. -/
theorem rl_diag_lower (a : List Char) (junk : Char → Bool) (alo ahi : Nat) :
    ∀ i j, j ≤ i →
      rl a a junk alo ahi alo ahi i j ≤ rl a a junk alo ahi alo ahi j j := by
  intro i
  induction i with
  | zero =>
      intro j hj
      have hj0 : j = 0 := Nat.le_zero.mp hj
      subst hj0
      exact le_refl _
  | succ i' ih =>
      intro j hj
      by_cases hij : j = i' + 1
      · subst hij; exact le_refl _
      · have hj' : j ≤ i' := by omega
        rw [rl_unfold]
        split
        · next hok =>
            simp only [Bool.and_eq_true, decide_eq_true_eq] at hok
            have hm := hok.2
            cases hga : a.get? (i' + 1) with
            | none => rw [hga] at hm; exact absurd hm (by simp)
            | some ca =>
                cases hgb : a.get? j with
                | none => rw [hga, hgb] at hm; exact absurd hm (by simp)
                | some cb =>
                    rw [hga, hgb] at hm
                    simp only [Bool.and_eq_true, decide_eq_true_eq,
                      Bool.not_eq_true'] at hm
                    have hokd : (decide (alo ≤ j) && decide (j < ahi) &&
                        decide (alo ≤ j) && decide (j < ahi) &&
                        (match a.get? j, a.get? j with
                         | some ca, some cb => decide (ca = cb) && ! junk cb
                         | _, _ => false)) = true := by
                      simp only [Bool.and_eq_true, decide_eq_true_eq, hgb]
                      exact ⟨⟨⟨⟨hok.1.1.2, hok.1.2⟩, hok.1.1.2⟩, hok.1.2⟩,
                        by simp [hm.2]⟩
                    cases j with
                    | zero =>
                        dsimp only
                        rw [rl_unfold, if_pos hokd]
                    | succ j' =>
                        dsimp only
                        conv_rhs => rw [rl_unfold]
                        rw [if_pos hokd]
                        dsimp only
                        exact Nat.succ_le_succ (ih j' (by omega))
        · omega

/-- On identical sequences over a square window, a run ending right of the
diagonal is dominated by the diagonal run of its row. -/
theorem rl_diag_upper (a : List Char) (junk : Char → Bool) (alo ahi : Nat) :
    ∀ i j, i ≤ j →
      rl a a junk alo ahi alo ahi i j ≤ rl a a junk alo ahi alo ahi i i := by
  intro i
  induction i with
  | zero =>
      intro j hj
      rw [rl_unfold]
      split
      · next hok =>
          simp only [Bool.and_eq_true, decide_eq_true_eq] at hok
          have hm := hok.2
          cases hga : a.get? 0 with
          | none => rw [hga] at hm; exact absurd hm (by simp)
          | some ca =>
              cases hgb : a.get? j with
              | none => rw [hga, hgb] at hm; exact absurd hm (by simp)
              | some cb =>
                  rw [hga, hgb] at hm
                  simp only [Bool.and_eq_true, decide_eq_true_eq,
                    Bool.not_eq_true'] at hm
                  have hjc : junk ca = false := by rw [hm.1]; exact hm.2
                  have hokd : (decide (alo ≤ 0) && decide (0 < ahi) &&
                      decide (alo ≤ 0) && decide (0 < ahi) &&
                      (match a.get? 0, a.get? 0 with
                       | some ca, some cb => decide (ca = cb) && ! junk cb
                       | _, _ => false)) = true := by
                    simp only [Bool.and_eq_true, decide_eq_true_eq, hga]
                    exact ⟨⟨⟨⟨hok.1.1.1.1, hok.1.1.1.2⟩, hok.1.1.1.1⟩,
                      hok.1.1.1.2⟩, by simp [hjc]⟩
                  have hrr : rl a a junk alo ahi alo ahi 0 0 = 1 := by
                    rw [rl_unfold, if_pos hokd]
                  cases j <;> dsimp only <;> rw [hrr]
      · omega
  | succ i' ih =>
      intro j hj
      by_cases hij : j = i' + 1
      · subst hij; exact le_refl _
      · have hj' : i' + 1 < j := by omega
        rw [rl_unfold]
        split
        · next hok =>
            simp only [Bool.and_eq_true, decide_eq_true_eq] at hok
            have hm := hok.2
            cases hga : a.get? (i' + 1) with
            | none => rw [hga] at hm; exact absurd hm (by simp)
            | some ca =>
                cases hgb : a.get? j with
                | none => rw [hga, hgb] at hm; exact absurd hm (by simp)
                | some cb =>
                    rw [hga, hgb] at hm
                    simp only [Bool.and_eq_true, decide_eq_true_eq,
                      Bool.not_eq_true'] at hm
                    have hjc : junk ca = false := by rw [hm.1]; exact hm.2
                    have hokd : (decide (alo ≤ i' + 1) &&
                        decide (i' + 1 < ahi) && decide (alo ≤ i' + 1) &&
                        decide (i' + 1 < ahi) &&
                        (match a.get? (i' + 1), a.get? (i' + 1) with
                         | some ca, some cb => decide (ca = cb) && ! junk cb
                         | _, _ => false)) = true := by
                      simp only [Bool.and_eq_true, decide_eq_true_eq, hga]
                      exact ⟨⟨⟨⟨hok.1.1.1.1, hok.1.1.1.2⟩, hok.1.1.1.1⟩,
                        hok.1.1.1.2⟩, by simp [hjc]⟩
                    cases j with
                    | zero => omega
                    | succ j' =>
                        dsimp only
                        conv_rhs => rw [rl_unfold]
                        rw [if_pos hokd]
                        dsimp only
                        exact Nat.succ_le_succ (ih j' (by omega))
        · omega

end Difflib

namespace Difflib

/-- A finished row scan returns its record unchanged. -/
theorem scanRow_term (a b : List Char) (junk : Char → Bool)
    (alo ahi blo bhi i j0 : Nat) (best : Best) (h : bhi ≤ j0) :
    scanRow a b junk alo ahi blo bhi i j0 best = best := by
  rw [scanRow, dif_pos h]

/-- A finished outer scan returns its record unchanged. -/
theorem scanRows_term (a b : List Char) (junk : Char → Bool)
    (alo ahi blo bhi i0 : Nat) (best : Best) (h : ahi ≤ i0) :
    scanRows a b junk alo ahi blo bhi i0 best = best := by
  rw [scanRows, dif_pos h]

/-- Row-scan invariant on identical sequences over a square window: the
record stays a diagonal block within bounds, dominates every diagonal run up
to the current row, and is returned unchanged when it stays at size zero. -/
theorem scanRow_self (a : List Char) (junk : Char → Bool) (alo ahi i : Nat) :
    ∀ n j0 best, ahi - j0 ≤ n →
    best.bi = best.bj → alo ≤ best.bi → best.bi + best.siz ≤ ahi →
    (∀ i', i' < i → rl a a junk alo ahi alo ahi i' i' ≤ best.siz) →
    (i < j0 → rl a a junk alo ahi alo ahi i i ≤ best.siz) →
    ((scanRow a a junk alo ahi alo ahi i j0 best).bi =
        (scanRow a a junk alo ahi alo ahi i j0 best).bj ∧
      alo ≤ (scanRow a a junk alo ahi alo ahi i j0 best).bi ∧
      (scanRow a a junk alo ahi alo ahi i j0 best).bi +
        (scanRow a a junk alo ahi alo ahi i j0 best).siz ≤ ahi) ∧
    (∀ i', i' < i + 1 →
      rl a a junk alo ahi alo ahi i' i' ≤
        (scanRow a a junk alo ahi alo ahi i j0 best).siz) ∧
    ((scanRow a a junk alo ahi alo ahi i j0 best).siz = 0 →
      scanRow a a junk alo ahi alo ahi i j0 best = best) := by
  intro n
  induction n with
  | zero =>
      intro j0 best hn hbij hbilo hbihi hrows htrack
      have hterm : ahi ≤ j0 := by omega
      rw [scanRow_term a a junk alo ahi alo ahi i j0 best hterm]
      refine ⟨⟨hbij, hbilo, hbihi⟩, ?_, fun _ => rfl⟩
      intro i' hi'
      by_cases hii : i' < i
      · exact hrows i' hii
      · have hie : i' = i := by omega
        subst hie
        by_cases hia : i' < ahi
        · exact htrack (by omega)
        · by_cases h1 : 1 ≤ rl a a junk alo ahi alo ahi i' i'
          · exact absurd (rl_bounds a a junk alo ahi alo ahi i' i' h1).2.1 hia
          · omega
  | succ m ih =>
      intro j0 best hn hbij hbilo hbihi hrows htrack
      by_cases hterm : ahi ≤ j0
      · rw [scanRow_term a a junk alo ahi alo ahi i j0 best hterm]
        refine ⟨⟨hbij, hbilo, hbihi⟩, ?_, fun _ => rfl⟩
        intro i' hi'
        by_cases hii : i' < i
        · exact hrows i' hii
        · have hie : i' = i := by omega
          subst hie
          by_cases hia : i' < ahi
          · exact htrack (by omega)
          · by_cases h1 : 1 ≤ rl a a junk alo ahi alo ahi i' i'
            · exact absurd
                (rl_bounds a a junk alo ahi alo ahi i' i' h1).2.1 hia
            · omega
      · rw [scanRow, dif_neg hterm]
        dsimp only
        by_cases hupd : best.siz < rl a a junk alo ahi alo ahi i j0
        · have hij : i = j0 := by
            by_contra hne
            rcases Nat.lt_or_ge i j0 with hlt | hge
            · exact absurd
                (le_trans (rl_diag_upper a junk alo ahi i j0 (by omega))
                  (htrack hlt)) (by omega)
            · have hlt2 : j0 < i := by omega
              exact absurd
                (le_trans (rl_diag_lower a junk alo ahi i j0 (by omega))
                  (hrows j0 hlt2)) (by omega)
          subst hij
          rw [if_pos hupd]
          have h1 : 1 ≤ rl a a junk alo ahi alo ahi i i := by omega
          obtain ⟨hlo2, hhi2, _, _, _⟩ :=
            rl_bounds a a junk alo ahi alo ahi i i h1
          have hkle := rl_le_left a a junk alo ahi alo ahi i i
          have hrows2 : ∀ i', i' < i →
              rl a a junk alo ahi alo ahi i' i' ≤
                rl a a junk alo ahi alo ahi i i :=
            fun i' hi' => le_of_lt (lt_of_le_of_lt (hrows i' hi') hupd)
          obtain ⟨hW2, hR2, hZ2⟩ := ih (i + 1)
            ⟨i + 1 - rl a a junk alo ahi alo ahi i i,
             i + 1 - rl a a junk alo ahi alo ahi i i,
             rl a a junk alo ahi alo ahi i i⟩
            (by omega) rfl
            (by omega : alo ≤ i + 1 - rl a a junk alo ahi alo ahi i i)
            (by omega : i + 1 - rl a a junk alo ahi alo ahi i i +
              rl a a junk alo ahi alo ahi i i ≤ ahi)
            hrows2 (fun _ => le_refl _)
          refine ⟨hW2, hR2, ?_⟩
          intro h0
          have h4 := hZ2 h0
          rw [h4] at h0
          dsimp only at h0
          omega
        · rw [if_neg hupd]
          exact ih (j0 + 1) best (by omega) hbij hbilo hbihi hrows
            (fun hlt => by
              by_cases hij : i < j0
              · exact htrack hij
              · have hie : i = j0 := by omega
                subst hie
                omega)

end Difflib

namespace Difflib

/-- Outer-scan invariant on identical sequences over a square window. -/
theorem scanRows_self (a : List Char) (junk : Char → Bool) (alo ahi : Nat) :
    ∀ n i0 best, ahi - i0 ≤ n → alo ≤ i0 →
    best.bi = best.bj → alo ≤ best.bi → best.bi + best.siz ≤ ahi →
    (∀ i', i' < i0 → rl a a junk alo ahi alo ahi i' i' ≤ best.siz) →
    ((scanRows a a junk alo ahi alo ahi i0 best).bi =
        (scanRows a a junk alo ahi alo ahi i0 best).bj ∧
      alo ≤ (scanRows a a junk alo ahi alo ahi i0 best).bi ∧
      (scanRows a a junk alo ahi alo ahi i0 best).bi +
        (scanRows a a junk alo ahi alo ahi i0 best).siz ≤ ahi) ∧
    ((scanRows a a junk alo ahi alo ahi i0 best).siz = 0 →
      scanRows a a junk alo ahi alo ahi i0 best = best) := by
  intro n
  induction n with
  | zero =>
      intro i0 best hn hlo hbij hbilo hbihi hrows
      rw [scanRows_term a a junk alo ahi alo ahi i0 best (by omega)]
      exact ⟨⟨hbij, hbilo, hbihi⟩, fun _ => rfl⟩
  | succ m ih =>
      intro i0 best hn hlo hbij hbilo hbihi hrows
      by_cases hterm : ahi ≤ i0
      · rw [scanRows_term a a junk alo ahi alo ahi i0 best hterm]
        exact ⟨⟨hbij, hbilo, hbihi⟩, fun _ => rfl⟩
      · rw [scanRows, dif_neg hterm]
        obtain ⟨hW1, hR1, hZ1⟩ := scanRow_self a junk alo ahi i0 ahi alo best
          (by omega) hbij hbilo hbihi hrows
          (fun hlt => absurd hlt (by omega))
        obtain ⟨hW2, hZ2⟩ := ih (i0 + 1)
          (scanRow a a junk alo ahi alo ahi i0 alo best)
          (by omega) (by omega) hW1.1 hW1.2.1 hW1.2.2 hR1
        refine ⟨hW2, ?_⟩
        intro h0
        have h1 := hZ2 h0
        rw [h1] at h0 ⊢
        exact hZ1 h0

/-- The left extension pass preserves the diagonal block shape and its
bounds, never shrinks the block, and leaves a size-zero block unchanged. -/
theorem extendLeft_inv (a : List Char) (junk : Char → Bool)
    (alo ahi : Nat) (flag : Bool) :
    ∀ fuel best, best.bi = best.bj → alo ≤ best.bi →
      best.bi + best.siz ≤ ahi →
      ((extendLeft a a junk alo alo flag fuel best).bi =
         (extendLeft a a junk alo alo flag fuel best).bj ∧
       alo ≤ (extendLeft a a junk alo alo flag fuel best).bi ∧
       (extendLeft a a junk alo alo flag fuel best).bi +
         (extendLeft a a junk alo alo flag fuel best).siz ≤ ahi) ∧
      best.siz ≤ (extendLeft a a junk alo alo flag fuel best).siz ∧
      ((extendLeft a a junk alo alo flag fuel best).siz = 0 →
        extendLeft a a junk alo alo flag fuel best = best) := by
  intro fuel
  induction fuel with
  | zero =>
      intro best h1 h2 h3
      rw [extendLeft]
      exact ⟨⟨h1, h2, h3⟩, le_refl _, fun _ => rfl⟩
  | succ m ih =>
      intro best h1 h2 h3
      rw [extendLeft]
      split
      · next hcond =>
          obtain ⟨hc1, hc2, _⟩ := hcond
          obtain ⟨hW2, hmono, hZ2⟩ := ih
            ⟨best.bi - 1, best.bj - 1, best.siz + 1⟩
            (by show best.bi - 1 = best.bj - 1; omega)
            (by show alo ≤ best.bi - 1; omega)
            (by show best.bi - 1 + (best.siz + 1) ≤ ahi; omega)
          refine ⟨hW2, ?_, ?_⟩
          · exact le_trans (by show best.siz ≤ best.siz + 1; omega) hmono
          · intro h0
            have h4 := hZ2 h0
            rw [h4] at h0
            dsimp only at h0
            omega
      · exact ⟨⟨h1, h2, h3⟩, le_refl _, fun _ => rfl⟩

/-- The right extension pass preserves the diagonal block shape and its
bounds, never shrinks the block, and leaves a size-zero block unchanged. -/
theorem extendRight_inv (a : List Char) (junk : Char → Bool)
    (alo ahi : Nat) (flag : Bool) :
    ∀ fuel best, best.bi = best.bj → alo ≤ best.bi →
      best.bi + best.siz ≤ ahi →
      ((extendRight a a junk ahi ahi flag fuel best).bi =
         (extendRight a a junk ahi ahi flag fuel best).bj ∧
       alo ≤ (extendRight a a junk ahi ahi flag fuel best).bi ∧
       (extendRight a a junk ahi ahi flag fuel best).bi +
         (extendRight a a junk ahi ahi flag fuel best).siz ≤ ahi) ∧
      best.siz ≤ (extendRight a a junk ahi ahi flag fuel best).siz ∧
      ((extendRight a a junk ahi ahi flag fuel best).siz = 0 →
        extendRight a a junk ahi ahi flag fuel best = best) := by
  intro fuel
  induction fuel with
  | zero =>
      intro best h1 h2 h3
      rw [extendRight]
      exact ⟨⟨h1, h2, h3⟩, le_refl _, fun _ => rfl⟩
  | succ m ih =>
      intro best h1 h2 h3
      rw [extendRight]
      split
      · next hcond =>
          obtain ⟨hc1, hc2, _⟩ := hcond
          obtain ⟨hW2, hmono, hZ2⟩ := ih
            ⟨best.bi, best.bj, best.siz + 1⟩
            (by show best.bi = best.bj; omega)
            (by show alo ≤ best.bi; omega)
            (by show best.bi + (best.siz + 1) ≤ ahi; omega)
          refine ⟨hW2, ?_, ?_⟩
          · exact le_trans (by show best.siz ≤ best.siz + 1; omega) hmono
          · intro h0
            have h4 := hZ2 h0
            rw [h4] at h0
            dsimp only at h0
            omega
      · exact ⟨⟨h1, h2, h3⟩, le_refl _, fun _ => rfl⟩

/-- A right extension pass on an empty block at the start of a non-empty
window fires when the first character's junkness matches the pass. -/
theorem extendRight_fire (a : List Char) (junk : Char → Bool)
    (ahi : Nat) (flag : Bool) (fuel alo : Nat) (hfuel : 1 ≤ fuel)
    (hlt : alo < ahi) (c : Char) (hga : a.get? alo = some c)
    (hjc : junk c = flag) :
    1 ≤ (extendRight a a junk ahi ahi flag fuel ⟨alo, alo, 0⟩).siz := by
  obtain ⟨m, rfl⟩ : ∃ m, fuel = m + 1 := ⟨fuel - 1, by omega⟩
  rw [extendRight]
  split
  · next hcond =>
      have := (extendRight_inv a junk alo ahi flag m
        ⟨(⟨alo, alo, 0⟩ : Best).bi, (⟨alo, alo, 0⟩ : Best).bj,
         (⟨alo, alo, 0⟩ : Best).siz + 1⟩
        rfl (le_refl _) (by show alo + (0 + 1) ≤ ahi; omega)).2.1
      dsimp only at this ⊢
      omega
  · next hcond =>
      exfalso
      apply hcond
      refine ⟨by show alo + 0 < ahi; omega, by show alo + 0 < ahi; omega,
        ?_, ?_, rfl⟩
      · show (a.get? (alo + 0)).isSome
        rw [Nat.add_zero, hga]
        rfl
      · show junk ((a.get? (alo + 0)).getD ' ') = flag
        rw [Nat.add_zero, hga]
        exact hjc

end Difflib

namespace Difflib

/-- A paired left/right extension pass preserves the diagonal block
invariants, never shrinks the block, and leaves a size-zero block
unchanged. -/
theorem extendLR_inv (a : List Char) (junk : Char → Bool) (alo ahi : Nat)
    (flag : Bool) (f : Nat) (B : Best)
    (h1 : B.bi = B.bj) (h2 : alo ≤ B.bi) (h3 : B.bi + B.siz ≤ ahi) :
    ((extendRight a a junk ahi ahi flag ahi
        (extendLeft a a junk alo alo flag f B)).bi =
       (extendRight a a junk ahi ahi flag ahi
        (extendLeft a a junk alo alo flag f B)).bj ∧
     alo ≤ (extendRight a a junk ahi ahi flag ahi
        (extendLeft a a junk alo alo flag f B)).bi ∧
     (extendRight a a junk ahi ahi flag ahi
        (extendLeft a a junk alo alo flag f B)).bi +
       (extendRight a a junk ahi ahi flag ahi
        (extendLeft a a junk alo alo flag f B)).siz ≤ ahi) ∧
    B.siz ≤ (extendRight a a junk ahi ahi flag ahi
        (extendLeft a a junk alo alo flag f B)).siz ∧
    ((extendRight a a junk ahi ahi flag ahi
        (extendLeft a a junk alo alo flag f B)).siz = 0 →
      extendRight a a junk ahi ahi flag ahi
        (extendLeft a a junk alo alo flag f B) = B) := by
  obtain ⟨hWL, hML, hZL⟩ := extendLeft_inv a junk alo ahi flag f B h1 h2 h3
  obtain ⟨hWR, hMR, hZR⟩ := extendRight_inv a junk alo ahi flag ahi
    (extendLeft a a junk alo alo flag f B) hWL.1 hWL.2.1 hWL.2.2
  refine ⟨hWR, le_trans hML hMR, ?_⟩
  intro h0
  have hL0 := hZR h0
  rw [hL0] at h0 ⊢
  exact hZL h0

/-- The left extension pass cannot move a block already starting at the
window edge. -/
theorem extendLeft_noop (a b : List Char) (junk : Char → Bool)
    (alo blo : Nat) (flag : Bool) (f : Nat) (s : Nat) :
    extendLeft a b junk alo blo flag f ⟨alo, blo, s⟩ = ⟨alo, blo, s⟩ := by
  cases f with
  | zero => rw [extendLeft]
  | succ m =>
      rw [extendLeft]
      rw [if_neg (fun h => absurd h.1 (lt_irrefl alo))]

/-- A paired extension pass starting from the empty block at the window
edge produces a non-empty block when the junkness of the first character
matches the pass. -/
theorem extendLR_fire (a : List Char) (junk : Char → Bool) (alo ahi : Nat)
    (flag : Bool) (f : Nat) (hlt : alo < ahi) (c : Char)
    (hga : a.get? alo = some c) (hjc : junk c = flag) :
    1 ≤ (extendRight a a junk ahi ahi flag ahi
      (extendLeft a a junk alo alo flag f ⟨alo, alo, 0⟩)).siz := by
  rw [extendLeft_noop]
  exact extendRight_fire a junk ahi flag ahi alo (by omega) hlt c hga hjc

/-- `find_longest_match` on identical sequences over a square window
returns a diagonal block inside the window, and a non-empty one on a
non-empty window. -/
theorem flm_self (a : List Char) (junk : Char → Bool) (alo ahi : Nat)
    (hle : alo ≤ ahi) (hlen : ahi ≤ a.length) :
    (flm a a junk alo ahi alo ahi).bi = (flm a a junk alo ahi alo ahi).bj ∧
    alo ≤ (flm a a junk alo ahi alo ahi).bi ∧
    (flm a a junk alo ahi alo ahi).bi +
      (flm a a junk alo ahi alo ahi).siz ≤ ahi ∧
    (alo < ahi → 1 ≤ (flm a a junk alo ahi alo ahi).siz) := by
  have hrl0 : ∀ i', i' < alo →
      rl a a junk alo ahi alo ahi i' i' ≤ (⟨alo, alo, 0⟩ : Best).siz := by
    intro i' hi'
    by_cases hx : 1 ≤ rl a a junk alo ahi alo ahi i' i'
    · exact absurd (rl_bounds a a junk alo ahi alo ahi i' i' hx).1 (by omega)
    · show _ ≤ 0
      omega
  obtain ⟨hW0, hZ0⟩ := scanRows_self a junk alo ahi ahi alo ⟨alo, alo, 0⟩
    (by omega) le_rfl rfl le_rfl (by show alo + 0 ≤ ahi; omega) hrl0
  obtain ⟨hW1, hM1, hZ1⟩ := extendLR_inv a junk alo ahi false
    (scanRows a a junk alo ahi alo ahi alo ⟨alo, alo, 0⟩).bi
    (scanRows a a junk alo ahi alo ahi alo ⟨alo, alo, 0⟩)
    hW0.1 hW0.2.1 hW0.2.2
  obtain ⟨hW2, hM2, hZ2⟩ := extendLR_inv a junk alo ahi true
    (extendRight a a junk ahi ahi false ahi
      (extendLeft a a junk alo alo false
        (scanRows a a junk alo ahi alo ahi alo ⟨alo, alo, 0⟩).bi
        (scanRows a a junk alo ahi alo ahi alo ⟨alo, alo, 0⟩))).bi
    (extendRight a a junk ahi ahi false ahi
      (extendLeft a a junk alo alo false
        (scanRows a a junk alo ahi alo ahi alo ⟨alo, alo, 0⟩).bi
        (scanRows a a junk alo ahi alo ahi alo ⟨alo, alo, 0⟩)))
    hW1.1 hW1.2.1 hW1.2.2
  refine ⟨hW2.1, hW2.2.1, hW2.2.2, ?_⟩
  intro halo
  by_contra hno
  have hz4 : (flm a a junk alo ahi alo ahi).siz = 0 := by omega
  unfold flm at hz4
  dsimp only at hz4
  have hT1z : (extendRight a a junk ahi ahi false ahi
      (extendLeft a a junk alo alo false
        (scanRows a a junk alo ahi alo ahi alo ⟨alo, alo, 0⟩).bi
        (scanRows a a junk alo ahi alo ahi alo ⟨alo, alo, 0⟩))).siz = 0 := by
    omega
  have hB0z : (scanRows a a junk alo ahi alo ahi alo
      (⟨alo, alo, 0⟩ : Best)).siz = 0 := by
    have := hM1
    omega
  have hB0 := hZ0 hB0z
  obtain ⟨c, hga⟩ : ∃ c, a.get? alo = some c := by
    rw [List.get?_eq_get (show alo < a.length by omega)]
    exact ⟨_, rfl⟩
  cases hjc : junk c with
  | false =>
      rw [hB0] at hT1z
      exact absurd hT1z (by
        have := extendLR_fire a junk alo ahi false
          ((⟨alo, alo, 0⟩ : Best)).bi halo c hga hjc
        omega)
  | true =>
      have hT1B := hZ1 hT1z
      have hT1eq := hT1B.trans hB0
      rw [hT1eq] at hz4
      exact absurd hz4 (by
        have := extendLR_fire a junk alo ahi true
          ((⟨alo, alo, 0⟩ : Best)).bi halo c hga hjc
        omega)

end Difflib

namespace Difflib

/-- On identical sequences, the matching-block recursion over a square
window accounts for every element of the window. -/
theorem matchesTotal_self (a : List Char) (junk : Char → Bool) :
    ∀ fuel alo ahi, ahi - alo < fuel → alo ≤ ahi → ahi ≤ a.length →
      matchesTotal a a junk fuel alo ahi alo ahi = ahi - alo := by
  intro fuel
  induction fuel with
  | zero => intro alo ahi h _ _; omega
  | succ fu ih =>
      intro alo ahi hfu hle hlen
      obtain ⟨hbij, hbilo, hbihi, hpos⟩ := flm_self a junk alo ahi hle hlen
      rw [matchesTotal]
      split
      · next hz =>
          by_cases hlt : alo < ahi
          · exact absurd (hpos hlt) (by omega)
          · omega
      · next hz =>
          have h1 : 1 ≤ (flm a a junk alo ahi alo ahi).siz := by omega
          rw [← hbij]
          rw [ih alo (flm a a junk alo ahi alo ahi).bi (by omega) hbilo
              (by omega),
            ih ((flm a a junk alo ahi alo ahi).bi +
                (flm a a junk alo ahi alo ahi).siz) ahi (by omega) (by omega)
              hlen]
          omega

/-- `SequenceMatcher.ratio()` of a sequence against itself is exactly 1. -/
theorem ratio_self (a : List Char) : ratio a a = 1 := by
  unfold ratio
  by_cases h : a.length + a.length = 0
  · rw [if_pos h]
  · rw [if_neg h]
    rw [matchesTotal_self a (isJunk a) (a.length + a.length + 1) 0 a.length
      (by omega) (by omega) le_rfl]
    have h2 : ((a.length + a.length : Nat) : Rat) ≠ 0 := by
      rw [Nat.cast_ne_zero]
      exact h
    rw [Nat.sub_zero, div_eq_one_iff_eq h2]
    push_cast
    ring

end Difflib

namespace InterviewEngineM

/-- Similarity of a response to itself is exactly 1. -/
theorem calculate_similarity_self (t : String) :
    calculate_similarity t t = 1 :=
  Difflib.ratio_self _

/-- Ensuring a question's history key exists changes no history contents. -/
theorem hist_append_nil (l : List (Nat × List String)) (i j : Nat)
    (h : assoc l i = none) :
    (assoc (l ++ [(i, ([] : List String))]) j).getD [] =
      (assoc l j).getD [] := by
  cases hj : assoc l j with
  | some x => rw [assoc_append_some l (i, []) j x hj]
  | none =>
      rw [assoc_append_none l i j [] hj]
      by_cases hij : i = j
      · rw [if_pos hij]
        rfl
      · rw [if_neg hij]

/-- When the text is never classified as a candidate question and some
stored prior answer is over the similarity threshold, the duplicate check
reports a duplicate and leaves the question's history unchanged. -/
theorem check_dup_true_of_mem (o : Oracle) (s : EngineState) (t : String)
    (i : Nat)
    (hq : ∀ s' : EngineState, detect_candidate_question o s' t = (false, s'))
    (hp : (histAt s i).any
      (fun prev => decide ((4 : Rat) / 5 < calculate_similarity t prev)) =
        true) :
    (check_duplicate_response o s t i).1 = true ∧
    histAt (check_duplicate_response o s t i).2 i = histAt s i := by
  unfold histAt at hp
  unfold check_duplicate_response
  by_cases hc : (assoc s.previous_responses i).isSome
  · rw [if_pos hc]
    dsimp only
    rw [hq s]
    dsimp only
    rw [if_neg (by simp : ¬ (false = true))]
    rw [if_pos hp]
    exact ⟨rfl, rfl⟩
  · exfalso
    rw [Option.isSome_iff_exists] at hc
    push_neg at hc
    have hnone : assoc s.previous_responses i = none := by
      cases hx : assoc s.previous_responses i with
      | none => rfl
      | some x => exact absurd hx (hc x)
    rw [hnone] at hp
    exact Bool.noConfusion hp

/-- When the text is never classified as a candidate question and every
stored prior answer is at most the similarity threshold, the duplicate
check reports no duplicate and appends the text to the question's
history. -/
theorem check_dup_false_of_compat (o : Oracle) (s : EngineState)
    (t : String) (i : Nat)
    (hq : ∀ s' : EngineState, detect_candidate_question o s' t = (false, s'))
    (hp : (histAt s i).any
      (fun prev => decide ((4 : Rat) / 5 < calculate_similarity t prev)) =
        false) :
    (check_duplicate_response o s t i).1 = false ∧
    histAt (check_duplicate_response o s t i).2 i = histAt s i ++ [t] := by
  unfold histAt at hp
  unfold check_duplicate_response
  by_cases hc : (assoc s.previous_responses i).isSome
  · rw [if_pos hc]
    dsimp only
    rw [hq s]
    dsimp only
    rw [if_neg (by simp : ¬ (false = true))]
    rw [hp, if_neg (by simp : ¬ (false = true))]
    refine ⟨rfl, ?_⟩
    show (assoc (assocSet s.previous_responses i (histAt s i ++ [t])) i).getD
      [] = histAt s i ++ [t]
    rw [assoc_assocSet_self]
    rfl
  · have hnone : assoc s.previous_responses i = none := by
      cases hx : assoc s.previous_responses i with
      | none => rfl
      | some x => rw [hx] at hc; exact absurd rfl hc
    have hempty : histAt s i = [] := by unfold histAt; rw [hnone]; rfl
    rw [if_neg hc]
    dsimp only
    rw [hq _]
    dsimp only
    rw [if_neg (by simp : ¬ (false = true))]
    have hassoc : assoc (s.previous_responses ++ [(i, ([] : List String))]) i
        = some [] := by
      rw [assoc_append_none s.previous_responses i i [] hnone, if_pos rfl]
    rw [hassoc]
    dsimp only [Option.getD]
    rw [if_neg (by simp : ¬ (List.any []
      (fun prev => decide ((4 : Rat) / 5 < calculate_similarity t prev)) =
        true))]
    refine ⟨rfl, ?_⟩
    show (assoc (assocSet (s.previous_responses ++ [(i, [])]) i
      ([] ++ [t])) i).getD [] = histAt s i ++ [t]
    rw [assoc_assocSet_self, hempty]
    rfl

/-- A text always classified as a candidate question is exempt from the
duplicate check. -/
theorem check_dup_false_of_question (o : Oracle) (s : EngineState)
    (v : String) (i : Nat)
    (hq : ∀ s' : EngineState,
      (detect_candidate_question o s' v).1 = true) :
    (check_duplicate_response o s v i).1 = false := by
  unfold check_duplicate_response
  by_cases hc : (assoc s.previous_responses i).isSome
  · rw [if_pos hc]
    dsimp only
    rcases hdet : detect_candidate_question o s v with ⟨isQ, s2⟩
    have hisq : isQ = true := by
      have h := hq s
      rw [hdet] at h
      exact h
    subst hisq
    rfl
  · rw [if_neg hc]
    dsimp only
    rcases hdet : detect_candidate_question o
      {s with previous_responses := s.previous_responses ++ [(i, [])]} v with
      ⟨isQ, s2⟩
    have hisq : isQ = true := by
      have h := hq {s with previous_responses :=
        s.previous_responses ++ [(i, [])]}
      rw [hdet] at h
      exact h
    subst hisq
    rfl

end InterviewEngineM

namespace InterviewEngineM

/-- The duplicate check touches only the per-question histories and the
detection cache. -/
theorem check_dup_state (o : Oracle) (s : EngineState) (t : String)
    (i : Nat) :
    ∃ pr qc, (check_duplicate_response o s t i).2 =
      {s with previous_responses := pr, question_cache := qc} := by
  unfold check_duplicate_response
  by_cases hc : (assoc s.previous_responses i).isSome
  · rw [if_pos hc]
    dsimp only
    obtain ⟨qc, hd⟩ := detect_state o s t
    rcases hdet : detect_candidate_question o s t with ⟨isQ, s2⟩
    have hs2 : s2 = {s with question_cache := qc} := by
      rw [hdet] at hd
      exact hd
    cases isQ
    · dsimp only
      rw [if_neg (by simp : ¬ (false = true))]
      split
      · exact ⟨s.previous_responses, qc, hs2⟩
      · rw [hs2]
        exact ⟨_, _, rfl⟩
    · exact ⟨s.previous_responses, qc, hs2⟩
  · rw [if_neg hc]
    dsimp only
    obtain ⟨qc, hd⟩ := detect_state o
      {s with previous_responses := s.previous_responses ++ [(i, [])]} t
    rcases hdet : detect_candidate_question o
      {s with previous_responses := s.previous_responses ++ [(i, [])]} t with
      ⟨isQ, s2⟩
    have hs2 : s2 = {s with previous_responses :=
        s.previous_responses ++ [(i, [])], question_cache := qc} := by
      rw [hdet] at hd
      exact hd
    cases isQ
    · dsimp only
      rw [if_neg (by simp : ¬ (false = true))]
      split
      · exact ⟨s.previous_responses ++ [(i, [])], qc, hs2⟩
      · rw [hs2]
        exact ⟨_, _, rfl⟩
    · exact ⟨s.previous_responses ++ [(i, [])], qc, hs2⟩

/-- Per-question history evolution of one duplicate check: every history is
either unchanged or — only at the checked index — extended by the new
response, and only when the response clears the similarity threshold
against every stored prior answer. -/
theorem check_dup_hist (o : Oracle) (s : EngineState) (t : String)
    (i : Nat) :
    ∀ j, histAt (check_duplicate_response o s t i).2 j = histAt s j ∨
      (j = i ∧ (check_duplicate_response o s t i).1 = false ∧
       (∀ p ∈ histAt s j, calculate_similarity t p ≤ (4 : Rat) / 5) ∧
       histAt (check_duplicate_response o s t i).2 j =
         histAt s j ++ [t]) := by
  intro j
  unfold check_duplicate_response
  by_cases hc : (assoc s.previous_responses i).isSome
  · rw [if_pos hc]
    dsimp only
    obtain ⟨qc, hd⟩ := detect_state o s t
    rcases hdet : detect_candidate_question o s t with ⟨isQ, s2⟩
    have hs2 : s2 = {s with question_cache := qc} := by
      rw [hdet] at hd
      exact hd
    cases isQ
    · dsimp only
      rw [if_neg (by simp : ¬ (false = true))]
      split
      · left
        rw [hs2]
        rfl
      · next hany =>
          by_cases hij : j = i
          · subst hij
            right
            refine ⟨rfl, rfl, ?_, ?_⟩
            · intro p hp
              rw [Bool.not_eq_true, List.any_eq_false] at hany
              have := hany p (by rw [hs2]; exact hp)
              simp only [decide_eq_true_eq] at this
              exact le_of_not_lt this
            · show (assoc (assocSet s2.previous_responses j
                ((assoc s2.previous_responses j).getD [] ++ [t])) j).getD []
                  = histAt s j ++ [t]
              rw [assoc_assocSet_self, hs2]
              rfl
          · left
            show (assoc (assocSet s2.previous_responses i
              ((assoc s2.previous_responses i).getD [] ++ [t])) j).getD []
                = histAt s j
            rw [assoc_assocSet_ne _ _ _ _ hij, hs2]
            rfl
    · left
      rw [hs2]
      rfl
  · have hnone : assoc s.previous_responses i = none := by
      cases hx : assoc s.previous_responses i with
      | none => rfl
      | some x => rw [hx] at hc; exact absurd rfl hc
    rw [if_neg hc]
    dsimp only
    obtain ⟨qc, hd⟩ := detect_state o
      {s with previous_responses := s.previous_responses ++ [(i, [])]} t
    rcases hdet : detect_candidate_question o
      {s with previous_responses := s.previous_responses ++ [(i, [])]} t with
      ⟨isQ, s2⟩
    have hs2 : s2 = {s with previous_responses :=
        s.previous_responses ++ [(i, [])], question_cache := qc} := by
      rw [hdet] at hd
      exact hd
    cases isQ
    · dsimp only
      rw [if_neg (by simp : ¬ (false = true))]
      split
      · left
        rw [hs2]
        exact hist_append_nil s.previous_responses i j hnone
      · next hany =>
          by_cases hij : j = i
          · subst hij
            right
            refine ⟨rfl, rfl, ?_, ?_⟩
            · intro p hp
              unfold histAt at hp
              rw [hnone] at hp
              exact absurd hp (List.not_mem_nil p)
            · show (assoc (assocSet s2.previous_responses j
                ((assoc s2.previous_responses j).getD [] ++ [t])) j).getD []
                  = histAt s j ++ [t]
              rw [assoc_assocSet_self, hs2]
              show ((assoc (s.previous_responses ++ [(j, [])]) j).getD []
                ++ [t] : List String) = histAt s j ++ [t]
              rw [assoc_append_none s.previous_responses j j [] hnone,
                if_pos rfl]
              unfold histAt
              rw [hnone]
              rfl
          · left
            show (assoc (assocSet s2.previous_responses i
              ((assoc s2.previous_responses i).getD [] ++ [t])) j).getD []
                = histAt s j
            rw [assoc_assocSet_ne _ _ _ _ hij, hs2]
            exact hist_append_nil s.previous_responses i j hnone
    · left
      rw [hs2]
      exact hist_append_nil s.previous_responses i j hnone

end InterviewEngineM

namespace InterviewEngineM

/-- C7: for the duplicate check at a fixed question index, with a text the
detector never classifies as a candidate question: a second submission of
the identical text reports a duplicate; a text whose similarity to every
stored prior answer is at most 4/5 (the exact value of the float threshold
0.8 on the reachable ratio values) reports no duplicate; and a text the
detector always classifies as a candidate question never reports a
duplicate. -/
theorem c7_duplicate_threshold (o : Oracle) (i : Nat) (t : String)
    (hq : ∀ s' : EngineState,
      detect_candidate_question o s' t = (false, s')) :
    (∀ s : EngineState,
      (check_duplicate_response o
        (check_duplicate_response o s t i).2 t i).1 = true) ∧
    (∀ s : EngineState,
      (∀ p ∈ histAt s i, calculate_similarity t p ≤ (4 : Rat) / 5) →
      (check_duplicate_response o s t i).1 = false) ∧
    (∀ (v : String) (s : EngineState),
      (∀ s' : EngineState, (detect_candidate_question o s' v).1 = true) →
      (check_duplicate_response o s v i).1 = false) := by
  refine ⟨?_, ?_, fun v s hv => check_dup_false_of_question o s v i hv⟩
  · intro s
    by_cases hany : (histAt s i).any
        (fun prev => decide ((4 : Rat) / 5 < calculate_similarity t prev))
          = true
    · obtain ⟨h1, h2⟩ := check_dup_true_of_mem o s t i hq hany
      exact (check_dup_true_of_mem o (check_duplicate_response o s t i).2
        t i hq (by rw [h2]; exact hany)).1
    · have hany2 : (histAt s i).any
          (fun prev => decide ((4 : Rat) / 5 < calculate_similarity t prev))
            = false := by
        cases hb : (histAt s i).any
            (fun prev => decide ((4 : Rat) / 5 < calculate_similarity t prev))
        · rfl
        · exact absurd hb hany
      obtain ⟨h1, h2⟩ := check_dup_false_of_compat o s t i hq hany2
      have hmem : (histAt (check_duplicate_response o s t i).2 i).any
          (fun prev => decide ((4 : Rat) / 5 < calculate_similarity t prev))
            = true := by
        rw [h2, List.any_append]
        have hself : ([t].any
            (fun prev => decide ((4 : Rat) / 5 < calculate_similarity t prev)))
              = true := by
          simp only [List.any_cons, List.any_nil, Bool.or_false,
            calculate_similarity_self, decide_eq_true_eq]
          norm_num
        rw [hself, Bool.or_true]
      exact (check_dup_true_of_mem o (check_duplicate_response o s t i).2
        t i hq hmem).1
  · intro s hcomp
    have hany : (histAt s i).any
        (fun prev => decide ((4 : Rat) / 5 < calculate_similarity t prev))
          = false := by
      rw [List.any_eq_false]
      intro p hp
      simp only [decide_eq_true_eq]
      exact not_lt.mpr (hcomp p hp)
    exact (check_dup_false_of_compat o s t i hq hany).1

end InterviewEngineM

namespace InterviewEngineM

/-- C7 witness: concrete sessions and answers exercising all three parts of
the duplicate-threshold property. -/
theorem c7_witness :
    (check_duplicate_response oracleC
      (check_duplicate_response oracleC stateMid ansA 0).2 ansA 0).1 =
        true ∧
    (check_duplicate_response oracleC stateMid ansB 0).1 = false ∧
    (check_duplicate_response oracleC stateMid
      "What is the team structure?" 0).1 = false :=
  ⟨(c7_duplicate_threshold oracleC 0 ansA (fun _ => rfl)).1 stateMid,
   (c7_duplicate_threshold oracleC 0 ansB (fun _ => rfl)).2.1 stateMid
     (fun p hp => absurd hp (List.not_mem_nil p)),
   (c7_duplicate_threshold oracleC 0 ansA (fun _ => rfl)).2.2
     "What is the team structure?" stateMid (fun _ => rfl)⟩

/-- C10: one duplicate check changes no per-question history except
(possibly) the checked one, which grows only by the new response and only
when the check reported no duplicate and every stored prior answer is at
most the similarity threshold; a reported duplicate changes no history, and
a pairwise threshold-compatible history stays pairwise
threshold-compatible. -/
theorem c10_history_growth (o : Oracle) (s : EngineState) (t : String)
    (i j : Nat) :
    (histAt (check_duplicate_response o s t i).2 j = histAt s j ∨
      (j = i ∧ (check_duplicate_response o s t i).1 = false ∧
       (∀ p ∈ histAt s j, calculate_similarity t p ≤ (4 : Rat) / 5) ∧
       histAt (check_duplicate_response o s t i).2 j =
         histAt s j ++ [t])) ∧
    ((check_duplicate_response o s t i).1 = true →
      histAt (check_duplicate_response o s t i).2 j = histAt s j) ∧
    (histCompat (histAt s j) →
      histCompat (histAt (check_duplicate_response o s t i).2 j)) := by
  have h := check_dup_hist o s t i j
  refine ⟨h, ?_, ?_⟩
  · intro hdup
    rcases h with h | ⟨_, hfalse, _, _⟩
    · exact h
    · rw [hdup] at hfalse
      exact Bool.noConfusion hfalse
  · intro hcomp
    rcases h with h | ⟨_, _, hcompat, happ⟩
    · rw [h]
      exact hcomp
    · rw [happ]
      unfold histCompat at hcomp ⊢
      rw [List.pairwise_append]
      refine ⟨hcomp, List.pairwise_singleton _ _, ?_⟩
      intro a ha b hb
      rw [List.mem_singleton] at hb
      subst hb
      exact hcompat a ha

end InterviewEngineM

namespace InterviewEngineM

/-- Candidate-question handling touches only the candidate-question log and
the conversation memory. -/
theorem handle_candidate_state (o : Oracle) (s : EngineState) (t : String)
    (q : Question) :
    ∃ cqs mem, (handle_candidate_question o s t q).2 =
      {s with candidate_questions := cqs, memory := mem} := by
  unfold handle_candidate_question
  cases o.candidateAnswer t <;> exact ⟨_, _, rfl⟩

/-- `get_next_question` advances the cursor and touches no follow-up or
duplicate-history state. -/
theorem get_next_spec (s : EngineState) :
    (get_next_question s).2.current_question_index =
      s.current_question_index + 1 ∧
    (get_next_question s).2.follow_ups = s.follow_ups := by
  unfold get_next_question
  dsimp only
  split <;> exact ⟨rfl, rfl⟩

/-- Summary generation only stores the summary. -/
theorem generateSummary_state (o : Oracle) (s : EngineState) (e : Bool) :
    ∃ sum, (generateSummary o s e).1 = {s with summary := some sum} := by
  unfold generateSummary
  split <;> exact ⟨_, rfl⟩

/-- `_handle_interview_completion` keeps the cursor and the follow-up log,
on the normal path and on the missing-script error path alike. -/
theorem handle_completion_spec (o : Oracle) (s : EngineState) :
    (∀ b r s2, handle_interview_completion o s = .ok (b, r, s2) →
      b = Branch.completion ∧
      s2.current_question_index = s.current_question_index ∧
      s2.follow_ups = s.follow_ups) ∧
    (∀ s2, handle_interview_completion o s = .error s2 →
      s2.current_question_index = s.current_question_index ∧
      s2.follow_ups = s.follow_ups) := by
  obtain ⟨sum, hsum⟩ := generateSummary_state o
    {s with interview_complete := true} false
  unfold handle_interview_completion
  constructor
  · intro b r s2 h
    dsimp only at h
    split at h
    · simp only [Except.ok.injEq, Prod.mk.injEq] at h
      obtain ⟨hb, _, hs⟩ := h
      refine ⟨hb.symm, ?_, ?_⟩ <;> rw [← hs, hsum]
    · exact absurd h (by simp)
  · intro s2 h
    dsimp only at h
    split at h
    · exact absurd h (by simp)
    · simp only [Except.error.injEq] at h
      refine ⟨?_, ?_⟩ <;> rw [← h, hsum]

/-- `_handle_next_question` advances the cursor by exactly one and keeps
the follow-up log, also on its error path. -/
theorem handle_next_spec (o : Oracle) (s : EngineState) (t : String)
    (q : Question) :
    (∀ b r s2, handle_next_question o s t q = .ok (b, r, s2) →
      (b = Branch.advance ∨ b = Branch.completion) ∧
      s2.current_question_index = s.current_question_index + 1 ∧
      s2.follow_ups = s.follow_ups) ∧
    (∀ s2, handle_next_question o s t q = .error s2 →
      s2.current_question_index = s.current_question_index + 1 ∧
      s2.follow_ups = s.follow_ups) := by
  obtain ⟨hgc, hgf⟩ := get_next_spec s
  unfold handle_next_question
  rcases hgn : get_next_question s with ⟨nq, sg⟩
  rw [hgn] at hgc hgf
  cases nq with
  | some q2 =>
      constructor
      · intro b r s2 h
        dsimp only at h
        simp only [Except.ok.injEq, Prod.mk.injEq] at h
        obtain ⟨hb, _, hs⟩ := h
        refine ⟨Or.inl hb.symm, ?_, ?_⟩ <;> rw [← hs]
        · exact hgc
        · exact hgf
      · intro s2 h
        dsimp only at h
        exact absurd h (by simp)
  | none =>
      obtain ⟨hok, herr⟩ := handle_completion_spec o sg
      constructor
      · intro b r s2 h
        dsimp only at h
        obtain ⟨hb, h1, h2⟩ := hok b r s2 h
        exact ⟨Or.inr hb, by rw [h1, hgc], by rw [h2, hgf]⟩
      · intro s2 h
        dsimp only at h
        obtain ⟨h1, h2⟩ := herr s2 h
        exact ⟨by rw [h1, hgc], by rw [h2, hgf]⟩

/-- `_handle_follow_up_generation` either records exactly one follow-up for
the current question and keeps the cursor, or falls through to the
next-question handler. -/
theorem handle_fug_spec (o : Oracle) (s : EngineState) (t : String)
    (q : Question) :
    (∀ b r s2, handle_follow_up_generation o s t q = .ok (b, r, s2) →
      ((b = Branch.advance ∨ b = Branch.completion) ∧
        s2.current_question_index = s.current_question_index + 1 ∧
        s2.follow_ups = s.follow_ups) ∨
      (b = Branch.followUpIssued ∧
        s2.current_question_index = s.current_question_index ∧
        ∃ fu, s2.follow_ups = s.follow_ups ++
          [⟨s.current_question_index, q, fu, t⟩])) ∧
    (∀ s2, handle_follow_up_generation o s t q = .error s2 →
      s2.current_question_index = s.current_question_index + 1 ∧
      s2.follow_ups = s.follow_ups) := by
  unfold handle_follow_up_generation
  cases hfg : o.followUpGen t q with
  | error e =>
      exact ⟨fun b r s2 h => Or.inl ((handle_next_spec o s t q).1 b r s2 h),
        (handle_next_spec o s t q).2⟩
  | ok onq =>
      cases onq with
      | none =>
          exact ⟨fun b r s2 h =>
            Or.inl ((handle_next_spec o s t q).1 b r s2 h),
            (handle_next_spec o s t q).2⟩
      | some fu =>
          constructor
          · intro b r s2 h
            dsimp only at h
            simp only [Except.ok.injEq, Prod.mk.injEq] at h
            obtain ⟨hb, _, hs⟩ := h
            right
            refine ⟨hb.symm, ?_, fu, ?_⟩ <;> rw [← hs]
          · intro s2 h
            dsimp only at h
            exact absurd h (by simp)

end InterviewEngineM


namespace InterviewEngineM

/-- `_handle_duplicate_response` keeps the follow-up log; it keeps the
cursor on candidate-question handling and advances it by one on the
duplicate-skip and end-of-interview paths, including the missing-script
error path. -/
theorem handle_dup_spec (o : Oracle) (s : EngineState) (t : String)
    (q : Question) :
    match handle_duplicate_response o s t q with
    | .ok (b, _, s2) =>
        ((b = Branch.candidateQuestion ∧
           s2.current_question_index = s.current_question_index) ∨
         ((b = Branch.duplicateAdvance ∨ b = Branch.duplicateComplete) ∧
           s2.current_question_index = s.current_question_index + 1)) ∧
        s2.follow_ups = s.follow_ups
    | .error s2 =>
        s2.current_question_index = s.current_question_index + 1 ∧
        s2.follow_ups = s.follow_ups := by
  obtain ⟨qc1, hd1⟩ := detect_state o s t
  rcases hdet1 : detect_candidate_question o s t with ⟨isQ, sd⟩
  have hsd : sd = {s with question_cache := qc1} := by
    rw [hdet1] at hd1
    exact hd1
  have hsdc : sd.current_question_index = s.current_question_index := by
    rw [hsd]
  have hsdf : sd.follow_ups = s.follow_ups := by
    rw [hsd]
  unfold handle_duplicate_response
  rw [hdet1]
  dsimp only
  cases isQ with
  | true =>
      rcases hhc : handle_candidate_question o sd t q with ⟨rr, sc⟩
      obtain ⟨cqs, mem, hsc⟩ := handle_candidate_state o sd t q
      rw [hhc] at hsc
      dsimp only at hsc
      rw [if_pos rfl]
      dsimp only
      refine ⟨Or.inl ⟨rfl, ?_⟩, ?_⟩ <;> rw [hsc]
      · exact hsdc
      · exact hsdf
  | false =>
      rw [if_neg (by simp : ¬ (false = true))]
      by_cases hcat : q.category = "closing"
      · rw [if_pos hcat]
        obtain ⟨qc2, hd2⟩ := detect_state o sd t
        rcases hdet2 : detect_candidate_question o sd t with ⟨isQ2, sd2⟩
        have hsd2 : sd2 = {sd with question_cache := qc2} := by
          rw [hdet2] at hd2
          exact hd2
        have hsd2c : sd2.current_question_index =
            s.current_question_index := by
          rw [hsd2]
          exact hsdc
        have hsd2f : sd2.follow_ups = s.follow_ups := by
          rw [hsd2]
          exact hsdf
        dsimp only
        cases isQ2 with
        | true =>
            rcases hhc : handle_candidate_question o sd2 t q with ⟨rr, sc⟩
            obtain ⟨cqs, mem, hsc⟩ := handle_candidate_state o sd2 t q
            rw [hhc] at hsc
            dsimp only at hsc
            rw [if_pos rfl]
            dsimp only
            refine ⟨Or.inl ⟨rfl, ?_⟩, ?_⟩ <;> rw [hsc]
            · exact hsd2c
            · exact hsd2f
        | false =>
            rw [if_neg (by simp : ¬ (false = true))]
            obtain ⟨hgc, hgf⟩ := get_next_spec sd2
            rcases hgn : get_next_question sd2 with ⟨nq, sg⟩
            rw [hgn] at hgc hgf
            dsimp only
            cases nq with
            | some q2 =>
                exact ⟨Or.inr ⟨Or.inl rfl, by rw [hgc, hsd2c]⟩,
                  by rw [hgf, hsd2f]⟩
            | none =>
                dsimp only
                obtain ⟨sum, hsum⟩ := generateSummary_state o
                  {sg with interview_active := false,
                           interview_complete := true} false
                rcases hgs : generateSummary o
                    {sg with interview_active := false,
                             interview_complete := true} false
                  with ⟨s5, jg⟩
                have hs5 : s5 =
                    {sg with interview_active := false,
                             interview_complete := true,
                             summary := some sum} := by
                  rw [hgs] at hsum
                  exact hsum
                have hs5c : s5.current_question_index =
                    s.current_question_index + 1 := by
                  rw [hs5]
                  show sg.current_question_index =
                    s.current_question_index + 1
                  rw [hgc, hsd2c]
                have hs5f : s5.follow_ups = s.follow_ups := by
                  rw [hs5]
                  show sg.follow_ups = s.follow_ups
                  rw [hgf, hsd2f]
                dsimp only
                cases hscr : s5.script with
                | some scr => exact ⟨Or.inr ⟨Or.inr rfl, hs5c⟩, hs5f⟩
                | none => exact ⟨hs5c, hs5f⟩
      · rw [if_neg hcat]
        dsimp only
        rw [if_neg (by simp : ¬ (false = true))]
        obtain ⟨hgc, hgf⟩ := get_next_spec sd
        rcases hgn : get_next_question sd with ⟨nq, sg⟩
        rw [hgn] at hgc hgf
        dsimp only
        cases nq with
        | some q2 =>
            exact ⟨Or.inr ⟨Or.inl rfl, by rw [hgc, hsdc]⟩,
              by rw [hgf, hsdf]⟩
        | none =>
            dsimp only
            obtain ⟨sum, hsum⟩ := generateSummary_state o
              {sg with interview_active := false,
                       interview_complete := true} false
            rcases hgs : generateSummary o
                {sg with interview_active := false,
                         interview_complete := true} false
              with ⟨s5, jg⟩
            have hs5 : s5 =
                {sg with interview_active := false,
                         interview_complete := true,
                         summary := some sum} := by
              rw [hgs] at hsum
              exact hsum
            have hs5c : s5.current_question_index =
                s.current_question_index + 1 := by
              rw [hs5]
              show sg.current_question_index = s.current_question_index + 1
              rw [hgc, hsdc]
            have hs5f : s5.follow_ups = s.follow_ups := by
              rw [hs5]
              show sg.follow_ups = s.follow_ups
              rw [hgf, hsdf]
            dsimp only
            cases hscr : s5.script with
            | some scr => exact ⟨Or.inr ⟨Or.inr rfl, hs5c⟩, hs5f⟩
            | none => exact ⟨hs5c, hs5f⟩

end InterviewEngineM

namespace InterviewEngineM

/-- `_process_response_core`: the cursor moves by at most one, stays put on
the candidate-question and follow-up-issued outcomes, advances only on
`advance`-flavoured outcomes, and the follow-up log grows only by one
record for the current question and only when fewer than two follow-ups
were recorded for it. -/
theorem process_core_spec (o : Oracle) (s : EngineState) (t : String)
    (q : Question) :
    ((coreState (process_response_core o s t q)).current_question_index =
        s.current_question_index ∨
     (coreState (process_response_core o s t q)).current_question_index =
        s.current_question_index + 1) ∧
    ((coreBranch (process_response_core o s t q) =
        some Branch.candidateQuestion ∨
      coreBranch (process_response_core o s t q) =
        some Branch.followUpIssued) →
      (coreState (process_response_core o s t q)).current_question_index =
        s.current_question_index) ∧
    ((coreState (process_response_core o s t q)).current_question_index ≠
        s.current_question_index →
      ∀ b, coreBranch (process_response_core o s t q) = some b →
        advanceBranch b = true) ∧
    (coreBranch (process_response_core o s t q) =
        some Branch.followUpIssued →
      countFU s s.current_question_index ≤ 1 ∧
      ∃ fu, (coreState (process_response_core o s t q)).follow_ups =
        s.follow_ups ++ [⟨s.current_question_index, q, fu, t⟩]) ∧
    (coreBranch (process_response_core o s t q) ≠
        some Branch.followUpIssued →
      (coreState (process_response_core o s t q)).follow_ups =
        s.follow_ups) := by
  obtain ⟨pr, qc, hcs⟩ := check_dup_state o s t s.current_question_index
  rcases hcd : check_duplicate_response o s t s.current_question_index
    with ⟨isDup, s1⟩
  have hs1 : s1 = {s with previous_responses := pr, question_cache := qc} :=
    by rw [hcd] at hcs; exact hcs
  have h1c : s1.current_question_index = s.current_question_index := by
    rw [hs1]
  have h1f : s1.follow_ups = s.follow_ups := by
    rw [hs1]
  unfold process_response_core
  rw [hcd]
  dsimp only
  cases isDup with
  | true =>
      rw [if_pos rfl]
      have hd := handle_dup_spec o s1 t q
      cases hdup : handle_duplicate_response o s1 t q with
      | ok out =>
          rw [hdup] at hd
          obtain ⟨b, r, s2⟩ := out
          dsimp only at hd
          obtain ⟨hbr, hf⟩ := hd
          dsimp only [coreState, coreBranch]
          refine ⟨?_, ?_, ?_, ?_, fun _ => by rw [hf, h1f]⟩
          · rcases hbr with ⟨_, hcur⟩ | ⟨_, hcur⟩
            · exact Or.inl (by rw [hcur, h1c])
            · exact Or.inr (by rw [hcur, h1c])
          · intro hb
            rcases hbr with ⟨hbc, hcur⟩ | ⟨hbd, hcur⟩
            · rw [hcur, h1c]
            · rcases hb with hb | hb <;>
                rcases hbd with rfl | rfl <;>
                  exact absurd (Option.some.inj hb) (by simp)
          · intro hne b' hb'
            rcases hbr with ⟨hbc, hcur⟩ | ⟨hbd, hcur⟩
            · exact absurd (by rw [hcur, h1c]) hne
            · have hbb := Option.some.inj hb'
              subst hbb
              rcases hbd with rfl | rfl <;> rfl
          · intro hb
            rcases hbr with ⟨rfl, _⟩ | ⟨hbd, _⟩
            · exact absurd (Option.some.inj hb) (by simp)
            · rcases hbd with rfl | rfl <;>
                exact absurd (Option.some.inj hb) (by simp)
      | error s2 =>
          rw [hdup] at hd
          dsimp only at hd
          dsimp only [coreState, coreBranch]
          refine ⟨Or.inr (by rw [hd.1, h1c]), ?_, ?_,
            fun hb => Option.noConfusion hb, fun _ => by rw [hd.2, h1f]⟩
          · intro hb
            rcases hb with hb | hb <;> exact Option.noConfusion hb
          · intro _ b' hb'
            exact Option.noConfusion hb'
  | false =>
      rw [if_neg (by simp : ¬ (false = true))]
      obtain ⟨qc2, hd2⟩ := detect_state o s1 t
      rcases hdet : detect_candidate_question o s1 t with ⟨isQ, sq⟩
      have hsq : sq = {s1 with question_cache := qc2} := by
        rw [hdet] at hd2
        exact hd2
      have h2c : sq.current_question_index = s.current_question_index := by
        rw [hsq]
        exact h1c
      have h2f : sq.follow_ups = s.follow_ups := by
        rw [hsq]
        exact h1f
      dsimp only
      cases isQ with
      | true =>
          rw [if_pos rfl]
          rcases hhc : handle_candidate_question o sq t q with ⟨rr, sc⟩
          obtain ⟨cqs, mem, hsc⟩ := handle_candidate_state o sq t q
          rw [hhc] at hsc
          dsimp only at hsc
          dsimp only [coreState, coreBranch]
          have hscc : sc.current_question_index = s.current_question_index :=
            by rw [hsc]; exact h2c
          have hscf : sc.follow_ups = s.follow_ups := by
            rw [hsc]
            exact h2f
          refine ⟨Or.inl hscc, fun _ => hscc, fun hne => absurd hscc hne,
            fun hb => absurd (Option.some.inj hb) (by simp),
            fun _ => hscf⟩
      | false =>
          rw [if_neg (by simp : ¬ (false = true))]
          have hfuc : (sq.follow_ups.countP
              fun f => decide (f.question_index =
                sq.current_question_index)) =
              countFU s s.current_question_index := by
            rw [h2f, h2c]
            rfl
          rw [hfuc]
          split
          · rcases hsa : should_ask_follow_up o sq t q
              (countFU s s.current_question_index) with ⟨b1, sq1⟩
            obtain ⟨qc3, g3, hsq1⟩ := should_ask_state o sq t q
              (countFU s s.current_question_index)
            rw [hsa] at hsq1
            dsimp only at hsq1
            have h3c : sq1.current_question_index =
                s.current_question_index := by
              rw [hsq1]
              exact h2c
            have h3f : sq1.follow_ups = s.follow_ups := by
              rw [hsq1]
              exact h2f
            cases b1 with
            | false =>
                split
                rotate_left
                · rename_i hcnd
                  exact absurd (show ¬ (false = true) by simp) hcnd
                obtain ⟨hok, herr⟩ := handle_completion_spec o sq1
                cases hic : handle_interview_completion o sq1 with
                | ok out =>
                    obtain ⟨b, r, s2⟩ := out
                    obtain ⟨hb, hcur, hf⟩ := hok b r s2 hic
                    dsimp only [coreState, coreBranch]
                    subst hb
                    have hc2 : s2.current_question_index =
                        s.current_question_index := by rw [hcur, h3c]
                    refine ⟨Or.inl hc2, fun _ => hc2,
                      fun hne => absurd hc2 hne,
                      fun hb => absurd (Option.some.inj hb) (by simp),
                      fun _ => by rw [hf, h3f]⟩
                | error s2 =>
                    obtain ⟨hcur, hf⟩ := herr s2 hic
                    dsimp only [coreState, coreBranch]
                    refine ⟨Or.inl (by rw [hcur, h3c]), ?_, ?_,
                      fun hb => Option.noConfusion hb,
                      fun _ => by rw [hf, h3f]⟩
                    · intro hb
                      rcases hb with hb | hb <;> exact Option.noConfusion hb
                    · intro _ b' hb'
                      exact Option.noConfusion hb'
            | true =>
                split
                · rename_i hcnd
                  exact absurd rfl hcnd
                rcases hsa2 : should_ask_follow_up o sq1 t q
                  (countFU s s.current_question_index) with ⟨b2, sq2⟩
                obtain ⟨qc4, g4, hsq2⟩ := should_ask_state o sq1 t q
                  (countFU s s.current_question_index)
                rw [hsa2] at hsq2
                dsimp only at hsq2
                have h4c : sq2.current_question_index =
                    s.current_question_index := by
                  rw [hsq2]
                  exact h3c
                have h4f : sq2.follow_ups = s.follow_ups := by
                  rw [hsq2]
                  exact h3f
                have hsa2v : (should_ask_follow_up o sq1 t q
                    (countFU s s.current_question_index)).1 = b2 := by
                  rw [hsa2]
                cases b2 with
                | true =>
                    split
                    rotate_left
                    · rename_i hcnd
                      exact absurd rfl hcnd
                    obtain ⟨hok, herr⟩ := handle_fug_spec o sq2 t q
                    cases hfug : handle_follow_up_generation o sq2 t q with
                    | ok out =>
                        obtain ⟨b, r, s2⟩ := out
                        dsimp only [coreState, coreBranch]
                        rcases hok b r s2 hfug with
                          ⟨hb, hcur, hf⟩ | ⟨hb, hcur, fu, hf⟩
                        · have hc2 : s2.current_question_index =
                              s.current_question_index + 1 := by
                            rw [hcur, h4c]
                          refine ⟨Or.inr hc2, ?_, ?_, ?_,
                            fun _ => by rw [hf, h4f]⟩
                          · intro hb2
                            rcases hb2 with hb2 | hb2 <;>
                              rcases hb with rfl | rfl <;>
                                exact absurd (Option.some.inj hb2) (by simp)
                          · intro _ b' hb'
                            have hbb := Option.some.inj hb'
                            subst hbb
                            rcases hb with rfl | rfl <;> rfl
                          · intro hb2
                            rcases hb with rfl | rfl <;>
                              exact absurd (Option.some.inj hb2) (by simp)
                        · have hc2 : s2.current_question_index =
                              s.current_question_index := by
                            rw [hcur, h4c]
                          subst hb
                          refine ⟨Or.inl hc2, fun _ => hc2,
                            fun hne => absurd hc2 hne, fun _ => ⟨?_, ?_⟩,
                            fun hb => absurd rfl hb⟩
                          · exact should_ask_le_one o sq1 t q
                              (countFU s s.current_question_index)
                              (by rw [hsa2])
                          · exact ⟨fu, by rw [hf, h4f, h4c]⟩
                    | error s2 =>
                        obtain ⟨hcur, hf⟩ := herr s2 hfug
                        dsimp only [coreState, coreBranch]
                        refine ⟨Or.inr (by rw [hcur, h4c]), ?_, ?_,
                          fun hb => Option.noConfusion hb,
                          fun _ => by rw [hf, h4f]⟩
                        · intro hb
                          rcases hb with hb | hb <;>
                            exact Option.noConfusion hb
                        · intro _ b' hb'
                          exact Option.noConfusion hb'
                | false =>
                    split
                    · rename_i hcnd
                      exact Bool.noConfusion hcnd
                    obtain ⟨hok, herr⟩ := handle_next_spec o sq2 t q
                    cases hnx : handle_next_question o sq2 t q with
                    | ok out =>
                        obtain ⟨b, r, s2⟩ := out
                        obtain ⟨hb, hcur, hf⟩ := hok b r s2 hnx
                        dsimp only [coreState, coreBranch]
                        have hc2 : s2.current_question_index =
                            s.current_question_index + 1 := by
                          rw [hcur, h4c]
                        refine ⟨Or.inr hc2, ?_, ?_, ?_,
                          fun _ => by rw [hf, h4f]⟩
                        · intro hb2
                          rcases hb2 with hb2 | hb2 <;>
                            rcases hb with rfl | rfl <;>
                              exact absurd (Option.some.inj hb2) (by simp)
                        · intro _ b' hb'
                          have hbb := Option.some.inj hb'
                          subst hbb
                          rcases hb with rfl | rfl <;> rfl
                        · intro hb2
                          rcases hb with rfl | rfl <;>
                            exact absurd (Option.some.inj hb2) (by simp)
                    | error s2 =>
                        obtain ⟨hcur, hf⟩ := herr s2 hnx
                        dsimp only [coreState, coreBranch]
                        refine ⟨Or.inr (by rw [hcur, h4c]), ?_, ?_,
                          fun hb => Option.noConfusion hb,
                          fun _ => by rw [hf, h4f]⟩
                        · intro hb
                          rcases hb with hb | hb <;>
                            exact Option.noConfusion hb
                        · intro _ b' hb'
                          exact Option.noConfusion hb'
          · rcases hsa : should_ask_follow_up o sq t q
              (countFU s s.current_question_index) with ⟨b2, sq2⟩
            obtain ⟨qc4, g4, hsq2⟩ := should_ask_state o sq t q
              (countFU s s.current_question_index)
            rw [hsa] at hsq2
            dsimp only at hsq2
            have h4c : sq2.current_question_index =
                s.current_question_index := by
              rw [hsq2]
              exact h2c
            have h4f : sq2.follow_ups = s.follow_ups := by
              rw [hsq2]
              exact h2f
            cases b2 with
            | true =>
                split
                rotate_left
                · rename_i hcnd
                  exact absurd rfl hcnd
                obtain ⟨hok, herr⟩ := handle_fug_spec o sq2 t q
                cases hfug : handle_follow_up_generation o sq2 t q with
                | ok out =>
                    obtain ⟨b, r, s2⟩ := out
                    dsimp only [coreState, coreBranch]
                    rcases hok b r s2 hfug with
                      ⟨hb, hcur, hf⟩ | ⟨hb, hcur, fu, hf⟩
                    · have hc2 : s2.current_question_index =
                          s.current_question_index + 1 := by
                        rw [hcur, h4c]
                      refine ⟨Or.inr hc2, ?_, ?_, ?_,
                        fun _ => by rw [hf, h4f]⟩
                      · intro hb2
                        rcases hb2 with hb2 | hb2 <;>
                          rcases hb with rfl | rfl <;>
                            exact absurd (Option.some.inj hb2) (by simp)
                      · intro _ b' hb'
                        have hbb := Option.some.inj hb'
                        subst hbb
                        rcases hb with rfl | rfl <;> rfl
                      · intro hb2
                        rcases hb with rfl | rfl <;>
                          exact absurd (Option.some.inj hb2) (by simp)
                    · have hc2 : s2.current_question_index =
                          s.current_question_index := by
                        rw [hcur, h4c]
                      subst hb
                      refine ⟨Or.inl hc2, fun _ => hc2,
                        fun hne => absurd hc2 hne, fun _ => ⟨?_, ?_⟩,
                        fun hb => absurd rfl hb⟩
                      · exact should_ask_le_one o sq t q
                          (countFU s s.current_question_index)
                          (by rw [hsa])
                      · exact ⟨fu, by rw [hf, h4f, h4c]⟩
                | error s2 =>
                    obtain ⟨hcur, hf⟩ := herr s2 hfug
                    dsimp only [coreState, coreBranch]
                    refine ⟨Or.inr (by rw [hcur, h4c]), ?_, ?_,
                      fun hb => Option.noConfusion hb,
                      fun _ => by rw [hf, h4f]⟩
                    · intro hb
                      rcases hb with hb | hb <;> exact Option.noConfusion hb
                    · intro _ b' hb'
                      exact Option.noConfusion hb'
            | false =>
                split
                · rename_i hcnd
                  exact Bool.noConfusion hcnd
                obtain ⟨hok, herr⟩ := handle_next_spec o sq2 t q
                cases hnx : handle_next_question o sq2 t q with
                | ok out =>
                    obtain ⟨b, r, s2⟩ := out
                    obtain ⟨hb, hcur, hf⟩ := hok b r s2 hnx
                    dsimp only [coreState, coreBranch]
                    have hc2 : s2.current_question_index =
                        s.current_question_index + 1 := by
                      rw [hcur, h4c]
                    refine ⟨Or.inr hc2, ?_, ?_, ?_,
                      fun _ => by rw [hf, h4f]⟩
                    · intro hb2
                      rcases hb2 with hb2 | hb2 <;>
                        rcases hb with rfl | rfl <;>
                          exact absurd (Option.some.inj hb2) (by simp)
                    · intro _ b' hb'
                      have hbb := Option.some.inj hb'
                      subst hbb
                      rcases hb with rfl | rfl <;> rfl
                    · intro hb2
                      rcases hb with rfl | rfl <;>
                        exact absurd (Option.some.inj hb2) (by simp)
                | error s2 =>
                    obtain ⟨hcur, hf⟩ := herr s2 hnx
                    dsimp only [coreState, coreBranch]
                    refine ⟨Or.inr (by rw [hcur, h4c]), ?_, ?_,
                      fun hb => Option.noConfusion hb,
                      fun _ => by rw [hf, h4f]⟩
                    · intro hb
                      rcases hb with hb | hb <;> exact Option.noConfusion hb
                    · intro _ b' hb'
                      exact Option.noConfusion hb'

end InterviewEngineM

namespace InterviewEngineM

/-- The fallback handler advances the cursor by one and keeps the follow-up
log. -/
theorem fallback_spec (s : EngineState) :
    (fallback_response_handler s).2.current_question_index =
      s.current_question_index + 1 ∧
    (fallback_response_handler s).2.follow_ups = s.follow_ups := by
  unfold fallback_response_handler
  dsimp only
  split <;> exact ⟨rfl, rfl⟩

/-- The per-turn step invariants of `process_response`: the cursor never
decreases; it stays put on the candidate-question, follow-up and
already-complete outcomes and moves only on `advance`-flavoured outcomes;
the follow-up log grows only by a single record for the current question,
and only when at most one follow-up was already recorded for it. -/
theorem process_response_step (o : Oracle) (s : EngineState) (t : String) :
    (s.current_question_index ≤
      (process_response_b o s t).2.2.current_question_index) ∧
    (((process_response_b o s t).1 = Branch.candidateQuestion ∨
      (process_response_b o s t).1 = Branch.followUpIssued ∨
      (process_response_b o s t).1 = Branch.alreadyComplete) →
      (process_response_b o s t).2.2.current_question_index =
        s.current_question_index) ∧
    ((process_response_b o s t).2.2.current_question_index ≠
        s.current_question_index →
      advanceBranch (process_response_b o s t).1 = true) ∧
    ((process_response_b o s t).1 = Branch.followUpIssued →
      countFU s s.current_question_index ≤ 1 ∧
      ∃ q fu, (process_response_b o s t).2.2.follow_ups = s.follow_ups ++
        [⟨s.current_question_index, q, fu, t⟩]) ∧
    ((process_response_b o s t).1 ≠ Branch.followUpIssued →
      (process_response_b o s t).2.2.follow_ups = s.follow_ups) := by
  unfold process_response_b
  dsimp only
  cases hq : s.questions.get? s.current_question_index with
  | none =>
      obtain ⟨hfc, hff⟩ := fallback_spec
        {s with responses := s.responses ++
          [⟨s.current_question_index, none, t⟩]}
      rcases hfb : fallback_response_handler
        {s with responses := s.responses ++
          [⟨s.current_question_index, none, t⟩]} with ⟨rf, sf⟩
      rw [hfb] at hfc hff
      dsimp only at hfc hff
      refine ⟨by rw [hfc]; omega, ?_, fun _ => rfl, ?_, fun _ => hff⟩
      · intro hb
        rcases hb with hb | hb | hb <;> exact Branch.noConfusion hb
      · intro hb
        exact Branch.noConfusion hb
  | some cq =>
      dsimp only
      split
      · refine ⟨Nat.le.refl, fun _ => rfl, fun hne => absurd rfl hne, ?_,
          fun _ => rfl⟩
        intro hb
        exact Branch.noConfusion hb
      · have hspec := process_core_spec o
          {s with
            responses := s.responses ++
              [⟨s.current_question_index, some cq, t⟩],
            memory := addExchange s.memory 10
              {qText := cq.question, qCategory := cq.category,
               response := t}} t cq
        cases hcore : process_response_core o
          {s with
            responses := s.responses ++
              [⟨s.current_question_index, some cq, t⟩],
            memory := addExchange s.memory 10
              {qText := cq.question, qCategory := cq.category,
               response := t}} t cq with
        | ok out =>
            rw [hcore] at hspec
            obtain ⟨b, r, s2⟩ := out
            dsimp only [coreState, coreBranch] at hspec
            obtain ⟨h1, h2, h3, h4, h5⟩ := hspec
            dsimp only
            refine ⟨?_, ?_, ?_, ?_, ?_⟩
            · rcases h1 with h1 | h1 <;> rw [h1] <;> omega
            · intro hb
              rcases hb with hb | hb | hb
              · exact h2 (Or.inl (by rw [hb]))
              · exact h2 (Or.inr (by rw [hb]))
              · by_contra hne
                have := h3 hne b rfl
                rw [hb] at this
                exact Bool.noConfusion this
            · intro hne
              exact h3 hne b rfl
            · intro hb
              obtain ⟨hcnt, fu, hfu⟩ := h4 (by rw [hb])
              exact ⟨hcnt, cq, fu, hfu⟩
            · intro hb
              exact h5 (fun hsb => hb (Option.some.inj hsb))
        | error serr =>
            rw [hcore] at hspec
            dsimp only [coreState, coreBranch] at hspec
            obtain ⟨h1, h2, h3, h4, h5⟩ := hspec
            dsimp only
            obtain ⟨hfc, hff⟩ := fallback_spec serr
            rcases hfb : fallback_response_handler serr with ⟨rf, sf⟩
            rw [hfb] at hfc hff
            dsimp only at hfc hff
            have hfu2 : serr.follow_ups = s.follow_ups :=
              h5 (fun hsb => Option.noConfusion hsb)
            refine ⟨?_, ?_, fun _ => rfl, ?_, ?_⟩
            · rcases h1 with h1 | h1 <;> rw [hfc, h1] <;> omega
            · intro hb
              rcases hb with hb | hb | hb <;> exact Branch.noConfusion hb
            · intro hb
              exact Branch.noConfusion hb
            · intro _
              rw [hff]
              exact hfu2

end InterviewEngineM

namespace InterviewEngineM

/-- The cursor never decreases across a sequence of submitted responses. -/
theorem runResponses_mono (o : Oracle) (ts : List String) :
    ∀ s : EngineState, s.current_question_index ≤
      (runResponses o s ts).current_question_index := by
  induction ts with
  | nil => intro s; exact Nat.le.refl
  | cons t0 rest ih =>
      intro s
      exact le_trans (process_response_step o s t0).1 (ih _)

/-- One turn preserves the two-follow-ups-per-question cap. -/
theorem countFU_step (o : Oracle) (s : EngineState) (t : String)
    (hinv : ∀ j, countFU s j ≤ 2) (i : Nat) :
    countFU (process_response_b o s t).2.2 i ≤ 2 := by
  obtain ⟨_, _, _, h4, h5⟩ := process_response_step o s t
  by_cases hb : (process_response_b o s t).1 = Branch.followUpIssued
  · obtain ⟨hcnt, q, fu, hfu⟩ := h4 hb
    unfold countFU at hcnt hinv ⊢
    rw [hfu, List.countP_append]
    by_cases hi : s.current_question_index = i
    · have hone : List.countP
          (fun f => decide (FollowUpRec.question_index f = i))
          [(⟨s.current_question_index, q, fu, t⟩ : FollowUpRec)] = 1 := by
        simp [hi]
      rw [hone, ← hi]
      have h2 := hcnt
      omega
    · have hzero : List.countP
          (fun f => decide (FollowUpRec.question_index f = i))
          [(⟨s.current_question_index, q, fu, t⟩ : FollowUpRec)] = 0 := by
        simp [hi]
      rw [hzero]
      have h2 := hinv i
      omega
  · have heq : countFU (process_response_b o s t).2.2 i = countFU s i := by
      unfold countFU
      rw [h5 hb]
    rw [heq]
    exact hinv i

/-- The cap is preserved along any sequence of submitted responses. -/
theorem countFU_run (o : Oracle) (ts : List String) :
    ∀ s : EngineState, (∀ j, countFU s j ≤ 2) →
      ∀ i, countFU (runResponses o s ts) i ≤ 2 := by
  induction ts with
  | nil => intro s h i; exact h i
  | cons t0 rest ih =>
      intro s h i
      exact ih _ (fun j => countFU_step o s t0 h j) i

/-- C5: starting from any session satisfying the two-per-question follow-up
cap, one turn and any sequence of turns preserve the cap; in a non-demo
session that already has two follow-ups recorded for the current question,
the turn does not issue another follow-up and leaves the follow-up log
unchanged, because the decision procedure refuses before consulting the
quality signal whenever two follow-ups are recorded. -/
theorem c5_follow_up_cap (o : Oracle) (s : EngineState) (t : String)
    (hinv : ∀ i, countFU s i ≤ 2) :
    (∀ i, countFU (process_response_b o s t).2.2 i ≤ 2) ∧
    (∀ ts i, countFU (runResponses o s ts) i ≤ 2) ∧
    (s.demo_mode = false → 2 ≤ countFU s s.current_question_index →
      (process_response_b o s t).1 ≠ Branch.followUpIssued ∧
      (process_response_b o s t).2.2.follow_ups = s.follow_ups) ∧
    (∀ (s2 : EngineState) (q : Question) (n : Nat), s2.demo_mode = false →
      2 ≤ n → should_ask_follow_up o s2 t q n = (false, s2)) := by
  refine ⟨countFU_step o s t hinv, fun ts i => countFU_run o ts s hinv i,
    ?_, fun s2 q n hd hn => should_ask_capped o s2 t q n hd hn⟩
  intro _ hfc
  have hb : (process_response_b o s t).1 ≠ Branch.followUpIssued := by
    intro hb
    obtain ⟨hcnt, _⟩ := (process_response_step o s t).2.2.2.1 hb
    omega
  exact ⟨hb, (process_response_step o s t).2.2.2.2 hb⟩

/-- C6: across any sequence of submitted responses the cursor is
non-decreasing; within one turn it stays fixed on the candidate-question,
follow-up-issued and already-complete outcomes, and a strict increase
happens only on an `advance`-flavoured transition. -/
theorem c6_cursor_monotonicity (o : Oracle) (s : EngineState)
    (ts : List String) (t : String) :
    s.current_question_index ≤
      (runResponses o s ts).current_question_index ∧
    (((process_response_b o s t).1 = Branch.candidateQuestion ∨
      (process_response_b o s t).1 = Branch.followUpIssued ∨
      (process_response_b o s t).1 = Branch.alreadyComplete) →
      (process_response_b o s t).2.2.current_question_index =
        s.current_question_index) ∧
    ((process_response_b o s t).2.2.current_question_index ≠
        s.current_question_index →
      advanceBranch (process_response_b o s t).1 = true) ∧
    s.current_question_index ≤
      (process_response_b o s t).2.2.current_question_index :=
  ⟨runResponses_mono o ts s, (process_response_step o s t).2.1,
   (process_response_step o s t).2.2.1, (process_response_step o s t).1⟩

end InterviewEngineM

namespace InterviewEngineM

/-- C5 witness: a concrete capped session; the turn does not issue a third
follow-up. -/
theorem c5_witness :
    (∀ i, countFU stateFU2 i ≤ 2) ∧
    stateFU2.demo_mode = false ∧
    2 ≤ countFU stateFU2 stateFU2.current_question_index ∧
    (process_response_b oracleC stateFU2 ansA).1 ≠ Branch.followUpIssued ∧
    (process_response_b oracleC stateFU2 ansA).2.2.follow_ups =
      stateFU2.follow_ups :=
  have hinv : ∀ i, countFU stateFU2 i ≤ 2 :=
    fun _ => le_trans (List.countP_le_length _) (by decide)
  ⟨hinv, rfl, by decide,
   ((c5_follow_up_cap oracleC stateFU2 ansA hinv).2.2.1 rfl (by decide)).1,
   ((c5_follow_up_cap oracleC stateFU2 ansA hinv).2.2.1 rfl (by decide)).2⟩

end InterviewEngineM

namespace ResourceMonitorM

/-- The code's eviction order is transitive. -/
theorem entryLE_trans : ∀ a b c : String × EngineEntry,
    entryLE a b = true → entryLE b c = true → entryLE a c = true := by
  intro a b c hab hbc
  unfold entryLE at hab hbc ⊢
  simp only [Bool.or_eq_true, decide_eq_true_eq] at hab hbc ⊢
  omega

/-- The code's eviction order is total. -/
theorem entryLE_total : ∀ a b : String × EngineEntry,
    (entryLE a b || entryLE b a) = true := by
  intro a b
  unfold entryLE
  simp only [Bool.or_eq_true, decide_eq_true_eq]
  omega

/-- The spec's eviction order is transitive. -/
theorem specEntryLE_trans : ∀ a b c : String × EngineEntry,
    specEntryLE a b = true → specEntryLE b c = true →
      specEntryLE a c = true := by
  intro a b c hab hbc
  unfold specEntryLE at hab hbc ⊢
  simp only [Bool.or_eq_true, decide_eq_true_eq] at hab hbc ⊢
  omega

/-- The spec's eviction order is total. -/
theorem specEntryLE_total : ∀ a b : String × EngineEntry,
    (specEntryLE a b || specEntryLE b a) = true := by
  intro a b
  unfold specEntryLE
  simp only [Bool.or_eq_true, decide_eq_true_eq]
  omega

/-- A stable sort of the concrete registry must put its unique minimum
first. -/
theorem mergeSort_head (le : String × EngineEntry →
      String × EngineEntry → Bool)
    (htrans : ∀ a b c, le a b = true → le b c = true → le a c = true)
    (htotal : ∀ a b, (le a b || le b a) = true)
    (m : String × EngineEntry) (hm : m ∈ regC9)
    (hmin : ∀ x ∈ regC9, x ≠ m → le x m = false) :
    ∃ tl, regC9.mergeSort le = m :: tl := by
  obtain ⟨h, tl, hcons⟩ : ∃ h tl, regC9.mergeSort le = h :: tl := by
    cases hl : regC9.mergeSort le with
    | nil =>
        have hlen := @List.length_mergeSort _ le regC9
        rw [hl] at hlen
        exact absurd hlen (by decide)
    | cons h tl => exact ⟨h, tl, rfl⟩
  have hsorted := List.sorted_mergeSort htrans htotal regC9
  rw [hcons] at hsorted
  have hperm := List.mergeSort_perm regC9 le
  rw [hcons] at hperm
  have hmemh : h ∈ regC9 := hperm.mem_iff.mp (List.mem_cons_self h tl)
  have hmemm : m ∈ h :: tl := hperm.mem_iff.mpr hm
  rcases List.mem_cons.mp hmemm with heq | htail
  · exact ⟨tl, by rw [hcons, heq]⟩
  · by_cases hhm : h = m
    · exact ⟨tl, by rw [hcons, hhm]⟩
    · have hle : le h m = true := (List.pairwise_cons.mp hsorted).1 m htail
      rw [hmin h hmemh hhm] at hle
      exact Bool.noConfusion hle

/-- C9 counterexample: on a registry with an access-count tie at the oldest
access time, the code's eviction choice (access count descending on ties)
differs from the specified ranking (access count ascending on ties): the
code evicts `B`, the spec's order would evict `A`. -/
theorem c9_counterexample : evicted regC9 ≠ specEvicted regC9 := by
  obtain ⟨tl1, h1⟩ := mergeSort_head entryLE entryLE_trans entryLE_total
    ("B", ⟨10, 5⟩) (by decide) (by decide)
  obtain ⟨tl2, h2⟩ := mergeSort_head specEntryLE specEntryLE_trans
    specEntryLE_total ("A", ⟨10, 1⟩) (by decide) (by decide)
  unfold evicted specEvicted
  rw [h1, h2]
  intro hc
  have hk : max 1 (regC9.length / 4) = 1 := by decide
  rw [hk] at hc
  simp at hc

/-- C9 amended: when a cleanup fires, it evicts exactly `max 1 (n / 4)`
sessions, all drawn from the registry; the survivors are exactly the
registered sessions whose name was not selected, kept in registry order;
and every evicted session ranks no later than every survivor in the order
actually used by the code — last access ascending with access count
DESCENDING as the tie-break. -/
theorem c9_amended (reg : List (String × EngineEntry)) (hne : reg ≠ []) :
    (evicted reg).length = max 1 (reg.length / 4) ∧
    (∀ e ∈ evicted reg, e ∈ reg) ∧
    cleanup_least_used_engines reg =
      reg.filter (fun e => ¬ ((evicted reg).map Prod.fst).contains e.1) ∧
    (∀ e ∈ evicted reg, ∀ f ∈ cleanup_least_used_engines reg,
      entryLE e f = true) := by
  have hlen : 0 < reg.length := List.length_pos.mpr hne
  refine ⟨?_, ?_, ?_, ?_⟩
  · unfold evicted
    rw [List.length_take, List.length_mergeSort]
    omega
  · intro e he
    unfold evicted at he
    exact (List.mergeSort_perm reg entryLE).mem_iff.mp
      (List.mem_of_mem_take he)
  · unfold cleanup_least_used_engines evicted
    rw [if_neg (by simp [hne] : ¬ reg.isEmpty = true)]
  · intro e he f hf
    have hsorted := List.sorted_mergeSort entryLE_trans entryLE_total reg
    have hsplit := List.take_append_drop (max 1 (reg.length / 4))
      (reg.mergeSort entryLE)
    rw [← hsplit, List.pairwise_append] at hsorted
    obtain ⟨_, _, hcross⟩ := hsorted
    unfold cleanup_least_used_engines at hf
    rw [if_neg (by simp [hne] : ¬ reg.isEmpty = true)] at hf
    rw [List.mem_filter] at hf
    obtain ⟨hfreg, hfpred⟩ := hf
    have hfsorted : f ∈ reg.mergeSort entryLE :=
      (List.mergeSort_perm reg entryLE).mem_iff.mpr hfreg
    rw [← hsplit, List.mem_append] at hfsorted
    unfold evicted at he
    rcases hfsorted with hft | hfd
    · exfalso
      have hcont : (((reg.mergeSort entryLE).take
          (max 1 (reg.length / 4))).map Prod.fst).contains f.1 = true := by
        rw [List.contains_iff_exists_mem_beq]
        exact ⟨f.1, List.mem_map_of_mem Prod.fst hft, by simp⟩
      simp only [decide_eq_true_eq] at hfpred
      exact hfpred hcont
    · exact hcross e he f hfd

/-- C9 witness: the amended statement at the concrete four-session
registry. -/
theorem c9_witness :
    regC9 ≠ [] ∧
    (evicted regC9).length = max 1 (regC9.length / 4) ∧
    ∀ e ∈ evicted regC9, ∀ f ∈ cleanup_least_used_engines regC9,
      entryLE e f = true :=
  ⟨by decide, (c9_amended regC9 (by decide)).1,
   (c9_amended regC9 (by decide)).2.2.2⟩

end ResourceMonitorM
